import Mathlib

/-!
# huji-rich: swept-volume extensive updater, cell-rounding point motion, tetrahedron

A shallow embedding of

* `source/newtonian/two_dimensional/LagrangianExtensiveUpdater.cpp`
  (`LagrangianExtensiveUpdater::operator()`),
* `source/newtonian/two_dimensional/point_motions/round_cells.cpp`
  (`LimitNeighborVelocity`, `CorrectPointsOverShoot`, `RoundCells::calc_dw`,
  `RoundCells::operator()`, `RoundCells::ApplyFix`),
* `source/3D/GeometryCommon/Tetrahedron.cpp`
  (`Tetrahedron::CalculateCenter`, `CalculateVolume`, `CalculateRadius`).

Conventions of the embedding.

* A C++ `double` is an element of an arbitrary linearly ordered field `K`; the
  arithmetic is exact (no rounding, no NaN) and division is the total field
  division.  Every definition is computable and runs on `K = ℚ`.  Where the
  source divides by a zero denominator the double quotient is a NaN or an
  infinity; `correctionStepChecked` and `applyChecked` return `none` there.
* A `std::vector<T>` is a `List T`.  A read `v[i]` is `v.getD i d`, a write
  `v[i] = a` is `v.set i a`.  Reading or writing outside the vector is undefined
  behaviour in C++; here the read yields the default and the write does nothing.
* Cell and edge indices are C++ `int`s that the code uses as `size_t` subscripts;
  they are natural numbers here.
* `abs(Vector2D)` and `Vector2D::distance` live in the geometry module, which is
  not part of the sources at hand; the functions that call them take them as the
  parameters `vabs` and `vdist`.  Theorems that need metric facts ask for them
  through `IsNorm`, which the Euclidean length on `ℝ` satisfies.
* The classes whose declarations are not among the sources (`Vector2D`,
  `Extensive`, `Edge`, `Tessellation`, `CacheData`, `OuterBoundary`,
  `ComputationalCell`, `Vector3D`, `Mat44`) are modelled from the data model and the interface
  descriptions of the specification, restricted to what the two files use.
-/

namespace HujiRich

/-! ## Geometry primitives -/

/-- Modelled from the spec: the `Vector2D` class of the geometry module, whose
declaration is not among the sources; a plane vector with two `double`
coordinates `x` and `y`, as `round_cells.cpp` reads them. -/
structure Vector2D (K : Type) where
  x : K
  y : K
deriving DecidableEq, Repr

namespace Vector2D

variable {K : Type} [LinearOrderedField K]

instance : Zero (Vector2D K) := ⟨⟨0, 0⟩⟩

instance : Inhabited (Vector2D K) := ⟨⟨0, 0⟩⟩

/-- Modelled from the spec: `operator+` of `Vector2D` (geometry module, not among
the sources), the componentwise sum. -/
def add (a b : Vector2D K) : Vector2D K := ⟨a.x + b.x, a.y + b.y⟩

/-- Modelled from the spec: `operator-` of `Vector2D` (geometry module, not among
the sources), the componentwise difference. -/
def sub (a b : Vector2D K) : Vector2D K := ⟨a.x - b.x, a.y - b.y⟩

/-- Modelled from the spec: `operator*(Vector2D, double)` (geometry module, not
among the sources), the product `v * k` with a scalar on the right. -/
def mulS (v : Vector2D K) (k : K) : Vector2D K := ⟨v.x * k, v.y * k⟩

/-- Modelled from the spec: `operator*(double, Vector2D)` (geometry module, not
among the sources), the product `k * v` with a scalar on the left. -/
def smul (k : K) (v : Vector2D K) : Vector2D K := ⟨k * v.x, k * v.y⟩

/-- Modelled from the spec: `operator/(Vector2D, double)` (geometry module, not
among the sources), the quotient `v / k` by a scalar. -/
def divS (v : Vector2D K) (k : K) : Vector2D K := ⟨v.x / k, v.y / k⟩

end Vector2D

/-- What the theorems ask of the vector length `abs(Vector2D)`: it is the
non-negative square root of `x² + y²`. -/
def IsNorm {K : Type} [LinearOrderedField K] (vabs : Vector2D K → K) : Prop :=
  ∀ w : Vector2D K, 0 ≤ vabs w ∧ vabs w * vabs w = w.x * w.x + w.y * w.y

/-! ## Conserved quantities -/

/-- Modelled from the spec: the `Extensive` class, whose declaration is not among
the sources; the conserved-quantity record of a cell with mass, momentum,
energy and the ordered list of tracer masses. -/
structure Extensive (K : Type) where
  mass : K
  momentum : Vector2D K
  energy : K
  tracers : List K
deriving DecidableEq, Repr

namespace Extensive

variable {K : Type} [LinearOrderedField K]

instance : Inhabited (Extensive K) := ⟨⟨0, ⟨0, 0⟩, 0, []⟩⟩

/-- Modelled from the spec: `operator*(double, Extensive)` (not among the
sources), the product `s * e`: every component is scaled. -/
def smul (s : K) (e : Extensive K) : Extensive K :=
  ⟨s * e.mass, Vector2D.smul s e.momentum, s * e.energy, e.tracers.map (fun t => s * t)⟩

/-- Modelled from the spec: `Extensive::operator+=` (not among the sources), the
componentwise sum. -/
def add (a b : Extensive K) : Extensive K :=
  ⟨a.mass + b.mass, Vector2D.add a.momentum b.momentum, a.energy + b.energy,
    List.zipWith (fun s t => s + t) a.tracers b.tracers⟩

/-- Modelled from the spec: `Extensive::operator-=` (not among the sources), the
componentwise difference. -/
def sub (a b : Extensive K) : Extensive K :=
  ⟨a.mass - b.mass, Vector2D.sub a.momentum b.momentum, a.energy - b.energy,
    List.zipWith (fun s t => s - t) a.tracers b.tracers⟩

end Extensive

/-! ## Mesh, cache and flux-calculator state -/

/-- Modelled from the spec: the `Edge` class, whose declaration is not among the
sources; the interface between two cells, of which the updater reads the pair
`neighbors` of cell indices. -/
structure Edge where
  neighbors : Nat × Nat
deriving DecidableEq, Repr

instance : Inhabited Edge := ⟨⟨(0, 0)⟩⟩

/-- Modelled from the spec: the abstract `Tessellation` interface, whose
declaration is not among the sources; the queries that the two source files
call, each a field. -/
structure Tessellation (K : Type) where
  GetPointNo : Nat
  getAllEdges : List Edge
  GetOriginalIndex : Nat → Nat
  GetMeshPoint : Nat → Vector2D K
  GetCellCM : Nat → Vector2D K
  GetWidth : Nat → K
  GetNeighbors : Nat → List Nat

/-- Modelled from the spec: `Tessellation::GetEdge` (not among the sources), edge
number `i` of the mesh: the `i`-th entry of the list returned by
`getAllEdges`. -/
def Tessellation.GetEdge {K : Type} (tess : Tessellation K) (i : Nat) : Edge :=
  tess.getAllEdges.getD i default

/-- Modelled from the spec: the `CacheData` class, whose declaration is not among
the sources; the geometric cache with the interface areas and the cell
volumes. -/
structure CacheData (K : Type) where
  areas : List K
  volumes : List K

/-- The mutable per-edge vectors of `LagrangianFlux` that the updater reads. -/
structure LagrangianFlux (K : Type) where
  ws_ : List K
  edge_vel_ : List K

/-- The effect of `std::vector::resize(n, a)`: keep the first `n` entries, pad
with `a`. -/
def vecResize {α : Type} (v : List α) (n : Nat) (a : α) : List α :=
  v.take n ++ List.replicate (n - v.length) a

/-! ## `LagrangianExtensiveUpdater::operator()` -/

namespace LagrangianExtensiveUpdater

variable {K : Type} [LinearOrderedField K]

/-- Body of the first loop (lines 43-50) at edge `i`: the swept volume of the
edge is added to the first neighbour and subtracted from the second one, each
only when it is a real cell. -/
def sweptVolumeStep (tess : Tessellation K) (dt : K) (cd : CacheData K) (edge_vel : List K)
    (dV : List K) (i : Nat) : List K :=
  let edge := tess.getAllEdges.getD i default
  let dV1 :=
    if edge.neighbors.1 < tess.GetPointNo then
      dV.set edge.neighbors.1
        (dV.getD edge.neighbors.1 0 + cd.areas.getD i 0 * dt * edge_vel.getD i 0)
    else dV
  if edge.neighbors.2 < tess.GetPointNo then
    dV1.set edge.neighbors.2
      (dV1.getD edge.neighbors.2 0 - cd.areas.getD i 0 * dt * edge_vel.getD i 0)
  else dV1

/-- Body of the second loop (lines 51-84) at edge `i`.  The quotient of lines 64
and 75 is the total field division; `correctionStepChecked` is the variant that
tells a zero denominator apart. -/
def correctionStep (tess : Tessellation K) (dt : K) (cd : CacheData K) (ws_ : List K)
    (dV : List K) (extensives : List (Extensive K)) (i : Nat) : List (Extensive K) :=
  let ws := ws_.getD i 0
  let edge := tess.GetEdge i
  if tess.GetOriginalIndex edge.neighbors.1 = tess.GetOriginalIndex edge.neighbors.2 then
    extensives
  else
    let L := cd.areas.getD i 0
    let ext1 :=
      if edge.neighbors.1 < tess.GetPointNo then
        let toadd := Extensive.smul
          (L * ws * dt / (cd.volumes.getD edge.neighbors.1 0 + dV.getD edge.neighbors.1 0))
          (extensives.getD edge.neighbors.1 default)
        extensives.set edge.neighbors.1
          (Extensive.sub (extensives.getD edge.neighbors.1 default) toadd)
      else extensives
    if edge.neighbors.2 < tess.GetPointNo then
      let toadd := Extensive.smul
        (L * ws * dt / (cd.volumes.getD edge.neighbors.2 0 + dV.getD edge.neighbors.2 0))
        (ext1.getD edge.neighbors.2 default)
      ext1.set edge.neighbors.2 (Extensive.add (ext1.getD edge.neighbors.2 default) toadd)
    else ext1

/-- The swept-volume vector `dV` after the first loop, the edges being visited
in the order `idx`. -/
def sweptVolumes (tess : Tessellation K) (dt : K) (cd : CacheData K) (fc : LagrangianFlux K)
    (idx : List Nat) : List K :=
  idx.foldl
    (sweptVolumeStep tess dt cd (vecResize fc.edge_vel_ tess.getAllEdges.length 0))
    (List.replicate tess.GetPointNo 0)

/-- The updater with the order of the edge enumeration made explicit: the
baseline updater `beu` runs first, then both loops visit the edges in the order
`idx`. -/
def applyOver (beu : List (Extensive K) → List (Extensive K)) (fc : LagrangianFlux K)
    (tess : Tessellation K) (dt : K) (cd : CacheData K) (extensives : List (Extensive K))
    (idx : List Nat) : List (Extensive K) :=
  idx.foldl
    (correctionStep tess dt cd (vecResize fc.ws_ tess.getAllEdges.length 0)
      (sweptVolumes tess dt cd fc idx))
    (beu extensives)

/-- The function `LagrangianExtensiveUpdater::operator()`.  The baseline updater `beu_` is an
abstract `ExtensiveUpdater`; it enters as the function `beu` from the records
before the call to the records it leaves.  Both loops run over
`i = 0, ..., edge_list.size() - 1`.  The local `delta` of line 39 is never read
and is left out. -/
def apply (beu : List (Extensive K) → List (Extensive K)) (fc : LagrangianFlux K)
    (tess : Tessellation K) (dt : K) (cd : CacheData K) (extensives : List (Extensive K)) :
    List (Extensive K) :=
  applyOver beu fc tess dt cd extensives (List.range tess.getAllEdges.length)

/-- The ratio `A_i * ws_i * dt / (V_c + dV_c)` of the correction at edge `i`
for the cell `c`. -/
def sweptRatio (dt : K) (cd : CacheData K) (ws_ : List K) (dV : List K) (c i : Nat) : K :=
  cd.areas.getD i 0 * ws_.getD i 0 * dt / (cd.volumes.getD c 0 + dV.getD c 0)

/-- The scalar by which edge `i` multiplies the record of the real cell `c`:
`1` for a self-edge and for an edge not incident to `c`, `1 - ratio` when `c` is
the first neighbour, `1 + ratio` when `c` is the second neighbour. -/
def correctionFactor (tess : Tessellation K) (dt : K) (cd : CacheData K) (ws_ : List K)
    (dV : List K) (c i : Nat) : K :=
  if tess.GetOriginalIndex (tess.GetEdge i).neighbors.1 =
      tess.GetOriginalIndex (tess.GetEdge i).neighbors.2 then 1
  else if (tess.GetEdge i).neighbors.1 = c then 1 - sweptRatio dt cd ws_ dV c i
  else if (tess.GetEdge i).neighbors.2 = c then 1 + sweptRatio dt cd ws_ dV c i
  else 1

/-- The volume `A_i * dt * edge_vel_i` swept by edge `i`. -/
def sweptTerm (dt : K) (cd : CacheData K) (edge_vel : List K) (i : Nat) : K :=
  cd.areas.getD i 0 * dt * edge_vel.getD i 0

/-- What edge `i` adds to the entry `c` of `dV` in the first loop. -/
def sweptContribution (tess : Tessellation K) (dt : K) (cd : CacheData K) (edge_vel : List K)
    (c i : Nat) : K :=
  (if (tess.getAllEdges.getD i default).neighbors.1 = c ∧ c < tess.GetPointNo then
      sweptTerm dt cd edge_vel i else 0) -
    (if (tess.getAllEdges.getD i default).neighbors.2 = c ∧ c < tess.GetPointNo then
      sweptTerm dt cd edge_vel i else 0)

/-- Whether iteration `i` of the second loop divides by zero: the edge is not a
self-edge and `volumes[c] + dV[c]` is zero for a neighbour `c` of the edge that
is a real cell (lines 62-64 and 73-75). -/
def dividesByZero (tess : Tessellation K) (cd : CacheData K) (dV : List K) (i : Nat) : Prop :=
  tess.GetOriginalIndex (tess.GetEdge i).neighbors.1 ≠
      tess.GetOriginalIndex (tess.GetEdge i).neighbors.2 ∧
    (((tess.GetEdge i).neighbors.1 < tess.GetPointNo ∧
        cd.volumes.getD (tess.GetEdge i).neighbors.1 0 +
          dV.getD (tess.GetEdge i).neighbors.1 0 = 0) ∨
      ((tess.GetEdge i).neighbors.2 < tess.GetPointNo ∧
        cd.volumes.getD (tess.GetEdge i).neighbors.2 0 +
          dV.getD (tess.GetEdge i).neighbors.2 0 = 0))

instance (tess : Tessellation K) (cd : CacheData K) (dV : List K) (i : Nat) :
    Decidable (dividesByZero tess cd dV i) := by
  unfold dividesByZero
  exact inferInstance

/-- Body of the second loop at edge `i` with the division checked: `none` when
the iteration divides by zero, where the double quotient is a NaN or an
infinity and the record it is multiplied into is no longer a finite record;
the records of `correctionStep` otherwise. -/
def correctionStepChecked (tess : Tessellation K) (dt : K) (cd : CacheData K) (ws_ : List K)
    (dV : List K) (extensives : List (Extensive K)) (i : Nat) : Option (List (Extensive K)) :=
  if dividesByZero tess cd dV i then none
  else some (correctionStep tess dt cd ws_ dV extensives i)

/-- The updater with the divisions checked: `none` when some iteration of the
second loop divides by zero, the records of `apply` otherwise. -/
def applyChecked (beu : List (Extensive K) → List (Extensive K)) (fc : LagrangianFlux K)
    (tess : Tessellation K) (dt : K) (cd : CacheData K) (extensives : List (Extensive K)) :
    Option (List (Extensive K)) :=
  (List.range tess.getAllEdges.length).foldlM
    (correctionStepChecked tess dt cd (vecResize fc.ws_ tess.getAllEdges.length 0)
      (sweptVolumes tess dt cd fc (List.range tess.getAllEdges.length)))
    (beu extensives)

/-! ### Small meshes used to evaluate the updater -/

/-- Two real cells `0` and `1` that share one interface, `0` being its first
neighbour. -/
def twoCellMesh : Tessellation ℚ where
  GetPointNo := 2
  getAllEdges := [⟨(0, 1)⟩]
  GetOriginalIndex := fun i => i
  GetMeshPoint := fun _ => 0
  GetCellCM := fun _ => 0
  GetWidth := fun _ => 1
  GetNeighbors := fun _ => []

/-- Unit area for the interface, unit volume for both cells. -/
def twoCellCache : CacheData ℚ := ⟨[1], [1, 1]⟩

/-- Unit area for the interface, volume `2` for both cells. -/
def twoCellCacheWide : CacheData ℚ := ⟨[1], [2, 2]⟩

/-- Wave speed `1/2` on the interface, edge velocity `0`. -/
def staticEdgeFlux : LagrangianFlux ℚ := ⟨[1 / 2], [0]⟩

/-- A record of unit mass and unit energy at rest, without tracers. -/
def unitRecord : Extensive ℚ := ⟨1, ⟨0, 0⟩, 1, []⟩

/-- Two real cells `0` and `1` that share interface `0`, and interface `1`
between cell `0` and the ghost cell `2`, the image of cell `0` (its original
index is `0`): interface `1` is a self-edge. -/
def wallMesh : Tessellation ℚ where
  GetPointNo := 2
  getAllEdges := [⟨(0, 1)⟩, ⟨(0, 2)⟩]
  GetOriginalIndex := fun i => if i = 2 then 0 else i
  GetMeshPoint := fun _ => 0
  GetCellCM := fun _ => 0
  GetWidth := fun _ => 1
  GetNeighbors := fun _ => []

/-- Unit areas for the two interfaces, unit volumes for the two cells. -/
def wallCache : CacheData ℚ := ⟨[1, 1], [1, 1]⟩

/-- One real cell and one interface to its own periodic image: the ghost cell
`1` has original index `0`. -/
def selfEdgeMesh : Tessellation ℚ where
  GetPointNo := 1
  getAllEdges := [⟨(0, 1)⟩]
  GetOriginalIndex := fun _ => 0
  GetMeshPoint := fun _ => 0
  GetCellCM := fun _ => 0
  GetWidth := fun _ => 1
  GetNeighbors := fun _ => []

end LagrangianExtensiveUpdater

/-! ## `round_cells.cpp` -/

/-- Modelled from the spec: the enumeration of the four sides of the domain, the
argument of `GetGridBoundary`; its declaration is not among the sources. -/
inductive Direction where
  | Left
  | Right
  | Up
  | Down
deriving DecidableEq, Repr

/-- Modelled from the spec: the enumeration `BoundaryType`, whose declaration is
not among the sources; the boundary-kind flag, periodic or not.  The code only
asks whether it is `Periodic`. -/
inductive BoundaryType where
  | Periodic
  | NotPeriodic
deriving DecidableEq, Repr

/-- Modelled from the spec: the abstract `OuterBoundary` interface, whose
declaration is not among the sources; the queries that `round_cells.cpp` calls:
the position of each side and the boundary kind. -/
structure OuterBoundary (K : Type) where
  GetGridBoundary : Direction → K
  GetBoundaryType : BoundaryType

/-- Modelled from the spec: the `ComputationalCell` class, whose declaration is
not among the sources; the state of a cell with density, pressure, velocity,
tracers and stickers. -/
structure ComputationalCell (K : Type) where
  density : K
  pressure : K
  velocity : Vector2D K
  tracers : List K
  stickers : List Bool

instance {K : Type} [LinearOrderedField K] : Inhabited (ComputationalCell K) :=
  ⟨⟨0, 0, ⟨0, 0⟩, [], []⟩⟩

section RoundCellsHelpers

variable {K : Type} [LinearOrderedField K]

/-- The `for` loop of `LimitNeighborVelocity` over the remaining neighbours: the
first neighbour whose original index differs from `index` and that is closer
than `0.1 * R` has its velocity multiplied by `factor`, and the function
returns. -/
def LimitNeighborVelocity.loop (vdist : Vector2D K → Vector2D K → K) (tess : Tessellation K)
    (index : Nat) (factor : K) (r : Vector2D K) (R : K) :
    List Nat → List (Vector2D K) → List (Vector2D K)
  | [], vel => vel
  | n :: rest, vel =>
    if tess.GetOriginalIndex n ≠ index then
      if vdist r (tess.GetMeshPoint n) < 0.1 * R then
        vel.set n (Vector2D.mulS (vel.getD n 0) factor)
      else LimitNeighborVelocity.loop vdist tess index factor r R rest vel
    else LimitNeighborVelocity.loop vdist tess index factor r R rest vel

/-- The function `LimitNeighborVelocity` (lines 15-31). -/
def LimitNeighborVelocity (vdist : Vector2D K → Vector2D K → K) (vel : List (Vector2D K))
    (tess : Tessellation K) (index : Nat) (factor : K) : List (Vector2D K) :=
  let neigh := tess.GetNeighbors index
  let r := tess.GetMeshPoint index
  let R := tess.GetWidth index
  LimitNeighborVelocity.loop vdist tess index factor r R neigh vel

/-- First `if` of the loop body of `CorrectPointsOverShoot` (lines 42-47): the
right side. -/
def clampRight (vabs : Vector2D K → K) (vdist : Vector2D K → Vector2D K → K) (dt : K)
    (tess : Tessellation K) (outer : OuterBoundary K) (v : List (Vector2D K)) (i : Nat) :
    List (Vector2D K) :=
  let inv_dt := 1 / dt
  let point := tess.GetMeshPoint i
  if (v.getD i 0).x * dt * 2 + point.x > outer.GetGridBoundary Direction.Right then
    let factor :=
      0.4 * (outer.GetGridBoundary Direction.Right - point.x) * inv_dt / vabs (v.getD i 0)
    LimitNeighborVelocity vdist (v.set i (Vector2D.mulS (v.getD i 0) factor)) tess i factor
  else v

/-- Second `if` (lines 48-53): the left side. -/
def clampLeft (vabs : Vector2D K → K) (vdist : Vector2D K → Vector2D K → K) (dt : K)
    (tess : Tessellation K) (outer : OuterBoundary K) (v : List (Vector2D K)) (i : Nat) :
    List (Vector2D K) :=
  let inv_dt := 1 / dt
  let point := tess.GetMeshPoint i
  if (v.getD i 0).x * dt * 2 + point.x < outer.GetGridBoundary Direction.Left then
    let factor :=
      0.4 * (point.x - outer.GetGridBoundary Direction.Left) * inv_dt / vabs (v.getD i 0)
    LimitNeighborVelocity vdist (v.set i (Vector2D.mulS (v.getD i 0) factor)) tess i factor
  else v

/-- Third `if` (lines 54-59): the upper side. -/
def clampUp (vabs : Vector2D K → K) (vdist : Vector2D K → Vector2D K → K) (dt : K)
    (tess : Tessellation K) (outer : OuterBoundary K) (v : List (Vector2D K)) (i : Nat) :
    List (Vector2D K) :=
  let inv_dt := 1 / dt
  let point := tess.GetMeshPoint i
  if (v.getD i 0).y * dt * 2 + point.y > outer.GetGridBoundary Direction.Up then
    let factor :=
      0.4 * (outer.GetGridBoundary Direction.Up - point.y) * inv_dt / vabs (v.getD i 0)
    LimitNeighborVelocity vdist (v.set i (Vector2D.mulS (v.getD i 0) factor)) tess i factor
  else v

/-- Fourth `if` (lines 60-65): the lower side. -/
def clampDown (vabs : Vector2D K → K) (vdist : Vector2D K → Vector2D K → K) (dt : K)
    (tess : Tessellation K) (outer : OuterBoundary K) (v : List (Vector2D K)) (i : Nat) :
    List (Vector2D K) :=
  let inv_dt := 1 / dt
  let point := tess.GetMeshPoint i
  if (v.getD i 0).y * dt * 2 + point.y < outer.GetGridBoundary Direction.Down then
    let factor :=
      0.4 * (point.y - outer.GetGridBoundary Direction.Down) * inv_dt / vabs (v.getD i 0)
    LimitNeighborVelocity vdist (v.set i (Vector2D.mulS (v.getD i 0) factor)) tess i factor
  else v

/-- Body of the loop of `CorrectPointsOverShoot` at point `i` (lines 41-65): the
four checks in the order right, left, up, down, each on the velocities left by
the previous one. -/
def overshootStep (vabs : Vector2D K → K) (vdist : Vector2D K → Vector2D K → K) (dt : K)
    (tess : Tessellation K) (outer : OuterBoundary K) (v : List (Vector2D K)) (i : Nat) :
    List (Vector2D K) :=
  clampDown vabs vdist dt tess outer
    (clampUp vabs vdist dt tess outer
      (clampLeft vabs vdist dt tess outer
        (clampRight vabs vdist dt tess outer v i) i) i) i

/-- The function `CorrectPointsOverShoot` (lines 33-68). -/
def CorrectPointsOverShoot (vabs : Vector2D K → K) (vdist : Vector2D K → Vector2D K → K)
    (v : List (Vector2D K)) (dt : K) (tess : Tessellation K) (outer : OuterBoundary K) :
    List (Vector2D K) :=
  (List.range tess.GetPointNo).foldl (overshootStep vabs vdist dt tess outer) v

end RoundCellsHelpers

/-- The members of a `RoundCells` object that `round_cells.cpp` initialises and
reads.  The underlying point motion `pm_` is
the function it computes from the mesh, the cells and the time; of the
equation of state `eos_` only `dp2c(density, pressure)` is called. -/
structure RoundCells (K : Type) where
  pm_ : Tessellation K → List (ComputationalCell K) → K → List (Vector2D K)
  dp2c : K → K → K
  outer_ : OuterBoundary K
  chi_ : K
  eta_ : K
  cold_ : Bool

namespace RoundCells

variable {K : Type} [LinearOrderedField K]

/-- The function `RoundCells::calc_dw(i, tess, cells)` (lines 71-81). -/
def calc_dw (rc : RoundCells K) (vabs : Vector2D K → K) (i : Nat) (tess : Tessellation K)
    (cells : List (ComputationalCell K)) : Vector2D K :=
  let r := tess.GetMeshPoint i
  let s := tess.GetCellCM i
  let d := vabs (Vector2D.sub s r)
  let R := tess.GetWidth i
  if d < 0.9 * rc.eta_ * R then ⟨0, 0⟩
  else
    let c := rc.dp2c (cells.getD i default).density (cells.getD i default).pressure
    Vector2D.mulS (Vector2D.divS (Vector2D.smul (rc.chi_ * c) (Vector2D.sub s r)) d)
      (if d > 1.1 * rc.eta_ * R then 1 else (d - 0.9 * rc.eta_ * R) / (0.2 * rc.eta_ * R))

/-- The function `RoundCells::calc_dw(i, tess, dt)` (lines 83-93), the overload that takes
the timestep. -/
def calc_dw_dt (rc : RoundCells K) (vabs : Vector2D K → K) (i : Nat) (tess : Tessellation K)
    (dt : K) : Vector2D K :=
  let r := tess.GetMeshPoint i
  let s := tess.GetCellCM i
  let d := vabs (Vector2D.sub s r)
  let R := tess.GetWidth i
  if d < 0.9 * rc.eta_ * R then ⟨0, 0⟩
  else
    let c := 0.25 * R / dt
    Vector2D.mulS (Vector2D.divS (Vector2D.smul (rc.chi_ * c) (Vector2D.sub s r)) d)
      (if d > 1.1 * rc.eta_ * R then 1 else (d - 0.9 * rc.eta_ * R) / (0.2 * rc.eta_ * R))

/-- The function `RoundCells::operator()` (lines 95-104): the velocities of the underlying
point motion, each with `calc_dw` added. -/
def call (rc : RoundCells K) (vabs : Vector2D K → K) (tess : Tessellation K)
    (cells : List (ComputationalCell K)) (time : K) : List (Vector2D K) :=
  let res := rc.pm_ tess cells time
  (List.range res.length).foldl
    (fun res i => res.set i (Vector2D.add (res.getD i 0) (rc.calc_dw vabs i tess cells))) res

/-- The function `RoundCells::ApplyFix` (lines 106-138), without the MPI diagnostics.  The
arguments `cells` and `time` are not read. -/
def ApplyFix (rc : RoundCells K) (vabs : Vector2D K → K) (vdist : Vector2D K → Vector2D K → K)
    (tess : Tessellation K) (_cells : List (ComputationalCell K)) (_time : K) (dt : K)
    (velocities : List (Vector2D K)) : List (Vector2D K) :=
  let res := vecResize velocities tess.GetPointNo 0
  let res :=
    if rc.cold_ then
      (List.range res.length).foldl
        (fun res i => res.set i (Vector2D.add (res.getD i 0) (rc.calc_dw_dt vabs i tess dt))) res
    else res
  if rc.outer_.GetBoundaryType ≠ BoundaryType.Periodic then
    CorrectPointsOverShoot vabs vdist res dt tess rc.outer_
  else res

end RoundCells

/-! ## Predicates used by the statements -/

section Predicates

variable {K : Type} [LinearOrderedField K]

/-- The point `p` lies in the domain rectangle. -/
def insideDomain (outer : OuterBoundary K) (p : Vector2D K) : Prop :=
  outer.GetGridBoundary Direction.Left ≤ p.x ∧ p.x ≤ outer.GetGridBoundary Direction.Right ∧
    outer.GetGridBoundary Direction.Down ≤ p.y ∧ p.y ≤ outer.GetGridBoundary Direction.Up

/-- Two timesteps at the velocity `w` keep the point `p` in the domain
rectangle. -/
def staysInside (outer : OuterBoundary K) (dt : K) (p w : Vector2D K) : Prop :=
  outer.GetGridBoundary Direction.Left ≤ p.x + 2 * dt * w.x ∧
    p.x + 2 * dt * w.x ≤ outer.GetGridBoundary Direction.Right ∧
    outer.GetGridBoundary Direction.Down ≤ p.y + 2 * dt * w.y ∧
    p.y + 2 * dt * w.y ≤ outer.GetGridBoundary Direction.Up

/-- The test of `LimitNeighborVelocity` on a neighbour `n` of the point `index`:
its original index differs from `index` and it is closer to the point than a
tenth of the cell width. -/
def qualifies (vdist : Vector2D K → Vector2D K → K) (tess : Tessellation K) (index n : Nat) :
    Bool :=
  decide (tess.GetOriginalIndex n ≠ index) &&
    decide (vdist (tess.GetMeshPoint index) (tess.GetMeshPoint n) < 0.1 * tess.GetWidth index)

/-- The first neighbour of `index`, in the order of the neighbour list, that
passes the test. -/
def firstQualifying (vdist : Vector2D K → Vector2D K → K) (tess : Tessellation K)
    (index : Nat) : Option Nat :=
  (tess.GetNeighbors index).find? (qualifies vdist tess index)

/-- Every entry of `v'` is the entry of `v` at the same index times a scalar
between `0` and `1`. -/
def Shrunk (v v' : List (Vector2D K)) : Prop :=
  ∀ k : Nat, ∃ g : K, 0 ≤ g ∧ g ≤ 1 ∧ v'.getD k 0 = Vector2D.mulS (v.getD k 0) g

/-- The scalar by which `calc_dw` multiplies `chi*c*(s - r)/d`, as a function of
the distance `d` and of the product `etaR = eta * R`: `0` below `0.9*etaR`
(where `calc_dw` returns the zero vector), `1` above `1.1*etaR`, and the ramp
`(d - 0.9*etaR)/(0.2*etaR)` in between. -/
def rampProfile (etaR d : K) : K :=
  if d < 0.9 * etaR then 0
  else if d > 1.1 * etaR then 1 else (d - 0.9 * etaR) / (0.2 * etaR)

/-- The length of the vector returned by `calc_dw` as a function of the distance
`d`, for fixed `chi`, `c` and `etaR = eta * R`. -/
def dwMagnitude (chi c etaR d : K) : K :=
  |chi * c| * rampProfile etaR d

end Predicates

/-! ## Sample data for the point-motion statements -/

section Samples

variable (K : Type) [LinearOrderedField K]

/-- The square `[-1, 1] × [-1, 1]` with a boundary that is not periodic. -/
def unitSquare : OuterBoundary K where
  GetGridBoundary := fun d =>
    match d with
    | Direction.Left => -1
    | Direction.Right => 1
    | Direction.Up => 1
    | Direction.Down => -1
  GetBoundaryType := BoundaryType.NotPeriodic

/-- A mesh of one point at the origin, with centre of mass `(1, 0)`, width `1`
and no neighbours. -/
def onePointMesh : Tessellation K where
  GetPointNo := 1
  getAllEdges := []
  GetOriginalIndex := fun i => i
  GetMeshPoint := fun _ => ⟨0, 0⟩
  GetCellCM := fun _ => ⟨1, 0⟩
  GetWidth := fun _ => 1
  GetNeighbors := fun _ => []

/-- A `RoundCells` object on the unit square: the underlying motion returns one
velocity `(0, 0)`, the sound speed is `1`, `chi = 1`, `eta = 1/2`, cold mode
off. -/
def sampleRoundCells : RoundCells K where
  pm_ := fun _ _ _ => [⟨0, 0⟩]
  dp2c := fun _ _ => 1
  outer_ := unitSquare K
  chi_ := 1
  eta_ := 1 / 2
  cold_ := false

/-- The rectangle `[-41, 41] × [-8, 8]` with a boundary that is not periodic. -/
def wideBox : OuterBoundary K where
  GetGridBoundary := fun d =>
    match d with
    | Direction.Left => -41
    | Direction.Right => 41
    | Direction.Up => 8
    | Direction.Down => -8
  GetBoundaryType := BoundaryType.NotPeriodic

/-- The square `[-100, 100] × [-100, 100]` with a boundary that is not
periodic. -/
def bigSquare : OuterBoundary K where
  GetGridBoundary := fun d =>
    match d with
    | Direction.Left => -100
    | Direction.Right => 100
    | Direction.Up => 100
    | Direction.Down => -100
  GetBoundaryType := BoundaryType.NotPeriodic

/-- Three points: `0` at the origin with neighbour list `[1, 2]` and width
`100`, `1` at `(8, 0)` and `2` at `(0, 4)`.  Both neighbours are closer to
point `0` than a tenth of its width, and `2` is the nearer one. -/
def threePointMesh : Tessellation K where
  GetPointNo := 3
  getAllEdges := []
  GetOriginalIndex := fun i => i
  GetMeshPoint := fun i => if i = 1 then ⟨8, 0⟩ else if i = 2 then ⟨0, 4⟩ else ⟨0, 0⟩
  GetCellCM := fun i => if i = 1 then ⟨8, 0⟩ else if i = 2 then ⟨0, 4⟩ else ⟨0, 0⟩
  GetWidth := fun _ => 100
  GetNeighbors := fun i => if i = 0 then [1, 2] else []

/-- The sample `RoundCells` object with cold mode switched on. -/
def coldRoundCells : RoundCells K :=
  { sampleRoundCells K with cold_ := true }

/-- The sample `RoundCells` object with a periodic outer boundary. -/
def periodicRoundCells : RoundCells K :=
  { sampleRoundCells K with
    outer_ := { unitSquare K with GetBoundaryType := BoundaryType.Periodic } }

end Samples

/-! ## `Tetrahedron.cpp` -/

/-- Modelled from the spec: the `Vector3D` class, whose declaration is not among
the sources; a space vector with three `double` coordinates. -/
structure Vector3D (K : Type) where
  x : K
  y : K
  z : K
deriving DecidableEq, Repr

namespace Vector3D

variable {K : Type} [LinearOrderedField K]

/-- Modelled from the spec: `operator-` of `Vector3D` (not among the sources),
the componentwise difference. -/
def sub (a b : Vector3D K) : Vector3D K := ⟨a.x - b.x, a.y - b.y, a.z - b.z⟩

/-- Modelled from the spec: `abs2(Vector3D)` (not among the sources), the squared
length `x² + y² + z²`. -/
def abs2 (v : Vector3D K) : K := v.x * v.x + v.y * v.y + v.z * v.z

/-- The scalar product of two space vectors. -/
def dot (a b : Vector3D K) : K := a.x * b.x + a.y * b.y + a.z * b.z

/-- The vector product of two space vectors. -/
def cross (a b : Vector3D K) : Vector3D K :=
  ⟨a.y * b.z - a.z * b.y, a.z * b.x - a.x * b.z, a.x * b.y - a.y * b.x⟩

end Vector3D

/-- What the theorems ask of the length `abs(Vector3D)`: it is the non-negative
square root of `x² + y² + z²`. -/
def IsNorm3 {K : Type} [LinearOrderedField K] (vabs3 : Vector3D K → K) : Prop :=
  ∀ w : Vector3D K, 0 ≤ vabs3 w ∧ vabs3 w * vabs3 w = Vector3D.abs2 w

/-- Modelled from the spec: the class template `Mat44`, whose declaration is not
among the sources; a 4 by 4 matrix given by its sixteen entries row by row. -/
structure Mat44 (K : Type) where
  a00 : K
  a01 : K
  a02 : K
  a03 : K
  a10 : K
  a11 : K
  a12 : K
  a13 : K
  a20 : K
  a21 : K
  a22 : K
  a23 : K
  a30 : K
  a31 : K
  a32 : K
  a33 : K

/-- Modelled from the spec: `Mat44::determinant` (not among the sources), the
determinant of the matrix, written as the expansion along the first row. -/
def Mat44.determinant {K : Type} [LinearOrderedField K] (m : Mat44 K) : K :=
  m.a00 * (m.a11 * (m.a22 * m.a33 - m.a23 * m.a32) - m.a12 * (m.a21 * m.a33 - m.a23 * m.a31) +
      m.a13 * (m.a21 * m.a32 - m.a22 * m.a31)) -
    m.a01 * (m.a10 * (m.a22 * m.a33 - m.a23 * m.a32) - m.a12 * (m.a20 * m.a33 - m.a23 * m.a30) +
      m.a13 * (m.a20 * m.a32 - m.a22 * m.a30)) +
    m.a02 * (m.a10 * (m.a21 * m.a33 - m.a23 * m.a31) - m.a11 * (m.a20 * m.a33 - m.a23 * m.a30) +
      m.a13 * (m.a20 * m.a31 - m.a21 * m.a30)) -
    m.a03 * (m.a10 * (m.a21 * m.a32 - m.a22 * m.a31) - m.a11 * (m.a20 * m.a32 - m.a22 * m.a30) +
      m.a12 * (m.a20 * m.a31 - m.a21 * m.a30))

/-- The tetrahedron of `Tetrahedron.cpp`: its four vertices `_vertices[0]`, ...,
`_vertices[3]`.  The members `_center`, `_volume` and `_radius` only cache the
values of the `Calculate` functions. -/
structure Tetrahedron (K : Type) where
  vertices : Fin 4 → Vector3D K

namespace Tetrahedron

variable {K : Type} [LinearOrderedField K]

/-- The determinant `a` of `CalculateCenter` (lines 64-68), which is also the
determinant of `CalculateVolume` (lines 106-110): the rows are `(x, y, z, 1)`. -/
def detA (t : Tetrahedron K) : K :=
  (Mat44.mk (t.vertices 0).x (t.vertices 0).y (t.vertices 0).z 1
    (t.vertices 1).x (t.vertices 1).y (t.vertices 1).z 1
    (t.vertices 2).x (t.vertices 2).y (t.vertices 2).z 1
    (t.vertices 3).x (t.vertices 3).y (t.vertices 3).z 1).determinant

/-- The value `Dx` of `CalculateCenter` (lines 70-74). -/
def detDx (t : Tetrahedron K) : K :=
  (Mat44.mk (t.vertices 0).abs2 (t.vertices 0).y (t.vertices 0).z 1
    (t.vertices 1).abs2 (t.vertices 1).y (t.vertices 1).z 1
    (t.vertices 2).abs2 (t.vertices 2).y (t.vertices 2).z 1
    (t.vertices 3).abs2 (t.vertices 3).y (t.vertices 3).z 1).determinant

/-- The value `Dy` of `CalculateCenter` (lines 76-80), with its minus sign. -/
def detDy (t : Tetrahedron K) : K :=
  -(Mat44.mk (t.vertices 0).abs2 (t.vertices 0).x (t.vertices 0).z 1
    (t.vertices 1).abs2 (t.vertices 1).x (t.vertices 1).z 1
    (t.vertices 2).abs2 (t.vertices 2).x (t.vertices 2).z 1
    (t.vertices 3).abs2 (t.vertices 3).x (t.vertices 3).z 1).determinant

/-- The value `Dz` of `CalculateCenter` (lines 82-86). -/
def detDz (t : Tetrahedron K) : K :=
  (Mat44.mk (t.vertices 0).abs2 (t.vertices 0).x (t.vertices 0).y 1
    (t.vertices 1).abs2 (t.vertices 1).x (t.vertices 1).y 1
    (t.vertices 2).abs2 (t.vertices 2).x (t.vertices 2).y 1
    (t.vertices 3).abs2 (t.vertices 3).x (t.vertices 3).y 1).determinant

/-- The function `Tetrahedron::CalculateCenter` (lines 57-101).  The determinant
`c` of lines 88-92 is never read and is left out. -/
def CalculateCenter (t : Tetrahedron K) : Vector3D K :=
  ⟨t.detDx / (2 * t.detA), t.detDy / (2 * t.detA), t.detDz / (2 * t.detA)⟩

/-- The function `Tetrahedron::CalculateVolume` (lines 103-112). -/
def CalculateVolume (t : Tetrahedron K) : K :=
  |t.detA| / 6

/-- The function `Tetrahedron::CalculateRadius` (lines 114-118); `center()`
returns the value of `CalculateCenter`, and `vabs3` is `abs(Vector3D)`. -/
def CalculateRadius (vabs3 : Vector3D K → K) (t : Tetrahedron K) : K :=
  vabs3 (Vector3D.sub t.CalculateCenter (t.vertices 0))

/-- The tetrahedron with the unit corner at the origin: vertices `(0,0,0)`,
`(1,0,0)`, `(0,1,0)` and `(0,0,1)`. -/
def unitCorner (K : Type) [LinearOrderedField K] : Tetrahedron K where
  vertices := ![⟨0, 0, 0⟩, ⟨1, 0, 0⟩, ⟨0, 1, 0⟩, ⟨0, 0, 1⟩]

end Tetrahedron
/-! ## Vector lemmas -/

section VecLemmas

variable {α : Type}

theorem getElem?_set_getD (l : List α) (j c : Nat) (d : α) (f : α → α) :
    (l.set j (f (l.getD j d)))[c]? = if j = c then (l[c]?).map f else l[c]? := by
  rw [List.getElem?_set]
  by_cases hjc : j = c
  · subst hjc
    by_cases hj : j < l.length
    · simp [hj, List.getD_eq_getElem?_getD, List.getElem?_eq_getElem hj]
    · simp [hj, List.getElem?_eq_none (Nat.le_of_not_lt hj)]
  · simp [hjc]

end VecLemmas

namespace Extensive

variable {K : Type} [LinearOrderedField K]

theorem smul_one (e : Extensive K) : smul 1 e = e := by
  cases e with
  | mk m p en t => cases p; simp [smul, Vector2D.smul]

theorem smul_smul (a b : K) (e : Extensive K) : smul a (smul b e) = smul (a * b) e := by
  cases e with
  | mk m p en t => cases p; simp [smul, Vector2D.smul, mul_assoc]

theorem zipWith_sub_map (q : K) (t : List K) :
    List.zipWith (fun s u => s - u) t (t.map (fun u => q * u)) = t.map (fun u => (1 - q) * u) := by
  induction t with
  | nil => rfl
  | cons a t ih => simp only [List.map_cons, List.zipWith_cons_cons, ih]; congr 1; ring

theorem zipWith_add_map (q : K) (t : List K) :
    List.zipWith (fun s u => s + u) t (t.map (fun u => q * u)) = t.map (fun u => (1 + q) * u) := by
  induction t with
  | nil => rfl
  | cons a t ih => simp only [List.map_cons, List.zipWith_cons_cons, ih]; congr 1; ring

theorem sub_smul_self (q : K) (e : Extensive K) : sub e (smul q e) = smul (1 - q) e := by
  cases e with
  | mk m p en t =>
    cases p
    simp only [sub, smul, Vector2D.sub, Vector2D.smul, zipWith_sub_map, Extensive.mk.injEq,
      Vector2D.mk.injEq]
    exact ⟨by ring, ⟨by ring, by ring⟩, by ring, trivial⟩

theorem add_smul_self (q : K) (e : Extensive K) : add e (smul q e) = smul (1 + q) e := by
  cases e with
  | mk m p en t =>
    cases p
    simp only [add, smul, Vector2D.add, Vector2D.smul, zipWith_add_map, Extensive.mk.injEq,
      Vector2D.mk.injEq]
    exact ⟨by ring, ⟨by ring, by ring⟩, by ring, trivial⟩

end Extensive

namespace LagrangianExtensiveUpdater

variable {K : Type} [LinearOrderedField K]

theorem map_smul_one (o : Option (Extensive K)) : o.map (Extensive.smul 1) = o := by
  cases o <;> simp [Extensive.smul_one]

theorem correctionStep_real (tess : Tessellation K) (dt : K) (cd : CacheData K) (ws_ dV : List K)
    (ext : List (Extensive K)) (i c : Nat) (hc : c < tess.GetPointNo) :
    (correctionStep tess dt cd ws_ dV ext i)[c]? =
      (ext[c]?).map (Extensive.smul (correctionFactor tess dt cd ws_ dV c i)) := by
  unfold correctionStep correctionFactor sweptRatio
  by_cases hs : tess.GetOriginalIndex (tess.GetEdge i).neighbors.1 =
      tess.GetOriginalIndex (tess.GetEdge i).neighbors.2
  · simp only [hs, if_true, map_smul_one]
  · have hne : (tess.GetEdge i).neighbors.1 ≠ (tess.GetEdge i).neighbors.2 := by
      intro h; exact hs (by rw [h])
    simp only [hs, if_false]
    generalize (tess.GetEdge i).neighbors.1 = e1 at hne ⊢
    generalize (tess.GetEdge i).neighbors.2 = e2 at hne ⊢
    simp only [Extensive.sub_smul_self, Extensive.add_smul_self]
    by_cases h1 : e1 = c
    · subst h1
      have h2 : ¬ e2 = e1 := fun h => hne h.symm
      simp only [hc, if_true, h2, if_false]
      by_cases h2P : e2 < tess.GetPointNo
      · simp only [h2P, if_true]
        rw [getElem?_set_getD _ e2 e1 default (Extensive.smul _), if_neg h2,
          getElem?_set_getD _ e1 e1 default (Extensive.smul _), if_pos rfl]
      · simp only [h2P, if_false]
        rw [getElem?_set_getD _ e1 e1 default (Extensive.smul _), if_pos rfl]
    · by_cases h2 : e2 = c
      · subst h2
        simp only [hc, if_true, h1, if_false]
        rw [getElem?_set_getD _ e2 e2 default (Extensive.smul _), if_pos rfl]
        by_cases h1P : e1 < tess.GetPointNo
        · simp only [h1P, if_true]
          rw [getElem?_set_getD _ e1 e2 default (Extensive.smul _), if_neg h1]
        · simp only [h1P, if_false]
      · simp only [h1, h2, if_false, map_smul_one]
        by_cases h1P : e1 < tess.GetPointNo <;> by_cases h2P : e2 < tess.GetPointNo <;>
          simp only [h1P, h2P, if_true, if_false] <;>
          simp only [getElem?_set_getD _ _ _ default (Extensive.smul _), h1, h2, if_false]

theorem correctionStep_ghost (tess : Tessellation K) (dt : K) (cd : CacheData K)
    (ws_ dV : List K) (ext : List (Extensive K)) (i c : Nat) (hc : ¬ c < tess.GetPointNo) :
    (correctionStep tess dt cd ws_ dV ext i)[c]? = ext[c]? := by
  unfold correctionStep
  have key : ∀ (l : List (Extensive K)) (e : Nat) (a : Extensive K),
      (if e < tess.GetPointNo then l.set e a else l)[c]? = l[c]? := by
    intro l e a
    by_cases he : e < tess.GetPointNo
    · have hec : e ≠ c := fun h => hc (h ▸ he)
      simp only [he, if_true, List.getElem?_set, hec, if_false]
    · simp only [he, if_false]
  by_cases hs : tess.GetOriginalIndex (tess.GetEdge i).neighbors.1 =
      tess.GetOriginalIndex (tess.GetEdge i).neighbors.2
  · simp only [hs, if_true]
  · simp only [hs, if_false, key]

theorem foldl_correctionStep_real (tess : Tessellation K) (dt : K) (cd : CacheData K)
    (ws_ dV : List K) (c : Nat) (hc : c < tess.GetPointNo) (idx : List Nat) :
    ∀ ext : List (Extensive K),
      (idx.foldl (correctionStep tess dt cd ws_ dV) ext)[c]? =
        (ext[c]?).map
          (Extensive.smul ((idx.map (correctionFactor tess dt cd ws_ dV c)).prod)) := by
  induction idx with
  | nil => intro ext; simp only [List.foldl_nil, List.map_nil, List.prod_nil, map_smul_one]
  | cons i rest ih =>
    intro ext
    rw [List.foldl_cons, ih, correctionStep_real tess dt cd ws_ dV ext i c hc, Option.map_map,
      List.map_cons, List.prod_cons]
    congr 1
    funext e
    simp only [Function.comp, Extensive.smul_smul, mul_comm]

theorem foldl_correctionStep_ghost (tess : Tessellation K) (dt : K) (cd : CacheData K)
    (ws_ dV : List K) (c : Nat) (hc : ¬ c < tess.GetPointNo) (idx : List Nat) :
    ∀ ext : List (Extensive K),
      (idx.foldl (correctionStep tess dt cd ws_ dV) ext)[c]? = ext[c]? := by
  induction idx with
  | nil => intro ext; rfl
  | cons i rest ih =>
    intro ext
    rw [List.foldl_cons, ih, correctionStep_ghost tess dt cd ws_ dV ext i c hc]

theorem sweptVolumeStep_get (tess : Tessellation K) (dt : K) (cd : CacheData K)
    (edge_vel dV : List K) (i c : Nat) :
    (sweptVolumeStep tess dt cd edge_vel dV i)[c]? =
      (dV[c]?).map (fun x => x + sweptContribution tess dt cd edge_vel c i) := by
  simp only [sweptVolumeStep, sweptContribution, sweptTerm]
  generalize (tess.getAllEdges.getD i default).neighbors.1 = e1
  generalize (tess.getAllEdges.getD i default).neighbors.2 = e2
  generalize cd.areas.getD i 0 * dt * edge_vel.getD i 0 = a
  have key1 : (if e1 < tess.GetPointNo then dV.set e1 (dV.getD e1 0 + a) else dV)[c]? =
      (dV[c]?).map (fun x => x + (if e1 = c ∧ c < tess.GetPointNo then a else 0)) := by
    by_cases h1P : e1 < tess.GetPointNo
    · simp only [h1P, if_true]
      rw [getElem?_set_getD dV e1 c 0 (fun x => x + a)]
      by_cases h1 : e1 = c
      · subst h1; simp only [h1P, and_self, if_true]
      · simp only [h1, false_and, if_false, add_zero]; cases dV[c]? <;> rfl
    · have : ¬ (e1 = c ∧ c < tess.GetPointNo) := fun h => h1P (h.1 ▸ h.2)
      simp only [h1P, this, if_false, add_zero]; cases dV[c]? <;> rfl
  generalize (if e1 < tess.GetPointNo then dV.set e1 (dV.getD e1 0 + a) else dV) = dV1 at key1 ⊢
  have key2 : (if e2 < tess.GetPointNo then dV1.set e2 (dV1.getD e2 0 - a) else dV1)[c]? =
      (dV1[c]?).map (fun x => x - (if e2 = c ∧ c < tess.GetPointNo then a else 0)) := by
    by_cases h2P : e2 < tess.GetPointNo
    · simp only [h2P, if_true]
      rw [getElem?_set_getD dV1 e2 c 0 (fun x => x - a)]
      by_cases h2 : e2 = c
      · subst h2; simp only [h2P, and_self, if_true]
      · simp only [h2, false_and, if_false, sub_zero]; cases dV1[c]? <;> rfl
    · have : ¬ (e2 = c ∧ c < tess.GetPointNo) := fun h => h2P (h.1 ▸ h.2)
      simp only [h2P, this, if_false, sub_zero]; cases dV1[c]? <;> rfl
  rw [key2, key1, Option.map_map]
  congr 1
  funext x
  simp only [Function.comp]
  ring

theorem foldl_sweptVolumeStep_get (tess : Tessellation K) (dt : K) (cd : CacheData K)
    (edge_vel : List K) (c : Nat) (idx : List Nat) :
    ∀ dV : List K,
      (idx.foldl (sweptVolumeStep tess dt cd edge_vel) dV)[c]? =
        (dV[c]?).map (fun x => x + (idx.map (sweptContribution tess dt cd edge_vel c)).sum) := by
  induction idx with
  | nil =>
    intro dV
    simp only [List.foldl_nil, List.map_nil, List.sum_nil, add_zero]
    cases dV[c]? <;> rfl
  | cons i rest ih =>
    intro dV
    rw [List.foldl_cons, ih, sweptVolumeStep_get, Option.map_map, List.map_cons, List.sum_cons]
    congr 1
    funext x
    simp only [Function.comp]
    ring

theorem sweptVolumes_perm (tess : Tessellation K) (dt : K) (cd : CacheData K)
    (fc : LagrangianFlux K) (idx idx' : List Nat) (h : idx.Perm idx') :
    sweptVolumes tess dt cd fc idx = sweptVolumes tess dt cd fc idx' := by
  apply List.ext_getElem?
  intro c
  unfold sweptVolumes
  rw [foldl_sweptVolumeStep_get, foldl_sweptVolumeStep_get, (h.map _).sum_eq]

theorem applyOver_perm (beu : List (Extensive K) → List (Extensive K)) (fc : LagrangianFlux K)
    (tess : Tessellation K) (dt : K) (cd : CacheData K) (extensives : List (Extensive K))
    (idx idx' : List Nat) (h : idx.Perm idx') :
    applyOver beu fc tess dt cd extensives idx = applyOver beu fc tess dt cd extensives idx' := by
  apply List.ext_getElem?
  intro c
  unfold applyOver
  rw [sweptVolumes_perm tess dt cd fc idx idx' h]
  by_cases hc : c < tess.GetPointNo
  · rw [foldl_correctionStep_real _ _ _ _ _ c hc, foldl_correctionStep_real _ _ _ _ _ c hc,
      (h.map _).prod_eq]
  · rw [foldl_correctionStep_ghost _ _ _ _ _ c hc, foldl_correctionStep_ghost _ _ _ _ _ c hc]

theorem sum_map_ite_eq_filter (p : Nat → Prop) [DecidablePred p] (f : Nat → K) (l : List Nat) :
    (l.map (fun i => if p i then f i else 0)).sum = ((l.filter (fun i => decide (p i))).map f).sum := by
  induction l with
  | nil => rfl
  | cons a l ih =>
    by_cases ha : p a
    · simp only [List.map_cons, List.sum_cons, ha, if_true, ih, List.filter_cons, decide_True]
    · simp only [List.map_cons, List.sum_cons, ha, if_false, ih, List.filter_cons, decide_False,
        zero_add]
      rfl

theorem sum_map_sub_list (f g : Nat → K) (l : List Nat) :
    (l.map (fun i => f i - g i)).sum = (l.map f).sum - (l.map g).sum := by
  induction l with
  | nil => simp
  | cons a l ih => simp only [List.map_cons, List.sum_cons, ih]; ring

end LagrangianExtensiveUpdater

section Resize

variable {K : Type} [LinearOrderedField K]

theorem vecResize_length {α : Type} (v : List α) (n : Nat) (a : α) :
    (vecResize v n a).length = n := by
  unfold vecResize
  simp only [List.length_append, List.length_take, List.length_replicate]
  omega

theorem vecResize_getD (v : List K) (n j : Nat) :
    (vecResize v n 0).getD j 0 = if j < n then v.getD j 0 else 0 := by
  unfold vecResize
  simp only [List.getD_eq_getElem?_getD, List.getElem?_append, List.length_take,
    List.getElem?_take, List.getElem?_replicate]
  by_cases hj : j < n
  · by_cases hl : j < v.length
    · have : j < min n v.length := lt_min hj hl
      simp [hj, this]
    · have h1 : ¬ j < min n v.length := fun h => hl (lt_of_lt_of_le h (min_le_right _ _))
      simp only [h1, if_false, hj, if_true]
      have h2 : v[j]? = none := List.getElem?_eq_none (Nat.le_of_not_lt hl)
      rw [h2]
      split <;> rfl
  · have h1 : ¬ j < min n v.length := fun h => hj (lt_of_lt_of_le h (min_le_left _ _))
    simp only [h1, if_false, hj]
    split <;> rfl

end Resize

namespace LagrangianExtensiveUpdater

variable {K : Type} [LinearOrderedField K]

theorem sweptVolumeStep_length (tess : Tessellation K) (dt : K) (cd : CacheData K)
    (edge_vel dV : List K) (i : Nat) :
    (sweptVolumeStep tess dt cd edge_vel dV i).length = dV.length := by
  simp only [sweptVolumeStep]
  split <;> split <;> simp only [List.length_set]

theorem sweptVolumes_length (tess : Tessellation K) (dt : K) (cd : CacheData K)
    (fc : LagrangianFlux K) (idx : List Nat) :
    (sweptVolumes tess dt cd fc idx).length = tess.GetPointNo := by
  unfold sweptVolumes
  have key : ∀ (l : List Nat) (dV : List K),
      (l.foldl (sweptVolumeStep tess dt cd
        (vecResize fc.edge_vel_ tess.getAllEdges.length 0)) dV).length = dV.length := by
    intro l
    induction l with
    | nil => intro dV; rfl
    | cons i rest ih => intro dV; rw [List.foldl_cons, ih, sweptVolumeStep_length]
  rw [key, List.length_replicate]

theorem sweptVolumes_getD (tess : Tessellation K) (dt : K) (cd : CacheData K)
    (fc : LagrangianFlux K) (idx : List Nat) (c : Nat) (hc : c < tess.GetPointNo) :
    (sweptVolumes tess dt cd fc idx).getD c 0 =
      (idx.map (sweptContribution tess dt cd
        (vecResize fc.edge_vel_ tess.getAllEdges.length 0) c)).sum := by
  unfold sweptVolumes
  rw [List.getD_eq_getElem?_getD, foldl_sweptVolumeStep_get, List.getElem?_replicate]
  simp only [hc, if_true, Option.map_some', zero_add, Option.getD_some]

theorem correctionFactor_eq_one_of_ws_zero (tess : Tessellation K) (dt : K) (cd : CacheData K)
    (ws_ dV : List K) (c i : Nat) (h : ws_.getD i 0 = 0) :
    correctionFactor tess dt cd ws_ dV c i = 1 := by
  unfold correctionFactor sweptRatio
  rw [h]
  simp only [mul_zero, zero_mul, zero_div, sub_zero, add_zero, ite_self]

theorem applyOver_eq_baseline_of_ws_zero (beu : List (Extensive K) → List (Extensive K))
    (fc : LagrangianFlux K) (tess : Tessellation K) (dt : K) (cd : CacheData K)
    (extensives : List (Extensive K)) (idx : List Nat)
    (hws : ∀ i, i < tess.getAllEdges.length → fc.ws_.getD i 0 = 0) :
    applyOver beu fc tess dt cd extensives idx = beu extensives := by
  apply List.ext_getElem?
  intro c
  unfold applyOver
  by_cases hc : c < tess.GetPointNo
  · rw [foldl_correctionStep_real _ _ _ _ _ c hc]
    have hone : ∀ l : List Nat, (l.map (correctionFactor tess dt cd
        (vecResize fc.ws_ tess.getAllEdges.length 0) (sweptVolumes tess dt cd fc idx) c)).prod
          = 1 := by
      intro l
      induction l with
      | nil => rfl
      | cons i rest ih =>
        rw [List.map_cons, List.prod_cons, ih, mul_one]
        apply correctionFactor_eq_one_of_ws_zero
        rw [vecResize_getD]
        split
        · exact hws i (by assumption)
        · rfl
    rw [hone, map_smul_one]
  · rw [foldl_correctionStep_ghost _ _ _ _ _ c hc]

theorem correctionStep_congr_ws (tess : Tessellation K) (dt : K) (cd : CacheData K)
    (ws_ ws' dV : List K) (ext : List (Extensive K)) (j : Nat)
    (h : tess.GetOriginalIndex (tess.GetEdge j).neighbors.1 ≠
        tess.GetOriginalIndex (tess.GetEdge j).neighbors.2 → ws'.getD j 0 = ws_.getD j 0) :
    correctionStep tess dt cd ws' dV ext j = correctionStep tess dt cd ws_ dV ext j := by
  unfold correctionStep
  by_cases hs : tess.GetOriginalIndex (tess.GetEdge j).neighbors.1 =
      tess.GetOriginalIndex (tess.GetEdge j).neighbors.2
  · simp only [hs, if_true]
  · simp only [hs, if_false, h hs]

/-- C1: for every real cell `c` the record returned by the updater is the
record left by the baseline updater multiplied by the product, over all edges,
of the factor of that edge for `c` (`1 - A*ws*dt/(V_c + dV_c)` when `c` is the
first neighbour of an edge that is not a self-edge, `1 + ...` when it is the
second, `1` otherwise); every single iteration scales the current record of `c`
by that factor; and visiting the edges in any other order gives the same
records. -/
theorem C1_record_is_baseline_times_product
    (beu : List (Extensive K) → List (Extensive K)) (fc : LagrangianFlux K)
    (tess : Tessellation K) (dt : K) (cd : CacheData K) (extensives : List (Extensive K))
    (c : Nat) (hc : c < tess.GetPointNo) :
    (apply beu fc tess dt cd extensives)[c]? =
        ((beu extensives)[c]?).map (Extensive.smul
          ((List.range tess.getAllEdges.length).map
            (correctionFactor tess dt cd (vecResize fc.ws_ tess.getAllEdges.length 0)
              (sweptVolumes tess dt cd fc (List.range tess.getAllEdges.length)) c)).prod)
      ∧ (∀ (ws_ dV : List K) (ext : List (Extensive K)) (i : Nat),
          (correctionStep tess dt cd ws_ dV ext i)[c]? =
            (ext[c]?).map (Extensive.smul (correctionFactor tess dt cd ws_ dV c i)))
      ∧ (∀ idx : List Nat, idx.Perm (List.range tess.getAllEdges.length) →
          applyOver beu fc tess dt cd extensives idx = apply beu fc tess dt cd extensives) := by
  refine ⟨?_, ?_, ?_⟩
  · unfold apply applyOver
    rw [foldl_correctionStep_real _ _ _ _ _ c hc]
  · intro ws_ dV ext i
    exact correctionStep_real tess dt cd ws_ dV ext i c hc
  · intro idx hperm
    exact applyOver_perm beu fc tess dt cd extensives idx _ hperm

/-- C1 at the two-cell mesh, for its real cell `0`. -/
theorem C1_record_is_baseline_times_product_witness :
    (apply id staticEdgeFlux twoCellMesh 1 twoCellCache [unitRecord, unitRecord])[0]? =
      (([unitRecord, unitRecord] : List (Extensive ℚ))[0]?).map (Extensive.smul
        ((List.range twoCellMesh.getAllEdges.length).map
          (correctionFactor twoCellMesh 1 twoCellCache
            (vecResize staticEdgeFlux.ws_ twoCellMesh.getAllEdges.length 0)
            (sweptVolumes twoCellMesh 1 twoCellCache staticEdgeFlux
              (List.range twoCellMesh.getAllEdges.length)) 0)).prod) :=
  (C1_record_is_baseline_times_product id staticEdgeFlux twoCellMesh 1 twoCellCache
    [unitRecord, unitRecord] 0 (by decide)).1

/-- C2 (counterexample): on the two-cell mesh every edge velocity is zero, the
wave speed of the interface is `1/2`, and the updater multiplies the records
that the baseline updater (here the identity) leaves by `1/2` and `3/2`. -/
theorem C2_zero_edge_velocity_not_noop :
    (∀ i : Nat, staticEdgeFlux.edge_vel_.getD i 0 = 0) ∧
      apply id staticEdgeFlux twoCellMesh 1 twoCellCache [unitRecord, unitRecord] =
        [⟨1 / 2, ⟨0, 0⟩, 1 / 2, []⟩, ⟨3 / 2, ⟨0, 0⟩, 3 / 2, []⟩] ∧
      apply id staticEdgeFlux twoCellMesh 1 twoCellCache [unitRecord, unitRecord] ≠
        id [unitRecord, unitRecord] := by
  have hval : apply id staticEdgeFlux twoCellMesh 1 twoCellCache [unitRecord, unitRecord] =
      [⟨1 / 2, ⟨0, 0⟩, 1 / 2, []⟩, ⟨3 / 2, ⟨0, 0⟩, 3 / 2, []⟩] := by
    simp [apply, applyOver, sweptVolumes, correctionStep, sweptVolumeStep, vecResize,
      twoCellMesh, twoCellCache, staticEdgeFlux, unitRecord, Tessellation.GetEdge,
      Extensive.smul, Extensive.sub, Extensive.add, Vector2D.smul, Vector2D.sub, Vector2D.add,
      List.range_succ]
    norm_num
  refine ⟨?_, hval, ?_⟩
  · intro i
    cases i with
    | zero => rfl
    | succ j => rfl
  · rw [hval]
    simp [unitRecord]

/-- C2 (amended): when every edge velocity and every wave speed that the
updater reads is zero, the records it returns are the records of the baseline
updater, and the swept volume of every cell is zero. -/
theorem C2_zero_velocities_noop
    (beu : List (Extensive K) → List (Extensive K)) (fc : LagrangianFlux K)
    (tess : Tessellation K) (dt : K) (cd : CacheData K) (extensives : List (Extensive K))
    (hev : ∀ i, i < tess.getAllEdges.length → fc.edge_vel_.getD i 0 = 0)
    (hws : ∀ i, i < tess.getAllEdges.length → fc.ws_.getD i 0 = 0) :
    apply beu fc tess dt cd extensives = beu extensives ∧
      sweptVolumes tess dt cd fc (List.range tess.getAllEdges.length) =
        List.replicate tess.GetPointNo 0 := by
  refine ⟨applyOver_eq_baseline_of_ws_zero beu fc tess dt cd extensives _ hws, ?_⟩
  apply List.ext_getElem?
  intro c
  unfold sweptVolumes
  rw [foldl_sweptVolumeStep_get]
  have hzero : ∀ l : List Nat, (l.map (sweptContribution tess dt cd
      (vecResize fc.edge_vel_ tess.getAllEdges.length 0) c)).sum = 0 := by
    intro l
    induction l with
    | nil => rfl
    | cons i rest ih =>
      rw [List.map_cons, List.sum_cons, ih, add_zero]
      have h0 : (vecResize fc.edge_vel_ tess.getAllEdges.length 0).getD i 0 = 0 := by
        rw [vecResize_getD]
        split
        · exact hev i (by assumption)
        · rfl
      simp only [sweptContribution, sweptTerm, h0, mul_zero, ite_self, sub_zero]
  rw [hzero]
  simp only [add_zero]
  cases (List.replicate tess.GetPointNo (0 : K))[c]? <;> rfl

/-- C2 (amended) at the two-cell mesh with all wave speeds and edge velocities
zero. -/
theorem C2_zero_velocities_noop_witness :
    apply id (⟨[0], [0]⟩ : LagrangianFlux ℚ) twoCellMesh 1 twoCellCache [unitRecord, unitRecord] =
        id [unitRecord, unitRecord] ∧
      sweptVolumes twoCellMesh 1 twoCellCache (⟨[0], [0]⟩ : LagrangianFlux ℚ)
          (List.range twoCellMesh.getAllEdges.length) =
        List.replicate twoCellMesh.GetPointNo 0 :=
  C2_zero_velocities_noop id ⟨[0], [0]⟩ twoCellMesh 1 twoCellCache [unitRecord, unitRecord]
    (by intro i _; cases i <;> rfl) (by intro i _; cases i <;> rfl)

/-- C3: at an interface whose two neighbours have the same original index the
second loop leaves every record as it is, and the records returned by the
updater do not depend on the wave speed stored for that interface. -/
theorem C3_self_edge_skipped
    (beu : List (Extensive K) → List (Extensive K)) (fc : LagrangianFlux K)
    (tess : Tessellation K) (dt : K) (cd : CacheData K) (extensives : List (Extensive K))
    (i : Nat)
    (hself : tess.GetOriginalIndex (tess.GetEdge i).neighbors.1 =
      tess.GetOriginalIndex (tess.GetEdge i).neighbors.2) :
    (∀ (ws_ dV : List K) (ext : List (Extensive K)),
        correctionStep tess dt cd ws_ dV ext i = ext) ∧
      (∀ ws' : List K, (∀ j, j ≠ i → ws'.getD j 0 = fc.ws_.getD j 0) →
        apply beu ⟨ws', fc.edge_vel_⟩ tess dt cd extensives =
          apply beu fc tess dt cd extensives) := by
  refine ⟨?_, ?_⟩
  · intro ws_ dV ext
    simp only [correctionStep, hself, if_true]
  · intro ws' hws'
    unfold apply applyOver
    have hdV : ∀ idx, sweptVolumes tess dt cd ⟨ws', fc.edge_vel_⟩ idx =
        sweptVolumes tess dt cd fc idx := fun idx => rfl
    rw [hdV]
    apply List.foldl_ext
    intro ext j _
    apply correctionStep_congr_ws
    intro hns
    have hji : j ≠ i := fun h => hns (h ▸ hself)
    rw [vecResize_getD, vecResize_getD, hws' j hji]

/-- C3 at the mesh whose only interface joins the cell to its own image. -/
theorem C3_self_edge_skipped_witness :
    (∀ (ws_ dV : List ℚ) (ext : List (Extensive ℚ)),
        correctionStep selfEdgeMesh 1 twoCellCache ws_ dV ext 0 = ext) ∧
      (∀ ws' : List ℚ, (∀ j, j ≠ 0 → ws'.getD j 0 = staticEdgeFlux.ws_.getD j 0) →
        apply id ⟨ws', staticEdgeFlux.edge_vel_⟩ selfEdgeMesh 1 twoCellCache [unitRecord] =
          apply id staticEdgeFlux selfEdgeMesh 1 twoCellCache [unitRecord]) :=
  C3_self_edge_skipped id staticEdgeFlux selfEdgeMesh 1 twoCellCache [unitRecord] 0 rfl

/-- C4: the swept-volume vector has one entry per real cell, and the entry of a
real cell `c` is the sum of `A_i * dt * edge_vel_i` over the edges whose first
neighbour is `c` minus the same sum over the edges whose second neighbour is
`c`. -/
theorem C4_swept_volume_of_real_cell (tess : Tessellation K) (dt : K) (cd : CacheData K)
    (fc : LagrangianFlux K) (c : Nat) (hc : c < tess.GetPointNo) :
    (sweptVolumes tess dt cd fc (List.range tess.getAllEdges.length)).getD c 0 =
        (((List.range tess.getAllEdges.length).filter
            (fun i => decide ((tess.GetEdge i).neighbors.1 = c))).map
          (sweptTerm dt cd fc.edge_vel_)).sum -
        (((List.range tess.getAllEdges.length).filter
            (fun i => decide ((tess.GetEdge i).neighbors.2 = c))).map
          (sweptTerm dt cd fc.edge_vel_)).sum
      ∧ (sweptVolumes tess dt cd fc (List.range tess.getAllEdges.length)).length =
          tess.GetPointNo := by
  refine ⟨?_, sweptVolumes_length tess dt cd fc _⟩
  rw [sweptVolumes_getD tess dt cd fc _ c hc]
  have hterm : ∀ l : List Nat, (∀ i ∈ l, i < tess.getAllEdges.length) →
      l.map (sweptTerm dt cd (vecResize fc.edge_vel_ tess.getAllEdges.length 0)) =
        l.map (sweptTerm dt cd fc.edge_vel_) := by
    intro l hl
    apply List.map_congr_left
    intro i hi
    simp only [sweptTerm, vecResize_getD, hl i hi, if_true]
  have hcontr : sweptContribution tess dt cd
      (vecResize fc.edge_vel_ tess.getAllEdges.length 0) c =
      fun i =>
        (if (tess.GetEdge i).neighbors.1 = c then
          sweptTerm dt cd (vecResize fc.edge_vel_ tess.getAllEdges.length 0) i else 0) -
        (if (tess.GetEdge i).neighbors.2 = c then
          sweptTerm dt cd (vecResize fc.edge_vel_ tess.getAllEdges.length 0) i else 0) := by
    funext i
    simp only [sweptContribution, Tessellation.GetEdge, hc, and_true]
  rw [hcontr, sum_map_sub_list, sum_map_ite_eq_filter, sum_map_ite_eq_filter, hterm, hterm]
  · intro i hi
    exact List.mem_range.mp (List.mem_of_mem_filter hi)
  · intro i hi
    exact List.mem_range.mp (List.mem_of_mem_filter hi)

/-- C4 at the two-cell mesh, for its real cell `0`. -/
theorem C4_swept_volume_of_real_cell_witness :
    (sweptVolumes twoCellMesh 1 twoCellCache staticEdgeFlux
          (List.range twoCellMesh.getAllEdges.length)).getD 0 0 =
        (((List.range twoCellMesh.getAllEdges.length).filter
            (fun i => decide ((twoCellMesh.GetEdge i).neighbors.1 = 0))).map
          (sweptTerm 1 twoCellCache staticEdgeFlux.edge_vel_)).sum -
        (((List.range twoCellMesh.getAllEdges.length).filter
            (fun i => decide ((twoCellMesh.GetEdge i).neighbors.2 = 0))).map
          (sweptTerm 1 twoCellCache staticEdgeFlux.edge_vel_)).sum
      ∧ (sweptVolumes twoCellMesh 1 twoCellCache staticEdgeFlux
          (List.range twoCellMesh.getAllEdges.length)).length = twoCellMesh.GetPointNo :=
  C4_swept_volume_of_real_cell twoCellMesh 1 twoCellCache staticEdgeFlux 0 (by decide)

end LagrangianExtensiveUpdater

/-! ## Overshoot clamp -/

section Overshoot

variable {K : Type} [LinearOrderedField K]

theorem IsNorm.abs_x_le {vabs : Vector2D K → K} (hn : IsNorm vabs) (w : Vector2D K) :
    |w.x| ≤ vabs w := by
  obtain ⟨h0, h2⟩ := hn w
  rw [abs_le]
  constructor <;> nlinarith [mul_self_nonneg w.y, mul_self_nonneg (vabs w + w.x),
    mul_self_nonneg (vabs w - w.x)]

theorem IsNorm.abs_y_le {vabs : Vector2D K → K} (hn : IsNorm vabs) (w : Vector2D K) :
    |w.y| ≤ vabs w := by
  obtain ⟨h0, h2⟩ := hn w
  rw [abs_le]
  constructor <;> nlinarith [mul_self_nonneg w.x, mul_self_nonneg (vabs w + w.y),
    mul_self_nonneg (vabs w - w.y)]

/-- The arithmetic of one clamp: `u` is the velocity component towards the
side, `n` the speed, `D` the distance of the point to the side. -/
theorem clamp_arith (u n D dt : K) (hdt : 0 < dt) (hD : 0 ≤ D) (hun : |u| ≤ n)
    (hfire : D < u * dt * 2) :
    0 < n ∧ 0 ≤ 0.4 * D * (1 / dt) / n ∧ 0.4 * D * (1 / dt) / n < 0.8 ∧
      n * (0.4 * D * (1 / dt) / n) = 0.4 * D / dt ∧
      dt * (u * (0.4 * D * (1 / dt) / n)) ≤ 0.4 * D := by
  have hu : 0 < u := by
    by_contra hneg
    push_neg at hneg
    nlinarith
  have hn0 : 0 < n := lt_of_lt_of_le hu ((le_abs_self u).trans hun)
  have hun' : u ≤ n := (le_abs_self u).trans hun
  have hf : 0.4 * D * (1 / dt) / n * (dt * n) = 0.4 * D := by
    field_simp
  have hpos : 0 < dt * n := mul_pos hdt hn0
  refine ⟨hn0, ?_, ?_, ?_, ?_⟩
  · apply div_nonneg _ hn0.le
    apply mul_nonneg _ (by positivity)
    linarith
  · by_contra hge
    push_neg at hge
    have : 0.8 * (dt * n) ≤ 0.4 * D * (1 / dt) / n * (dt * n) :=
      mul_le_mul_of_nonneg_right hge hpos.le
    nlinarith
  · field_simp
    ring
  · have hfn : 0 ≤ 0.4 * D * (1 / dt) / n := by
      apply div_nonneg _ hn0.le
      apply mul_nonneg _ (by positivity)
      linarith
    have h1 : dt * (u * (0.4 * D * (1 / dt) / n)) * n = 0.4 * D * u := by
      field_simp
      ring
    have h2 : dt * (u * (0.4 * D * (1 / dt) / n)) * n ≤ 0.4 * D * n := by
      rw [h1]
      apply mul_le_mul_of_nonneg_left hun'
      linarith
    exact le_of_mul_le_mul_right h2 hn0

/-- Scaling a velocity component by a scalar in `[0, 1]` keeps a point within a
side at non-negative distance `D`. -/
theorem scale_keeps_bound (u g D dt : K) (hdt : 0 < dt) (hD : 0 ≤ D) (hg0 : 0 ≤ g) (hg1 : g ≤ 1)
    (h : 2 * dt * u ≤ D) : 2 * dt * (u * g) ≤ D := by
  by_cases hu : u ≤ 0
  · have : u * g ≤ 0 := mul_nonpos_of_nonpos_of_nonneg hu hg0
    nlinarith
  · push_neg at hu
    have : u * g ≤ u := by nlinarith
    nlinarith

theorem Vector2D.mulS_one (w : Vector2D K) : Vector2D.mulS w 1 = w := by
  cases w; simp [Vector2D.mulS]

theorem Vector2D.zero_mulS (f : K) : Vector2D.mulS (0 : Vector2D K) f = 0 := by
  show Vector2D.mulS ⟨0, 0⟩ f = ⟨0, 0⟩
  simp [Vector2D.mulS]

theorem Vector2D.mulS_mulS (w : Vector2D K) (f g : K) :
    Vector2D.mulS (Vector2D.mulS w f) g = Vector2D.mulS w (f * g) := by
  cases w; simp [Vector2D.mulS, mul_assoc]

theorem getD_set_mulS (l : List (Vector2D K)) (j c : Nat) (f : K) :
    (l.set j (Vector2D.mulS (l.getD j 0) f)).getD c 0 =
      if j = c then Vector2D.mulS (l.getD c 0) f else l.getD c 0 := by
  rw [List.getD_eq_getElem?_getD, getElem?_set_getD l j c 0 (fun w => Vector2D.mulS w f)]
  by_cases hjc : j = c
  · simp only [hjc, if_true, List.getD_eq_getElem?_getD]
    cases l[c]? with
    | none => simp only [Option.map_none', Option.getD_none, Vector2D.zero_mulS]
    | some a => rfl
  · simp only [hjc, if_false, List.getD_eq_getElem?_getD]

theorem Shrunk.refl (v : List (Vector2D K)) : Shrunk v v :=
  fun _ => ⟨1, zero_le_one, le_refl 1, (Vector2D.mulS_one _).symm⟩

theorem Shrunk.trans {v v' v'' : List (Vector2D K)} (h : Shrunk v v') (h' : Shrunk v' v'') :
    Shrunk v v'' := by
  intro k
  obtain ⟨g, hg0, hg1, hg⟩ := h k
  obtain ⟨g', hg0', hg1', hg'⟩ := h' k
  refine ⟨g * g', mul_nonneg hg0 hg0', ?_, ?_⟩
  · calc g * g' ≤ 1 * 1 := mul_le_mul hg1 hg1' hg0' zero_le_one
      _ = 1 := one_mul 1
  · rw [hg', hg, Vector2D.mulS_mulS]

theorem Shrunk.set (v : List (Vector2D K)) (j : Nat) (f : K) (hf0 : 0 ≤ f) (hf1 : f ≤ 1) :
    Shrunk v (v.set j (Vector2D.mulS (v.getD j 0) f)) := by
  intro k
  rw [getD_set_mulS]
  by_cases hjk : j = k
  · exact ⟨f, hf0, hf1, by simp only [hjk, if_true]⟩
  · exact ⟨1, zero_le_one, le_refl 1, by simp only [hjk, if_false, Vector2D.mulS_one]⟩

theorem LimitNeighborVelocity.loop_shrunk (vdist : Vector2D K → Vector2D K → K)
    (tess : Tessellation K) (index : Nat) (f : K) (r : Vector2D K) (R : K) (hf0 : 0 ≤ f)
    (hf1 : f ≤ 1) (neigh : List Nat) (vel : List (Vector2D K)) :
    Shrunk vel (LimitNeighborVelocity.loop vdist tess index f r R neigh vel) := by
  induction neigh with
  | nil => exact Shrunk.refl vel
  | cons n rest ih =>
    unfold LimitNeighborVelocity.loop
    split
    · split
      · exact Shrunk.set vel n f hf0 hf1
      · exact ih
    · exact ih

theorem LimitNeighborVelocity_shrunk (vdist : Vector2D K → Vector2D K → K)
    (vel : List (Vector2D K)) (tess : Tessellation K) (index : Nat) (f : K) (hf0 : 0 ≤ f)
    (hf1 : f ≤ 1) : Shrunk vel (LimitNeighborVelocity vdist vel tess index f) :=
  LimitNeighborVelocity.loop_shrunk vdist tess index f _ _ hf0 hf1 _ vel

/-- The shape shared by the four checks: when the check fires, entry `i` is
scaled by `f` and a neighbour is limited by the same `f`. -/
theorem clamp_shape_shrunk (vdist : Vector2D K → Vector2D K → K) (tess : Tessellation K)
    (v : List (Vector2D K)) (i : Nat) (f : K) (hf0 : 0 ≤ f) (hf1 : f ≤ 1) :
    Shrunk v (LimitNeighborVelocity vdist (v.set i (Vector2D.mulS (v.getD i 0) f)) tess i f) :=
  (Shrunk.set v i f hf0 hf1).trans (LimitNeighborVelocity_shrunk vdist _ tess i f hf0 hf1)

theorem clamp_shape_entry (vdist : Vector2D K → Vector2D K → K) (tess : Tessellation K)
    (v : List (Vector2D K)) (i : Nat) (f : K) (hf0 : 0 ≤ f) (hf1 : f ≤ 1) :
    ∃ g : K, 0 ≤ g ∧ g ≤ 1 ∧
      (LimitNeighborVelocity vdist (v.set i (Vector2D.mulS (v.getD i 0) f)) tess i f).getD i 0 =
        Vector2D.mulS (Vector2D.mulS (v.getD i 0) f) g := by
  obtain ⟨g, hg0, hg1, hg⟩ := LimitNeighborVelocity_shrunk vdist
    (v.set i (Vector2D.mulS (v.getD i 0) f)) tess i f hf0 hf1 i
  refine ⟨g, hg0, hg1, ?_⟩
  rw [hg, getD_set_mulS, if_pos rfl]

theorem shrunk_keeps_right (outer : OuterBoundary K) (dt : K) (p : Vector2D K) (hdt : 0 < dt)
    (hin : insideDomain outer p) {v v' : List (Vector2D K)} (h : Shrunk v v') (i : Nat)
    (hb : p.x + 2 * dt * (v.getD i 0).x ≤ outer.GetGridBoundary Direction.Right) :
    p.x + 2 * dt * (v'.getD i 0).x ≤ outer.GetGridBoundary Direction.Right := by
  obtain ⟨g, hg0, hg1, hg⟩ := h i
  rw [hg]
  have := scale_keeps_bound (v.getD i 0).x g (outer.GetGridBoundary Direction.Right - p.x) dt
    hdt (by linarith [hin.2.1]) hg0 hg1 (by linarith)
  simp only [Vector2D.mulS]
  linarith

theorem shrunk_keeps_left (outer : OuterBoundary K) (dt : K) (p : Vector2D K) (hdt : 0 < dt)
    (hin : insideDomain outer p) {v v' : List (Vector2D K)} (h : Shrunk v v') (i : Nat)
    (hb : outer.GetGridBoundary Direction.Left ≤ p.x + 2 * dt * (v.getD i 0).x) :
    outer.GetGridBoundary Direction.Left ≤ p.x + 2 * dt * (v'.getD i 0).x := by
  obtain ⟨g, hg0, hg1, hg⟩ := h i
  rw [hg]
  have := scale_keeps_bound (-(v.getD i 0).x) g (p.x - outer.GetGridBoundary Direction.Left) dt
    hdt (by linarith [hin.1]) hg0 hg1 (by linarith)
  simp only [Vector2D.mulS]
  linarith

theorem shrunk_keeps_up (outer : OuterBoundary K) (dt : K) (p : Vector2D K) (hdt : 0 < dt)
    (hin : insideDomain outer p) {v v' : List (Vector2D K)} (h : Shrunk v v') (i : Nat)
    (hb : p.y + 2 * dt * (v.getD i 0).y ≤ outer.GetGridBoundary Direction.Up) :
    p.y + 2 * dt * (v'.getD i 0).y ≤ outer.GetGridBoundary Direction.Up := by
  obtain ⟨g, hg0, hg1, hg⟩ := h i
  rw [hg]
  have := scale_keeps_bound (v.getD i 0).y g (outer.GetGridBoundary Direction.Up - p.y) dt
    hdt (by linarith [hin.2.2.2]) hg0 hg1 (by linarith)
  simp only [Vector2D.mulS]
  linarith

theorem shrunk_keeps_down (outer : OuterBoundary K) (dt : K) (p : Vector2D K) (hdt : 0 < dt)
    (hin : insideDomain outer p) {v v' : List (Vector2D K)} (h : Shrunk v v') (i : Nat)
    (hb : outer.GetGridBoundary Direction.Down ≤ p.y + 2 * dt * (v.getD i 0).y) :
    outer.GetGridBoundary Direction.Down ≤ p.y + 2 * dt * (v'.getD i 0).y := by
  obtain ⟨g, hg0, hg1, hg⟩ := h i
  rw [hg]
  have := scale_keeps_bound (-(v.getD i 0).y) g (p.y - outer.GetGridBoundary Direction.Down) dt
    hdt (by linarith [hin.2.2.1]) hg0 hg1 (by linarith)
  simp only [Vector2D.mulS]
  linarith

theorem shrunk_keeps_inside (outer : OuterBoundary K) (dt : K) (p : Vector2D K) (hdt : 0 < dt)
    (hin : insideDomain outer p) {v v' : List (Vector2D K)} (h : Shrunk v v') (i : Nat)
    (hb : staysInside outer dt p (v.getD i 0)) : staysInside outer dt p (v'.getD i 0) :=
  ⟨shrunk_keeps_left outer dt p hdt hin h i hb.1,
    shrunk_keeps_right outer dt p hdt hin h i hb.2.1,
    shrunk_keeps_down outer dt p hdt hin h i hb.2.2.1,
    shrunk_keeps_up outer dt p hdt hin h i hb.2.2.2⟩

theorem clampRight_spec (vabs : Vector2D K → K) (vdist : Vector2D K → Vector2D K → K) (dt : K)
    (tess : Tessellation K) (outer : OuterBoundary K) (hn : IsNorm vabs) (hdt : 0 < dt)
    (i : Nat) (hin : insideDomain outer (tess.GetMeshPoint i)) (v : List (Vector2D K)) :
    Shrunk v (clampRight vabs vdist dt tess outer v i) ∧
      (tess.GetMeshPoint i).x + 2 * dt * ((clampRight vabs vdist dt tess outer v i).getD i 0).x ≤
        outer.GetGridBoundary Direction.Right := by
  simp only [clampRight]
  by_cases hc : (v.getD i 0).x * dt * 2 + (tess.GetMeshPoint i).x >
      outer.GetGridBoundary Direction.Right
  · rw [if_pos hc]
    obtain ⟨_, hf0, hf8, _, hb⟩ := clamp_arith (v.getD i 0).x (vabs (v.getD i 0))
      (outer.GetGridBoundary Direction.Right - (tess.GetMeshPoint i).x) dt hdt
      (by linarith [hin.2.1]) (hn.abs_x_le _) (by linarith)
    have hf1 : 0.4 * (outer.GetGridBoundary Direction.Right - (tess.GetMeshPoint i).x) *
        (1 / dt) / vabs (v.getD i 0) ≤ 1 := by linarith
    refine ⟨clamp_shape_shrunk vdist tess v i _ hf0 hf1, ?_⟩
    obtain ⟨g, hg0, hg1, hg⟩ := clamp_shape_entry vdist tess v i _ hf0 hf1
    rw [hg]
    have := scale_keeps_bound ((v.getD i 0).x * (0.4 * (outer.GetGridBoundary Direction.Right -
      (tess.GetMeshPoint i).x) * (1 / dt) / vabs (v.getD i 0))) g
      (outer.GetGridBoundary Direction.Right - (tess.GetMeshPoint i).x) dt
      hdt (by linarith [hin.2.1]) hg0 hg1 (by linarith [hin.2.1])
    simp only [Vector2D.mulS]
    linarith
  · rw [if_neg hc]
    exact ⟨Shrunk.refl v, by linarith [not_lt.mp hc]⟩

theorem clampLeft_spec (vabs : Vector2D K → K) (vdist : Vector2D K → Vector2D K → K) (dt : K)
    (tess : Tessellation K) (outer : OuterBoundary K) (hn : IsNorm vabs) (hdt : 0 < dt)
    (i : Nat) (hin : insideDomain outer (tess.GetMeshPoint i)) (v : List (Vector2D K)) :
    Shrunk v (clampLeft vabs vdist dt tess outer v i) ∧
      outer.GetGridBoundary Direction.Left ≤
        (tess.GetMeshPoint i).x + 2 * dt * ((clampLeft vabs vdist dt tess outer v i).getD i 0).x := by
  simp only [clampLeft]
  by_cases hc : (v.getD i 0).x * dt * 2 + (tess.GetMeshPoint i).x <
      outer.GetGridBoundary Direction.Left
  · rw [if_pos hc]
    obtain ⟨_, hf0, hf8, _, hb⟩ := clamp_arith (-(v.getD i 0).x) (vabs (v.getD i 0))
      ((tess.GetMeshPoint i).x - outer.GetGridBoundary Direction.Left) dt hdt
      (by linarith [hin.1]) (by rw [abs_neg]; exact hn.abs_x_le _) (by linarith)
    have hf1 : 0.4 * ((tess.GetMeshPoint i).x - outer.GetGridBoundary Direction.Left) *
        (1 / dt) / vabs (v.getD i 0) ≤ 1 := by linarith
    refine ⟨clamp_shape_shrunk vdist tess v i _ hf0 hf1, ?_⟩
    obtain ⟨g, hg0, hg1, hg⟩ := clamp_shape_entry vdist tess v i _ hf0 hf1
    rw [hg]
    have := scale_keeps_bound (-(v.getD i 0).x * (0.4 * ((tess.GetMeshPoint i).x -
      outer.GetGridBoundary Direction.Left) * (1 / dt) / vabs (v.getD i 0))) g
      ((tess.GetMeshPoint i).x - outer.GetGridBoundary Direction.Left) dt
      hdt (by linarith [hin.1]) hg0 hg1 (by linarith [hin.1])
    simp only [Vector2D.mulS]
    linarith
  · rw [if_neg hc]
    exact ⟨Shrunk.refl v, by linarith [not_lt.mp hc]⟩

theorem clampUp_spec (vabs : Vector2D K → K) (vdist : Vector2D K → Vector2D K → K) (dt : K)
    (tess : Tessellation K) (outer : OuterBoundary K) (hn : IsNorm vabs) (hdt : 0 < dt)
    (i : Nat) (hin : insideDomain outer (tess.GetMeshPoint i)) (v : List (Vector2D K)) :
    Shrunk v (clampUp vabs vdist dt tess outer v i) ∧
      (tess.GetMeshPoint i).y + 2 * dt * ((clampUp vabs vdist dt tess outer v i).getD i 0).y ≤
        outer.GetGridBoundary Direction.Up := by
  simp only [clampUp]
  by_cases hc : (v.getD i 0).y * dt * 2 + (tess.GetMeshPoint i).y >
      outer.GetGridBoundary Direction.Up
  · rw [if_pos hc]
    obtain ⟨_, hf0, hf8, _, hb⟩ := clamp_arith (v.getD i 0).y (vabs (v.getD i 0))
      (outer.GetGridBoundary Direction.Up - (tess.GetMeshPoint i).y) dt hdt
      (by linarith [hin.2.2.2]) (hn.abs_y_le _) (by linarith)
    have hf1 : 0.4 * (outer.GetGridBoundary Direction.Up - (tess.GetMeshPoint i).y) *
        (1 / dt) / vabs (v.getD i 0) ≤ 1 := by linarith
    refine ⟨clamp_shape_shrunk vdist tess v i _ hf0 hf1, ?_⟩
    obtain ⟨g, hg0, hg1, hg⟩ := clamp_shape_entry vdist tess v i _ hf0 hf1
    rw [hg]
    have := scale_keeps_bound ((v.getD i 0).y * (0.4 * (outer.GetGridBoundary Direction.Up -
      (tess.GetMeshPoint i).y) * (1 / dt) / vabs (v.getD i 0))) g
      (outer.GetGridBoundary Direction.Up - (tess.GetMeshPoint i).y) dt
      hdt (by linarith [hin.2.2.2]) hg0 hg1 (by linarith [hin.2.2.2])
    simp only [Vector2D.mulS]
    linarith
  · rw [if_neg hc]
    exact ⟨Shrunk.refl v, by linarith [not_lt.mp hc]⟩

theorem clampDown_spec (vabs : Vector2D K → K) (vdist : Vector2D K → Vector2D K → K) (dt : K)
    (tess : Tessellation K) (outer : OuterBoundary K) (hn : IsNorm vabs) (hdt : 0 < dt)
    (i : Nat) (hin : insideDomain outer (tess.GetMeshPoint i)) (v : List (Vector2D K)) :
    Shrunk v (clampDown vabs vdist dt tess outer v i) ∧
      outer.GetGridBoundary Direction.Down ≤
        (tess.GetMeshPoint i).y + 2 * dt * ((clampDown vabs vdist dt tess outer v i).getD i 0).y := by
  simp only [clampDown]
  by_cases hc : (v.getD i 0).y * dt * 2 + (tess.GetMeshPoint i).y <
      outer.GetGridBoundary Direction.Down
  · rw [if_pos hc]
    obtain ⟨_, hf0, hf8, _, hb⟩ := clamp_arith (-(v.getD i 0).y) (vabs (v.getD i 0))
      ((tess.GetMeshPoint i).y - outer.GetGridBoundary Direction.Down) dt hdt
      (by linarith [hin.2.2.1]) (by rw [abs_neg]; exact hn.abs_y_le _) (by linarith)
    have hf1 : 0.4 * ((tess.GetMeshPoint i).y - outer.GetGridBoundary Direction.Down) *
        (1 / dt) / vabs (v.getD i 0) ≤ 1 := by linarith
    refine ⟨clamp_shape_shrunk vdist tess v i _ hf0 hf1, ?_⟩
    obtain ⟨g, hg0, hg1, hg⟩ := clamp_shape_entry vdist tess v i _ hf0 hf1
    rw [hg]
    have := scale_keeps_bound (-(v.getD i 0).y * (0.4 * ((tess.GetMeshPoint i).y -
      outer.GetGridBoundary Direction.Down) * (1 / dt) / vabs (v.getD i 0))) g
      ((tess.GetMeshPoint i).y - outer.GetGridBoundary Direction.Down) dt
      hdt (by linarith [hin.2.2.1]) hg0 hg1 (by linarith [hin.2.2.1])
    simp only [Vector2D.mulS]
    linarith
  · rw [if_neg hc]
    exact ⟨Shrunk.refl v, by linarith [not_lt.mp hc]⟩

theorem overshootStep_spec (vabs : Vector2D K → K) (vdist : Vector2D K → Vector2D K → K)
    (dt : K) (tess : Tessellation K) (outer : OuterBoundary K) (hn : IsNorm vabs) (hdt : 0 < dt)
    (i : Nat) (hin : insideDomain outer (tess.GetMeshPoint i)) (v : List (Vector2D K)) :
    Shrunk v (overshootStep vabs vdist dt tess outer v i) ∧
      staysInside outer dt (tess.GetMeshPoint i)
        ((overshootStep vabs vdist dt tess outer v i).getD i 0) := by
  unfold overshootStep
  obtain ⟨s1, b1⟩ := clampRight_spec vabs vdist dt tess outer hn hdt i hin v
  obtain ⟨s2, b2⟩ := clampLeft_spec vabs vdist dt tess outer hn hdt i hin
    (clampRight vabs vdist dt tess outer v i)
  obtain ⟨s3, b3⟩ := clampUp_spec vabs vdist dt tess outer hn hdt i hin
    (clampLeft vabs vdist dt tess outer (clampRight vabs vdist dt tess outer v i) i)
  obtain ⟨s4, b4⟩ := clampDown_spec vabs vdist dt tess outer hn hdt i hin
    (clampUp vabs vdist dt tess outer
      (clampLeft vabs vdist dt tess outer (clampRight vabs vdist dt tess outer v i) i) i)
  refine ⟨((s1.trans s2).trans s3).trans s4, ?_, ?_, b4, ?_⟩
  · exact shrunk_keeps_left outer dt _ hdt hin (s3.trans s4) i b2
  · exact shrunk_keeps_right outer dt _ hdt hin ((s2.trans s3).trans s4) i b1
  · exact shrunk_keeps_up outer dt _ hdt hin s4 i b3

theorem foldl_overshootStep_spec (vabs : Vector2D K → K) (vdist : Vector2D K → Vector2D K → K)
    (dt : K) (tess : Tessellation K) (outer : OuterBoundary K) (hn : IsNorm vabs) (hdt : 0 < dt)
    (l : List Nat) (hin : ∀ i ∈ l, insideDomain outer (tess.GetMeshPoint i)) :
    ∀ v : List (Vector2D K),
      Shrunk v (l.foldl (overshootStep vabs vdist dt tess outer) v) ∧
        ∀ j ∈ l, staysInside outer dt (tess.GetMeshPoint j)
          ((l.foldl (overshootStep vabs vdist dt tess outer) v).getD j 0) := by
  induction l with
  | nil =>
    intro v
    exact ⟨Shrunk.refl v, fun j hj => absurd hj (List.not_mem_nil j)⟩
  | cons i rest ih =>
    intro v
    have hi := hin i (List.mem_cons_self i rest)
    obtain ⟨s1, b1⟩ := overshootStep_spec vabs vdist dt tess outer hn hdt i hi v
    obtain ⟨s2, b2⟩ := ih (fun k hk => hin k (List.mem_cons_of_mem i hk))
      (overshootStep vabs vdist dt tess outer v i)
    rw [List.foldl_cons]
    refine ⟨s1.trans s2, ?_⟩
    intro j hj
    rcases List.mem_cons.mp hj with hji | hjr
    · subst hji
      exact shrunk_keeps_inside outer dt _ hdt hi s2 j b1
    · exact b2 j hjr

theorem CorrectPointsOverShoot_staysInside (vabs : Vector2D K → K)
    (vdist : Vector2D K → Vector2D K → K) (v : List (Vector2D K)) (dt : K)
    (tess : Tessellation K) (outer : OuterBoundary K) (hn : IsNorm vabs) (hdt : 0 < dt)
    (hin : ∀ i, i < tess.GetPointNo → insideDomain outer (tess.GetMeshPoint i))
    (i : Nat) (hi : i < tess.GetPointNo) :
    staysInside outer dt (tess.GetMeshPoint i)
      ((CorrectPointsOverShoot vabs vdist v dt tess outer).getD i 0) := by
  unfold CorrectPointsOverShoot
  exact (foldl_overshootStep_spec vabs vdist dt tess outer hn hdt _
    (fun k hk => hin k (List.mem_range.mp hk)) v).2 i (List.mem_range.mpr hi)

theorem CorrectPointsOverShoot_shrunk (vabs : Vector2D K → K)
    (vdist : Vector2D K → Vector2D K → K) (v : List (Vector2D K)) (dt : K)
    (tess : Tessellation K) (outer : OuterBoundary K) (hn : IsNorm vabs) (hdt : 0 < dt)
    (hin : ∀ i, i < tess.GetPointNo → insideDomain outer (tess.GetMeshPoint i)) :
    Shrunk v (CorrectPointsOverShoot vabs vdist v dt tess outer) := by
  unfold CorrectPointsOverShoot
  exact (foldl_overshootStep_spec vabs vdist dt tess outer hn hdt _
    (fun k hk => hin k (List.mem_range.mp hk)) v).1

theorem LimitNeighborVelocity.loop_length (vdist : Vector2D K → Vector2D K → K)
    (tess : Tessellation K) (index : Nat) (f : K) (r : Vector2D K) (R : K) (neigh : List Nat)
    (vel : List (Vector2D K)) :
    (LimitNeighborVelocity.loop vdist tess index f r R neigh vel).length = vel.length := by
  induction neigh with
  | nil => rfl
  | cons n rest ih =>
    unfold LimitNeighborVelocity.loop
    split
    · split
      · exact List.length_set _ _ _
      · exact ih
    · exact ih

theorem LimitNeighborVelocity_length (vdist : Vector2D K → Vector2D K → K)
    (vel : List (Vector2D K)) (tess : Tessellation K) (index : Nat) (f : K) :
    (LimitNeighborVelocity vdist vel tess index f).length = vel.length :=
  LimitNeighborVelocity.loop_length vdist tess index f _ _ _ vel

theorem overshootStep_length (vabs : Vector2D K → K) (vdist : Vector2D K → Vector2D K → K)
    (dt : K) (tess : Tessellation K) (outer : OuterBoundary K) (v : List (Vector2D K))
    (i : Nat) : (overshootStep vabs vdist dt tess outer v i).length = v.length := by
  have hR : ∀ w : List (Vector2D K),
      (clampRight vabs vdist dt tess outer w i).length = w.length := by
    intro w
    simp only [clampRight]
    split
    · rw [LimitNeighborVelocity_length, List.length_set]
    · rfl
  have hL : ∀ w : List (Vector2D K),
      (clampLeft vabs vdist dt tess outer w i).length = w.length := by
    intro w
    simp only [clampLeft]
    split
    · rw [LimitNeighborVelocity_length, List.length_set]
    · rfl
  have hU : ∀ w : List (Vector2D K),
      (clampUp vabs vdist dt tess outer w i).length = w.length := by
    intro w
    simp only [clampUp]
    split
    · rw [LimitNeighborVelocity_length, List.length_set]
    · rfl
  have hD : ∀ w : List (Vector2D K),
      (clampDown vabs vdist dt tess outer w i).length = w.length := by
    intro w
    simp only [clampDown]
    split
    · rw [LimitNeighborVelocity_length, List.length_set]
    · rfl
  rw [overshootStep, hD, hU, hL, hR]

theorem CorrectPointsOverShoot_length (vabs : Vector2D K → K)
    (vdist : Vector2D K → Vector2D K → K) (v : List (Vector2D K)) (dt : K)
    (tess : Tessellation K) (outer : OuterBoundary K) :
    (CorrectPointsOverShoot vabs vdist v dt tess outer).length = v.length := by
  unfold CorrectPointsOverShoot
  have key : ∀ (l : List Nat) (w : List (Vector2D K)),
      (l.foldl (overshootStep vabs vdist dt tess outer) w).length = w.length := by
    intro l
    induction l with
    | nil => intro w; rfl
    | cons i rest ih => intro w; rw [List.foldl_cons, ih, overshootStep_length]
  exact key _ v

theorem foldl_set_length {α : Type} (g : List α → Nat → α) (l : List Nat) :
    ∀ v : List α, (l.foldl (fun res i => res.set i (g res i)) v).length = v.length := by
  induction l with
  | nil => intro v; rfl
  | cons i rest ih => intro v; rw [List.foldl_cons, ih, List.length_set]

theorem ApplyFix_length (rc : RoundCells K) (vabs : Vector2D K → K)
    (vdist : Vector2D K → Vector2D K → K) (tess : Tessellation K)
    (cells : List (ComputationalCell K)) (time dt : K) (velocities : List (Vector2D K)) :
    (rc.ApplyFix vabs vdist tess cells time dt velocities).length = tess.GetPointNo := by
  have hcold : (if rc.cold_ then
      (List.range (vecResize velocities tess.GetPointNo 0).length).foldl
        (fun res i => res.set i (Vector2D.add (res.getD i 0) (rc.calc_dw_dt vabs i tess dt)))
        (vecResize velocities tess.GetPointNo 0)
      else vecResize velocities tess.GetPointNo 0).length = tess.GetPointNo := by
    split
    · rw [foldl_set_length (fun res i =>
        Vector2D.add (res.getD i 0) (rc.calc_dw_dt vabs i tess dt)), vecResize_length]
    · exact vecResize_length _ _ _
  simp only [RoundCells.ApplyFix]
  split
  · rw [CorrectPointsOverShoot_length]
    exact hcold
  · exact hcold

/-- C5: with a boundary that is not periodic, all mesh points inside the domain
rectangle and `dt > 0`, `RoundCells::ApplyFix` (cold mode on or off) returns
one velocity per mesh point and `CorrectPointsOverShoot` returns as many
velocities as it is given, and every velocity returned keeps its point inside
the rectangle over two timesteps: `Left ≤ x_i + 2*dt*v_i.x ≤ Right` and
`Down ≤ y_i + 2*dt*v_i.y ≤ Up`. -/
theorem C5_clamped_velocities_stay_inside (rc : RoundCells K) (vabs : Vector2D K → K)
    (vdist : Vector2D K → Vector2D K → K) (tess : Tessellation K)
    (cells : List (ComputationalCell K)) (time dt : K) (velocities : List (Vector2D K))
    (hn : IsNorm vabs) (hdt : 0 < dt)
    (hnp : rc.outer_.GetBoundaryType ≠ BoundaryType.Periodic)
    (hin : ∀ i, i < tess.GetPointNo → insideDomain rc.outer_ (tess.GetMeshPoint i)) :
    (rc.ApplyFix vabs vdist tess cells time dt velocities).length = tess.GetPointNo ∧
      (∀ i, i < tess.GetPointNo →
        ∃ w, (rc.ApplyFix vabs vdist tess cells time dt velocities)[i]? = some w ∧
          staysInside rc.outer_ dt (tess.GetMeshPoint i) w) ∧
      (∀ v : List (Vector2D K),
        (CorrectPointsOverShoot vabs vdist v dt tess rc.outer_).length = v.length) ∧
      (∀ (v : List (Vector2D K)) (i : Nat), i < tess.GetPointNo → i < v.length →
        ∃ w, (CorrectPointsOverShoot vabs vdist v dt tess rc.outer_)[i]? = some w ∧
          staysInside rc.outer_ dt (tess.GetMeshPoint i) w) ∧
      (∀ i, i < tess.GetPointNo →
        staysInside rc.outer_ dt (tess.GetMeshPoint i)
          ((rc.ApplyFix vabs vdist tess cells time dt velocities).getD i 0)) ∧
      (∀ (v : List (Vector2D K)) (i : Nat), i < tess.GetPointNo →
        staysInside rc.outer_ dt (tess.GetMeshPoint i)
          ((CorrectPointsOverShoot vabs vdist v dt tess rc.outer_).getD i 0)) := by
  have hA : ∀ i, i < tess.GetPointNo →
      staysInside rc.outer_ dt (tess.GetMeshPoint i)
        ((rc.ApplyFix vabs vdist tess cells time dt velocities).getD i 0) := by
    intro i hi
    simp only [RoundCells.ApplyFix, hnp, ne_eq, not_false_eq_true, if_true]
    exact CorrectPointsOverShoot_staysInside vabs vdist _ dt tess rc.outer_ hn hdt hin i hi
  have hC : ∀ (v : List (Vector2D K)) (i : Nat), i < tess.GetPointNo →
      staysInside rc.outer_ dt (tess.GetMeshPoint i)
        ((CorrectPointsOverShoot vabs vdist v dt tess rc.outer_).getD i 0) := fun v i hi =>
    CorrectPointsOverShoot_staysInside vabs vdist v dt tess rc.outer_ hn hdt hin i hi
  have hlenA := ApplyFix_length rc vabs vdist tess cells time dt velocities
  refine ⟨hlenA, ?_, fun v => CorrectPointsOverShoot_length vabs vdist v dt tess rc.outer_,
    ?_, hA, hC⟩
  · intro i hi
    have hlt : i < (rc.ApplyFix vabs vdist tess cells time dt velocities).length := by
      rw [hlenA]; exact hi
    refine ⟨(rc.ApplyFix vabs vdist tess cells time dt velocities)[i],
      List.getElem?_eq_getElem hlt, ?_⟩
    have := hA i hi
    rwa [List.getD_eq_getElem _ _ hlt] at this
  · intro v i hi hiv
    have hlt : i < (CorrectPointsOverShoot vabs vdist v dt tess rc.outer_).length := by
      rw [CorrectPointsOverShoot_length]; exact hiv
    refine ⟨(CorrectPointsOverShoot vabs vdist v dt tess rc.outer_)[i],
      List.getElem?_eq_getElem hlt, ?_⟩
    have := hC v i hi
    rwa [List.getD_eq_getElem _ _ hlt] at this

end Overshoot

section Euclid

variable {K : Type} [LinearOrderedField K]

/-- The Euclidean length on real plane vectors satisfies `IsNorm`. -/
theorem euclid_isNorm :
    IsNorm (fun w : Vector2D ℝ => Real.sqrt (w.x * w.x + w.y * w.y)) := by
  intro w
  refine ⟨Real.sqrt_nonneg _, ?_⟩
  exact Real.mul_self_sqrt (add_nonneg (mul_self_nonneg _) (mul_self_nonneg _))

theorem onePointMesh_inside (i : Nat) :
    insideDomain (unitSquare ℝ) ((onePointMesh ℝ).GetMeshPoint i) := by
  simp [insideDomain, unitSquare, onePointMesh]

end Euclid

section Overshoot

variable {K : Type} [LinearOrderedField K]

/-- C5 on the one-point mesh in the unit square, with the Euclidean length, the
timestep `1` and the provisional velocity `(3, 4)`. -/
theorem C5_clamped_velocities_stay_inside_witness :
    ((sampleRoundCells ℝ).ApplyFix (fun w => Real.sqrt (w.x * w.x + w.y * w.y))
        (fun a b => Real.sqrt ((a.x - b.x) * (a.x - b.x) + (a.y - b.y) * (a.y - b.y)))
        (onePointMesh ℝ) [] 0 1 [⟨3, 4⟩]).length = (onePointMesh ℝ).GetPointNo ∧
      (∀ i, i < (onePointMesh ℝ).GetPointNo →
        ∃ w, ((sampleRoundCells ℝ).ApplyFix (fun w => Real.sqrt (w.x * w.x + w.y * w.y))
            (fun a b => Real.sqrt ((a.x - b.x) * (a.x - b.x) + (a.y - b.y) * (a.y - b.y)))
            (onePointMesh ℝ) [] 0 1 [⟨3, 4⟩])[i]? = some w ∧
          staysInside (sampleRoundCells ℝ).outer_ 1 ((onePointMesh ℝ).GetMeshPoint i) w) ∧
      (∀ v : List (Vector2D ℝ),
        (CorrectPointsOverShoot (fun w => Real.sqrt (w.x * w.x + w.y * w.y))
          (fun a b => Real.sqrt ((a.x - b.x) * (a.x - b.x) + (a.y - b.y) * (a.y - b.y)))
          v 1 (onePointMesh ℝ) (sampleRoundCells ℝ).outer_).length = v.length) ∧
      (∀ (v : List (Vector2D ℝ)) (i : Nat), i < (onePointMesh ℝ).GetPointNo → i < v.length →
        ∃ w, (CorrectPointsOverShoot (fun w => Real.sqrt (w.x * w.x + w.y * w.y))
            (fun a b => Real.sqrt ((a.x - b.x) * (a.x - b.x) + (a.y - b.y) * (a.y - b.y)))
            v 1 (onePointMesh ℝ) (sampleRoundCells ℝ).outer_)[i]? = some w ∧
          staysInside (sampleRoundCells ℝ).outer_ 1 ((onePointMesh ℝ).GetMeshPoint i) w) ∧
      (∀ i, i < (onePointMesh ℝ).GetPointNo →
        staysInside (sampleRoundCells ℝ).outer_ 1 ((onePointMesh ℝ).GetMeshPoint i)
          (((sampleRoundCells ℝ).ApplyFix (fun w => Real.sqrt (w.x * w.x + w.y * w.y))
            (fun a b => Real.sqrt ((a.x - b.x) * (a.x - b.x) + (a.y - b.y) * (a.y - b.y)))
            (onePointMesh ℝ) [] 0 1 [⟨3, 4⟩]).getD i 0)) ∧
      (∀ (v : List (Vector2D ℝ)) (i : Nat), i < (onePointMesh ℝ).GetPointNo →
        staysInside (sampleRoundCells ℝ).outer_ 1 ((onePointMesh ℝ).GetMeshPoint i)
          ((CorrectPointsOverShoot (fun w => Real.sqrt (w.x * w.x + w.y * w.y))
            (fun a b => Real.sqrt ((a.x - b.x) * (a.x - b.x) + (a.y - b.y) * (a.y - b.y)))
            v 1 (onePointMesh ℝ) (sampleRoundCells ℝ).outer_).getD i 0)) :=
  C5_clamped_velocities_stay_inside (sampleRoundCells ℝ) _ _ (onePointMesh ℝ) [] 0 1 [⟨3, 4⟩]
    euclid_isNorm one_pos (by simp [sampleRoundCells, unitSquare])
    (fun i _ => onePointMesh_inside i)

theorem IsNorm.vabs_mulS {vabs : Vector2D K → K} (hn : IsNorm vabs) (w : Vector2D K) (f : K)
    (hf : 0 ≤ f) : vabs (Vector2D.mulS w f) = vabs w * f := by
  obtain ⟨h0, h2⟩ := hn w
  obtain ⟨h0', h2'⟩ := hn (Vector2D.mulS w f)
  apply (mul_self_inj h0' (mul_nonneg h0 hf)).mp
  rw [h2']
  simp only [Vector2D.mulS]
  calc w.x * f * (w.x * f) + w.y * f * (w.y * f) = (w.x * w.x + w.y * w.y) * (f * f) := by ring
    _ = vabs w * vabs w * (f * f) := by rw [h2]
    _ = vabs w * f * (vabs w * f) := by ring

/-- What one clamp does to the clamped velocity, in terms of the component `u`
towards the side, the speed `n` and the distance `D` to the side: the factor
`f` is not negative (positive off the boundary), one timestep at the clamped
velocity covers at most `0.4 * D`, also after any further scaling by a scalar
in `[0, 1]`, and the clamped speed is `0.4 * D / dt`. -/
theorem clamp_side_facts (u n D dt : K) (hdt : 0 < dt) (hD : 0 ≤ D) (hun : |u| ≤ n)
    (hfire : D < u * dt * 2) :
    0 ≤ 0.4 * D * (1 / dt) / n ∧ (0 < D → 0 < 0.4 * D * (1 / dt) / n) ∧
      dt * (u * (0.4 * D * (1 / dt) / n)) ≤ 0.4 * D ∧
      n * (0.4 * D * (1 / dt) / n) = 0.4 * D / dt ∧
      ∀ g : K, 0 ≤ g → g ≤ 1 → dt * (u * (0.4 * D * (1 / dt) / n) * g) ≤ 0.4 * D := by
  obtain ⟨hn0, hf0, _, hspeed, hb⟩ := clamp_arith u n D dt hdt hD hun hfire
  refine ⟨hf0, ?_, hb, hspeed, ?_⟩
  · intro hDpos
    apply div_pos _ hn0
    apply mul_pos _ (by positivity)
    linarith
  · intro g hg0 hg1
    have hu : 0 < u := by
      by_contra hneg
      push_neg at hneg
      nlinarith
    have huf : 0 ≤ dt * (u * (0.4 * D * (1 / dt) / n)) :=
      mul_nonneg hdt.le (mul_nonneg hu.le hf0)
    calc dt * (u * (0.4 * D * (1 / dt) / n) * g)
        = dt * (u * (0.4 * D * (1 / dt) / n)) * g := by ring
      _ ≤ dt * (u * (0.4 * D * (1 / dt) / n)) * 1 := mul_le_mul_of_nonneg_left hg1 huf
      _ ≤ 0.4 * D := by rw [mul_one]; exact hb

/-- C6 (amended): for a point inside the domain and `dt > 0`, whenever one of the
four checks fires on the current velocity `w` of the point (for the right side:
`x + 2*dt*w.x > Right`), the check stores `w * f` with
`f = 0.4 * (distance to that side) / dt / |w|`; one timestep at the stored
velocity covers at most 40% of the distance to that side, the stored speed is
exactly `0.4 * distance / dt`, `f ≥ 0` so the direction is kept, and the 40%
bound survives every later scaling of that velocity by a scalar in `[0, 1]`. -/
theorem C6_clamp_forty_percent (vabs : Vector2D K → K) (vdist : Vector2D K → Vector2D K → K)
    (dt : K) (tess : Tessellation K) (outer : OuterBoundary K) (hn : IsNorm vabs) (hdt : 0 < dt)
    (i : Nat) (hin : insideDomain outer (tess.GetMeshPoint i)) (v : List (Vector2D K)) :
    ((v.getD i 0).x * dt * 2 + (tess.GetMeshPoint i).x > outer.GetGridBoundary Direction.Right →
      ∀ f D : K, D = outer.GetGridBoundary Direction.Right - (tess.GetMeshPoint i).x →
        f = 0.4 * D * (1 / dt) / vabs (v.getD i 0) →
        clampRight vabs vdist dt tess outer v i =
            LimitNeighborVelocity vdist (v.set i (Vector2D.mulS (v.getD i 0) f)) tess i f ∧
          0 ≤ f ∧ dt * (Vector2D.mulS (v.getD i 0) f).x ≤ 0.4 * D ∧
          vabs (Vector2D.mulS (v.getD i 0) f) = 0.4 * D / dt ∧
          ∀ g : K, 0 ≤ g → g ≤ 1 →
            dt * (Vector2D.mulS (Vector2D.mulS (v.getD i 0) f) g).x ≤ 0.4 * D) ∧
    ((v.getD i 0).x * dt * 2 + (tess.GetMeshPoint i).x < outer.GetGridBoundary Direction.Left →
      ∀ f D : K, D = (tess.GetMeshPoint i).x - outer.GetGridBoundary Direction.Left →
        f = 0.4 * D * (1 / dt) / vabs (v.getD i 0) →
        clampLeft vabs vdist dt tess outer v i =
            LimitNeighborVelocity vdist (v.set i (Vector2D.mulS (v.getD i 0) f)) tess i f ∧
          0 ≤ f ∧ dt * (-(Vector2D.mulS (v.getD i 0) f).x) ≤ 0.4 * D ∧
          vabs (Vector2D.mulS (v.getD i 0) f) = 0.4 * D / dt ∧
          ∀ g : K, 0 ≤ g → g ≤ 1 →
            dt * (-(Vector2D.mulS (Vector2D.mulS (v.getD i 0) f) g).x) ≤ 0.4 * D) ∧
    ((v.getD i 0).y * dt * 2 + (tess.GetMeshPoint i).y > outer.GetGridBoundary Direction.Up →
      ∀ f D : K, D = outer.GetGridBoundary Direction.Up - (tess.GetMeshPoint i).y →
        f = 0.4 * D * (1 / dt) / vabs (v.getD i 0) →
        clampUp vabs vdist dt tess outer v i =
            LimitNeighborVelocity vdist (v.set i (Vector2D.mulS (v.getD i 0) f)) tess i f ∧
          0 ≤ f ∧ dt * (Vector2D.mulS (v.getD i 0) f).y ≤ 0.4 * D ∧
          vabs (Vector2D.mulS (v.getD i 0) f) = 0.4 * D / dt ∧
          ∀ g : K, 0 ≤ g → g ≤ 1 →
            dt * (Vector2D.mulS (Vector2D.mulS (v.getD i 0) f) g).y ≤ 0.4 * D) ∧
    ((v.getD i 0).y * dt * 2 + (tess.GetMeshPoint i).y < outer.GetGridBoundary Direction.Down →
      ∀ f D : K, D = (tess.GetMeshPoint i).y - outer.GetGridBoundary Direction.Down →
        f = 0.4 * D * (1 / dt) / vabs (v.getD i 0) →
        clampDown vabs vdist dt tess outer v i =
            LimitNeighborVelocity vdist (v.set i (Vector2D.mulS (v.getD i 0) f)) tess i f ∧
          0 ≤ f ∧ dt * (-(Vector2D.mulS (v.getD i 0) f).y) ≤ 0.4 * D ∧
          vabs (Vector2D.mulS (v.getD i 0) f) = 0.4 * D / dt ∧
          ∀ g : K, 0 ≤ g → g ≤ 1 →
            dt * (-(Vector2D.mulS (Vector2D.mulS (v.getD i 0) f) g).y) ≤ 0.4 * D) := by
  refine ⟨?_, ?_, ?_, ?_⟩
  · intro hc f D hD hf
    subst hD hf
    obtain ⟨hf0, _, hb, hspeed, hpers⟩ := clamp_side_facts (v.getD i 0).x (vabs (v.getD i 0))
      (outer.GetGridBoundary Direction.Right - (tess.GetMeshPoint i).x) dt hdt
      (by linarith [hin.2.1]) (hn.abs_x_le _) (by linarith)
    refine ⟨by simp only [clampRight, if_pos hc], hf0, hb, ?_, fun g hg0 hg1 => hpers g hg0 hg1⟩
    rw [hn.vabs_mulS _ _ hf0, hspeed]
  · intro hc f D hD hf
    subst hD hf
    obtain ⟨hf0, _, hb, hspeed, hpers⟩ := clamp_side_facts (-(v.getD i 0).x)
      (vabs (v.getD i 0)) ((tess.GetMeshPoint i).x - outer.GetGridBoundary Direction.Left) dt hdt
      (by linarith [hin.1]) (by rw [abs_neg]; exact hn.abs_x_le _) (by linarith)
    refine ⟨by simp only [clampLeft, if_pos hc], hf0, ?_, ?_, ?_⟩
    · simp only [Vector2D.mulS]; linarith
    · rw [hn.vabs_mulS _ _ hf0, hspeed]
    · intro g hg0 hg1
      have := hpers g hg0 hg1
      simp only [Vector2D.mulS]
      linarith
  · intro hc f D hD hf
    subst hD hf
    obtain ⟨hf0, _, hb, hspeed, hpers⟩ := clamp_side_facts (v.getD i 0).y (vabs (v.getD i 0))
      (outer.GetGridBoundary Direction.Up - (tess.GetMeshPoint i).y) dt hdt
      (by linarith [hin.2.2.2]) (hn.abs_y_le _) (by linarith)
    refine ⟨by simp only [clampUp, if_pos hc], hf0, hb, ?_, fun g hg0 hg1 => hpers g hg0 hg1⟩
    rw [hn.vabs_mulS _ _ hf0, hspeed]
  · intro hc f D hD hf
    subst hD hf
    obtain ⟨hf0, _, hb, hspeed, hpers⟩ := clamp_side_facts (-(v.getD i 0).y)
      (vabs (v.getD i 0)) ((tess.GetMeshPoint i).y - outer.GetGridBoundary Direction.Down) dt hdt
      (by linarith [hin.2.2.1]) (by rw [abs_neg]; exact hn.abs_y_le _) (by linarith)
    refine ⟨by simp only [clampDown, if_pos hc], hf0, ?_, ?_, ?_⟩
    · simp only [Vector2D.mulS]; linarith
    · rw [hn.vabs_mulS _ _ hf0, hspeed]
    · intro g hg0 hg1
      have := hpers g hg0 hg1
      simp only [Vector2D.mulS]
      linarith

end Overshoot

section Neighbour

variable {K : Type} [LinearOrderedField K]

theorem LimitNeighborVelocity.loop_eq_find (vdist : Vector2D K → Vector2D K → K)
    (tess : Tessellation K) (index : Nat) (factor : K) (neigh : List Nat)
    (vel : List (Vector2D K)) :
    LimitNeighborVelocity.loop vdist tess index factor (tess.GetMeshPoint index)
        (tess.GetWidth index) neigh vel =
      match neigh.find? (qualifies vdist tess index) with
      | some j => vel.set j (Vector2D.mulS (vel.getD j 0) factor)
      | none => vel := by
  induction neigh with
  | nil => rfl
  | cons n rest ih =>
    unfold LimitNeighborVelocity.loop
    by_cases h1 : tess.GetOriginalIndex n ≠ index
    · by_cases h2 : vdist (tess.GetMeshPoint index) (tess.GetMeshPoint n) <
          0.1 * tess.GetWidth index
      · have hq : qualifies vdist tess index n = true := by
          simp [qualifies, h1, h2]
        rw [if_pos h1, if_pos h2, List.find?_cons, hq]
      · have hq : qualifies vdist tess index n = false := by
          simp [qualifies, h2]
        rw [if_pos h1, if_neg h2, List.find?_cons, hq, ih]
    · have hq : qualifies vdist tess index n = false := by
        simp [qualifies, h1]
      rw [if_neg h1, List.find?_cons, hq, ih]

theorem LimitNeighborVelocity_eq_find (vdist : Vector2D K → Vector2D K → K)
    (vel : List (Vector2D K)) (tess : Tessellation K) (index : Nat) (factor : K) :
    LimitNeighborVelocity vdist vel tess index factor =
      match firstQualifying vdist tess index with
      | some j => vel.set j (Vector2D.mulS (vel.getD j 0) factor)
      | none => vel := by
  unfold LimitNeighborVelocity firstQualifying
  exact LimitNeighborVelocity.loop_eq_find vdist tess index factor _ vel

/-- C8: `LimitNeighborVelocity` returns `vel` unchanged when no neighbour
qualifies; otherwise it multiplies by `factor` the velocity of the first
neighbour, in neighbour-list order, whose original index differs from `index`
and whose distance to the point is below `0.1 * width`, and leaves every other
entry, and the length, as they were. -/
theorem C8_only_first_qualifying_neighbour (vdist : Vector2D K → Vector2D K → K)
    (vel : List (Vector2D K)) (tess : Tessellation K) (index : Nat) (factor : K) :
    (firstQualifying vdist tess index = none →
        LimitNeighborVelocity vdist vel tess index factor = vel) ∧
      (∀ j, firstQualifying vdist tess index = some j →
        j ∈ tess.GetNeighbors index ∧ tess.GetOriginalIndex j ≠ index ∧
        vdist (tess.GetMeshPoint index) (tess.GetMeshPoint j) < 0.1 * tess.GetWidth index ∧
        LimitNeighborVelocity vdist vel tess index factor =
          vel.set j (Vector2D.mulS (vel.getD j 0) factor) ∧
        (LimitNeighborVelocity vdist vel tess index factor).getD j 0 =
          Vector2D.mulS (vel.getD j 0) factor ∧
        ∀ k, k ≠ j → (LimitNeighborVelocity vdist vel tess index factor)[k]? = vel[k]?) ∧
      (LimitNeighborVelocity vdist vel tess index factor).length = vel.length := by
  refine ⟨?_, ?_, ?_⟩
  · intro hnone
    rw [LimitNeighborVelocity_eq_find, hnone]
  · intro j hj
    have hmem : j ∈ tess.GetNeighbors index := List.mem_of_find?_eq_some hj
    have hq : qualifies vdist tess index j = true := List.find?_some hj
    simp only [qualifies, Bool.and_eq_true, decide_eq_true_eq] at hq
    have heq : LimitNeighborVelocity vdist vel tess index factor =
        vel.set j (Vector2D.mulS (vel.getD j 0) factor) := by
      rw [LimitNeighborVelocity_eq_find, hj]
    refine ⟨hmem, hq.1, hq.2, heq, ?_, ?_⟩
    · rw [heq, getD_set_mulS, if_pos rfl]
    · intro k hk
      rw [heq, List.getElem?_set, if_neg (Ne.symm hk)]
  · rw [LimitNeighborVelocity_eq_find]
    cases firstQualifying vdist tess index with
    | none => rfl
    | some j => simp only [List.length_set]

end Neighbour

section Overshoot

variable {K : Type} [LinearOrderedField K]

theorem sqrt_1681 : Real.sqrt (40 * 40 + 9 * 9) = 41 := by
  rw [show (40 : ℝ) * 40 + 9 * 9 = 41 * 41 by norm_num]
  exact Real.sqrt_mul_self (by norm_num)

/-- C6 (counterexample): in the rectangle `[-41, 41] × [-8, 8]`, the point at the
origin with velocity `(40, 9)` and `dt = 1` would pass the upper side within
two timesteps (`0 + 2*1*9 > 8`).  The check of the right side fires first and
scales the velocity by `0.4`; the check of the upper side then tests `(16, 3.6)`
and does not fire.  The returned velocity moves the point by `3.6` in one
timestep, more than 40% of its distance `8` to the upper side. -/
theorem C6_two_sides_crossed :
    insideDomain (wideBox ℝ) ((onePointMesh ℝ).GetMeshPoint 0) ∧
      ((onePointMesh ℝ).GetMeshPoint 0).y +
          2 * 1 * (([⟨40, 9⟩] : List (Vector2D ℝ)).getD 0 0).y >
        (wideBox ℝ).GetGridBoundary Direction.Up ∧
      CorrectPointsOverShoot (fun w => Real.sqrt (w.x * w.x + w.y * w.y))
          (fun a b => Real.sqrt ((a.x - b.x) * (a.x - b.x) + (a.y - b.y) * (a.y - b.y)))
          [⟨40, 9⟩] 1 (onePointMesh ℝ) (wideBox ℝ) = [⟨16, 18 / 5⟩] ∧
      ¬ (1 * ((CorrectPointsOverShoot (fun w => Real.sqrt (w.x * w.x + w.y * w.y))
          (fun a b => Real.sqrt ((a.x - b.x) * (a.x - b.x) + (a.y - b.y) * (a.y - b.y)))
          [⟨40, 9⟩] 1 (onePointMesh ℝ) (wideBox ℝ)).getD 0 0).y ≤
        0.4 * ((wideBox ℝ).GetGridBoundary Direction.Up -
          ((onePointMesh ℝ).GetMeshPoint 0).y)) := by
  have hval : CorrectPointsOverShoot (fun w => Real.sqrt (w.x * w.x + w.y * w.y))
      (fun a b => Real.sqrt ((a.x - b.x) * (a.x - b.x) + (a.y - b.y) * (a.y - b.y)))
      [⟨40, 9⟩] 1 (onePointMesh ℝ) (wideBox ℝ) = [⟨16, 18 / 5⟩] := by
    simp [CorrectPointsOverShoot, overshootStep, clampRight, clampLeft, clampUp, clampDown,
      LimitNeighborVelocity, LimitNeighborVelocity.loop, onePointMesh, wideBox,
      List.range_succ, Vector2D.mulS, sqrt_1681]
    norm_num
  refine ⟨?_, ?_, hval, ?_⟩
  · simp [insideDomain, wideBox, onePointMesh]
  · simp [wideBox, onePointMesh]
    norm_num
  · rw [hval]
    simp [wideBox, onePointMesh]
    norm_num

end Overshoot

section Neighbour

variable {K : Type} [LinearOrderedField K]

theorem sqrt_10000 : Real.sqrt (60 * 60 + 80 * 80) = 100 := by
  rw [show (60 : ℝ) * 60 + 80 * 80 = 100 * 100 by norm_num]
  exact Real.sqrt_mul_self (by norm_num)

theorem sqrt_64 : Real.sqrt 64 = 8 := by
  rw [show (64 : ℝ) = 8 * 8 by norm_num]
  exact Real.sqrt_mul_self (by norm_num)

theorem sqrt_16 : Real.sqrt 16 = 4 := by
  rw [show (16 : ℝ) = 4 * 4 by norm_num]
  exact Real.sqrt_mul_self (by norm_num)

/-- C7 (counterexample): point `0` at the origin of the square of half-width
`100` has velocity `(60, 80)`; with `dt = 1` the right check clamps it by the
factor `0.4`.  Its neighbours `1` (at distance `8`) and `2` (at distance `4`)
both qualify, `2` is the nearest, `1` comes first in the neighbour list.  The
velocity of `1` is multiplied by `0.4`, the velocity `(0, 1)` of the nearest
qualifying neighbour `2` is returned unchanged. -/
theorem C7_nearest_neighbour_not_scaled :
    qualifies (fun a b : Vector2D ℝ =>
        Real.sqrt ((a.x - b.x) * (a.x - b.x) + (a.y - b.y) * (a.y - b.y)))
        (threePointMesh ℝ) 0 1 = true ∧
      qualifies (fun a b : Vector2D ℝ =>
        Real.sqrt ((a.x - b.x) * (a.x - b.x) + (a.y - b.y) * (a.y - b.y)))
        (threePointMesh ℝ) 0 2 = true ∧
      (fun a b : Vector2D ℝ =>
          Real.sqrt ((a.x - b.x) * (a.x - b.x) + (a.y - b.y) * (a.y - b.y)))
          ((threePointMesh ℝ).GetMeshPoint 0) ((threePointMesh ℝ).GetMeshPoint 2) <
        (fun a b : Vector2D ℝ =>
          Real.sqrt ((a.x - b.x) * (a.x - b.x) + (a.y - b.y) * (a.y - b.y)))
          ((threePointMesh ℝ).GetMeshPoint 0) ((threePointMesh ℝ).GetMeshPoint 1) ∧
      0.4 * ((bigSquare ℝ).GetGridBoundary Direction.Right -
          ((threePointMesh ℝ).GetMeshPoint 0).x) * (1 / 1) /
        Real.sqrt (60 * 60 + 80 * 80) = 2 / 5 ∧
      clampRight (fun w => Real.sqrt (w.x * w.x + w.y * w.y))
          (fun a b => Real.sqrt ((a.x - b.x) * (a.x - b.x) + (a.y - b.y) * (a.y - b.y)))
          1 (threePointMesh ℝ) (bigSquare ℝ) [⟨60, 80⟩, ⟨1, 0⟩, ⟨0, 1⟩] 0 =
        [⟨24, 32⟩, ⟨2 / 5, 0⟩, ⟨0, 1⟩] ∧
      CorrectPointsOverShoot (fun w => Real.sqrt (w.x * w.x + w.y * w.y))
          (fun a b => Real.sqrt ((a.x - b.x) * (a.x - b.x) + (a.y - b.y) * (a.y - b.y)))
          [⟨60, 80⟩, ⟨1, 0⟩, ⟨0, 1⟩] 1 (threePointMesh ℝ) (bigSquare ℝ) =
        [⟨24, 32⟩, ⟨2 / 5, 0⟩, ⟨0, 1⟩] ∧
      (CorrectPointsOverShoot (fun w => Real.sqrt (w.x * w.x + w.y * w.y))
          (fun a b => Real.sqrt ((a.x - b.x) * (a.x - b.x) + (a.y - b.y) * (a.y - b.y)))
          [⟨60, 80⟩, ⟨1, 0⟩, ⟨0, 1⟩] 1 (threePointMesh ℝ) (bigSquare ℝ)).getD 2 0 ≠
        Vector2D.mulS (([⟨60, 80⟩, ⟨1, 0⟩, ⟨0, 1⟩] : List (Vector2D ℝ)).getD 2 0) (2 / 5) := by
  have hclamp : clampRight (fun w => Real.sqrt (w.x * w.x + w.y * w.y))
      (fun a b => Real.sqrt ((a.x - b.x) * (a.x - b.x) + (a.y - b.y) * (a.y - b.y)))
      1 (threePointMesh ℝ) (bigSquare ℝ) [⟨60, 80⟩, ⟨1, 0⟩, ⟨0, 1⟩] 0 =
        [⟨24, 32⟩, ⟨2 / 5, 0⟩, ⟨0, 1⟩] := by
    simp only [clampRight, LimitNeighborVelocity, LimitNeighborVelocity.loop, threePointMesh,
      bigSquare, Vector2D.mulS, List.getD_cons_zero, sqrt_10000]
    norm_num [sqrt_64, sqrt_16]
  have hpass : CorrectPointsOverShoot (fun w => Real.sqrt (w.x * w.x + w.y * w.y))
      (fun a b => Real.sqrt ((a.x - b.x) * (a.x - b.x) + (a.y - b.y) * (a.y - b.y)))
      [⟨60, 80⟩, ⟨1, 0⟩, ⟨0, 1⟩] 1 (threePointMesh ℝ) (bigSquare ℝ) =
        [⟨24, 32⟩, ⟨2 / 5, 0⟩, ⟨0, 1⟩] := by
    have hstep0 : overshootStep (fun w => Real.sqrt (w.x * w.x + w.y * w.y))
        (fun a b => Real.sqrt ((a.x - b.x) * (a.x - b.x) + (a.y - b.y) * (a.y - b.y)))
        1 (threePointMesh ℝ) (bigSquare ℝ) [⟨60, 80⟩, ⟨1, 0⟩, ⟨0, 1⟩] 0 =
          [⟨24, 32⟩, ⟨2 / 5, 0⟩, ⟨0, 1⟩] := by
      unfold overshootStep
      rw [hclamp]
      simp only [clampLeft, clampUp, clampDown, threePointMesh, bigSquare, List.getD_cons_zero]
      norm_num
    have hstep1 : overshootStep (fun w => Real.sqrt (w.x * w.x + w.y * w.y))
        (fun a b => Real.sqrt ((a.x - b.x) * (a.x - b.x) + (a.y - b.y) * (a.y - b.y)))
        1 (threePointMesh ℝ) (bigSquare ℝ) [⟨24, 32⟩, ⟨2 / 5, 0⟩, ⟨0, 1⟩] 1 =
          [⟨24, 32⟩, ⟨2 / 5, 0⟩, ⟨0, 1⟩] := by
      simp only [overshootStep, clampRight, clampLeft, clampUp, clampDown, threePointMesh,
        bigSquare, List.getD_cons_succ, List.getD_cons_zero]
      norm_num
    have hstep2 : overshootStep (fun w => Real.sqrt (w.x * w.x + w.y * w.y))
        (fun a b => Real.sqrt ((a.x - b.x) * (a.x - b.x) + (a.y - b.y) * (a.y - b.y)))
        1 (threePointMesh ℝ) (bigSquare ℝ) [⟨24, 32⟩, ⟨2 / 5, 0⟩, ⟨0, 1⟩] 2 =
          [⟨24, 32⟩, ⟨2 / 5, 0⟩, ⟨0, 1⟩] := by
      simp only [overshootStep, clampRight, clampLeft, clampUp, clampDown, threePointMesh,
        bigSquare, List.getD_cons_succ, List.getD_cons_zero]
      norm_num
    have hrange : List.range (threePointMesh ℝ).GetPointNo = [0, 1, 2] := by decide
    rw [CorrectPointsOverShoot, hrange, List.foldl_cons, hstep0, List.foldl_cons, hstep1,
      List.foldl_cons, hstep2, List.foldl_nil]
  refine ⟨?_, ?_, ?_, ?_, hclamp, hpass, ?_⟩
  · simp only [qualifies, threePointMesh]
    norm_num [sqrt_64, sqrt_16]
  · simp only [qualifies, threePointMesh]
    norm_num [sqrt_64, sqrt_16]
  · simp only [threePointMesh]
    norm_num [sqrt_64, sqrt_16]
  · rw [sqrt_10000]
    simp only [bigSquare, threePointMesh]
    norm_num
  · rw [hpass]
    simp [Vector2D.mulS]
    norm_num

/-- When a check fires with factor `f` at point `i` and `j ≠ i` is the first
qualifying neighbour of `i`: entries `i` and `j` are both multiplied by `f`
and no other entry changes. -/
theorem clamp_shape_neighbour (vdist : Vector2D K → Vector2D K → K) (tess : Tessellation K)
    (v : List (Vector2D K)) (i j : Nat) (f : K)
    (hfirst : firstQualifying vdist tess i = some j) (hji : j ≠ i) :
    (LimitNeighborVelocity vdist (v.set i (Vector2D.mulS (v.getD i 0) f)) tess i f).getD i 0 =
        Vector2D.mulS (v.getD i 0) f ∧
      (LimitNeighborVelocity vdist (v.set i (Vector2D.mulS (v.getD i 0) f)) tess i f).getD j 0 =
        Vector2D.mulS (v.getD j 0) f ∧
      ∀ k, k ≠ i → k ≠ j →
        (LimitNeighborVelocity vdist (v.set i (Vector2D.mulS (v.getD i 0) f)) tess i f)[k]? =
          v[k]? := by
  rw [LimitNeighborVelocity_eq_find, hfirst]
  refine ⟨?_, ?_, ?_⟩
  · rw [getD_set_mulS, if_neg hji, getD_set_mulS, if_pos rfl]
  · rw [getD_set_mulS, if_pos rfl, getD_set_mulS, if_neg (Ne.symm hji)]
  · intro k hki hkj
    rw [List.getElem?_set, if_neg (Ne.symm hkj), List.getElem?_set, if_neg (Ne.symm hki)]

/-- C7 (amended): whenever one of the four checks of `CorrectPointsOverShoot`
fires for a point `i` with factor `f`, the first neighbour of `i` in
neighbour-list order that qualifies (original index different from `i`,
distance below `0.1 * width`), when it is another point `j`, has its velocity
multiplied by the identical factor `f`; no entry other than `i` and `j`
changes. -/
theorem C7_first_qualifying_neighbour_same_factor (vabs : Vector2D K → K)
    (vdist : Vector2D K → Vector2D K → K) (dt : K) (tess : Tessellation K)
    (outer : OuterBoundary K) (v : List (Vector2D K)) (i j : Nat)
    (hfirst : firstQualifying vdist tess i = some j) (hji : j ≠ i) :
    ((v.getD i 0).x * dt * 2 + (tess.GetMeshPoint i).x > outer.GetGridBoundary Direction.Right →
      ∀ f : K, f = 0.4 * (outer.GetGridBoundary Direction.Right - (tess.GetMeshPoint i).x) *
          (1 / dt) / vabs (v.getD i 0) →
        (clampRight vabs vdist dt tess outer v i).getD i 0 = Vector2D.mulS (v.getD i 0) f ∧
        (clampRight vabs vdist dt tess outer v i).getD j 0 = Vector2D.mulS (v.getD j 0) f ∧
        ∀ k, k ≠ i → k ≠ j → (clampRight vabs vdist dt tess outer v i)[k]? = v[k]?) ∧
    ((v.getD i 0).x * dt * 2 + (tess.GetMeshPoint i).x < outer.GetGridBoundary Direction.Left →
      ∀ f : K, f = 0.4 * ((tess.GetMeshPoint i).x - outer.GetGridBoundary Direction.Left) *
          (1 / dt) / vabs (v.getD i 0) →
        (clampLeft vabs vdist dt tess outer v i).getD i 0 = Vector2D.mulS (v.getD i 0) f ∧
        (clampLeft vabs vdist dt tess outer v i).getD j 0 = Vector2D.mulS (v.getD j 0) f ∧
        ∀ k, k ≠ i → k ≠ j → (clampLeft vabs vdist dt tess outer v i)[k]? = v[k]?) ∧
    ((v.getD i 0).y * dt * 2 + (tess.GetMeshPoint i).y > outer.GetGridBoundary Direction.Up →
      ∀ f : K, f = 0.4 * (outer.GetGridBoundary Direction.Up - (tess.GetMeshPoint i).y) *
          (1 / dt) / vabs (v.getD i 0) →
        (clampUp vabs vdist dt tess outer v i).getD i 0 = Vector2D.mulS (v.getD i 0) f ∧
        (clampUp vabs vdist dt tess outer v i).getD j 0 = Vector2D.mulS (v.getD j 0) f ∧
        ∀ k, k ≠ i → k ≠ j → (clampUp vabs vdist dt tess outer v i)[k]? = v[k]?) ∧
    ((v.getD i 0).y * dt * 2 + (tess.GetMeshPoint i).y < outer.GetGridBoundary Direction.Down →
      ∀ f : K, f = 0.4 * ((tess.GetMeshPoint i).y - outer.GetGridBoundary Direction.Down) *
          (1 / dt) / vabs (v.getD i 0) →
        (clampDown vabs vdist dt tess outer v i).getD i 0 = Vector2D.mulS (v.getD i 0) f ∧
        (clampDown vabs vdist dt tess outer v i).getD j 0 = Vector2D.mulS (v.getD j 0) f ∧
        ∀ k, k ≠ i → k ≠ j → (clampDown vabs vdist dt tess outer v i)[k]? = v[k]?) := by
  refine ⟨?_, ?_, ?_, ?_⟩
  · intro hc f hf
    subst hf
    simp only [clampRight, if_pos hc]
    exact clamp_shape_neighbour vdist tess v i j _ hfirst hji
  · intro hc f hf
    subst hf
    simp only [clampLeft, if_pos hc]
    exact clamp_shape_neighbour vdist tess v i j _ hfirst hji
  · intro hc f hf
    subst hf
    simp only [clampUp, if_pos hc]
    exact clamp_shape_neighbour vdist tess v i j _ hfirst hji
  · intro hc f hf
    subst hf
    simp only [clampDown, if_pos hc]
    exact clamp_shape_neighbour vdist tess v i j _ hfirst hji

theorem threePointMesh_first :
    firstQualifying (fun a b : Vector2D ℝ =>
      Real.sqrt ((a.x - b.x) * (a.x - b.x) + (a.y - b.y) * (a.y - b.y)))
      (threePointMesh ℝ) 0 = some 1 := by
  have hq : qualifies (fun a b : Vector2D ℝ =>
      Real.sqrt ((a.x - b.x) * (a.x - b.x) + (a.y - b.y) * (a.y - b.y)))
      (threePointMesh ℝ) 0 1 = true := by
    simp only [qualifies, threePointMesh]
    norm_num [sqrt_64, sqrt_16]
  have hn : (threePointMesh ℝ).GetNeighbors 0 = [1, 2] := rfl
  rw [firstQualifying, hn, List.find?_cons, hq]

end Neighbour

section Witnesses

variable {K : Type} [LinearOrderedField K]

/-- C6 (amended) on the one-point mesh in the unit square: with `dt = 1` the
right check fires on the velocity `(3, 4)`. -/
theorem C6_clamp_forty_percent_witness :
    ∃ f D : ℝ,
      D = (unitSquare ℝ).GetGridBoundary Direction.Right - ((onePointMesh ℝ).GetMeshPoint 0).x ∧
      f = 0.4 * D * (1 / 1) /
        (fun w : Vector2D ℝ => Real.sqrt (w.x * w.x + w.y * w.y))
          (([⟨3, 4⟩] : List (Vector2D ℝ)).getD 0 0) ∧
      clampRight (fun w => Real.sqrt (w.x * w.x + w.y * w.y))
          (fun a b => Real.sqrt ((a.x - b.x) * (a.x - b.x) + (a.y - b.y) * (a.y - b.y)))
          1 (onePointMesh ℝ) (unitSquare ℝ) [⟨3, 4⟩] 0 =
        LimitNeighborVelocity
          (fun a b => Real.sqrt ((a.x - b.x) * (a.x - b.x) + (a.y - b.y) * (a.y - b.y)))
          (([⟨3, 4⟩] : List (Vector2D ℝ)).set 0
            (Vector2D.mulS (([⟨3, 4⟩] : List (Vector2D ℝ)).getD 0 0) f))
          (onePointMesh ℝ) 0 f ∧
      0 ≤ f ∧
      1 * (Vector2D.mulS (([⟨3, 4⟩] : List (Vector2D ℝ)).getD 0 0) f).x ≤ 0.4 * D ∧
      (fun w : Vector2D ℝ => Real.sqrt (w.x * w.x + w.y * w.y))
          (Vector2D.mulS (([⟨3, 4⟩] : List (Vector2D ℝ)).getD 0 0) f) = 0.4 * D / 1 ∧
      ∀ g : ℝ, 0 ≤ g → g ≤ 1 →
        1 * (Vector2D.mulS (Vector2D.mulS (([⟨3, 4⟩] : List (Vector2D ℝ)).getD 0 0) f) g).x ≤
          0.4 * D :=
  ⟨_, _, rfl, rfl,
    (C6_clamp_forty_percent (fun w => Real.sqrt (w.x * w.x + w.y * w.y))
      (fun a b => Real.sqrt ((a.x - b.x) * (a.x - b.x) + (a.y - b.y) * (a.y - b.y)))
      1 (onePointMesh ℝ) (unitSquare ℝ) euclid_isNorm one_pos 0 (onePointMesh_inside 0)
      [⟨3, 4⟩]).1 (by simp [onePointMesh, unitSquare]; norm_num) _ _ rfl rfl⟩

/-- C7 (amended) on the three-point mesh: the right check fires for point `0`,
whose first qualifying neighbour is point `1`. -/
theorem C7_first_qualifying_neighbour_same_factor_witness :
    ∃ f : ℝ,
      f = 0.4 * ((bigSquare ℝ).GetGridBoundary Direction.Right -
          ((threePointMesh ℝ).GetMeshPoint 0).x) * (1 / 1) /
        (fun w : Vector2D ℝ => Real.sqrt (w.x * w.x + w.y * w.y))
          (([⟨60, 80⟩, ⟨1, 0⟩, ⟨0, 1⟩] : List (Vector2D ℝ)).getD 0 0) ∧
      (clampRight (fun w => Real.sqrt (w.x * w.x + w.y * w.y))
          (fun a b => Real.sqrt ((a.x - b.x) * (a.x - b.x) + (a.y - b.y) * (a.y - b.y)))
          1 (threePointMesh ℝ) (bigSquare ℝ) [⟨60, 80⟩, ⟨1, 0⟩, ⟨0, 1⟩] 0).getD 0 0 =
        Vector2D.mulS (([⟨60, 80⟩, ⟨1, 0⟩, ⟨0, 1⟩] : List (Vector2D ℝ)).getD 0 0) f ∧
      (clampRight (fun w => Real.sqrt (w.x * w.x + w.y * w.y))
          (fun a b => Real.sqrt ((a.x - b.x) * (a.x - b.x) + (a.y - b.y) * (a.y - b.y)))
          1 (threePointMesh ℝ) (bigSquare ℝ) [⟨60, 80⟩, ⟨1, 0⟩, ⟨0, 1⟩] 0).getD 1 0 =
        Vector2D.mulS (([⟨60, 80⟩, ⟨1, 0⟩, ⟨0, 1⟩] : List (Vector2D ℝ)).getD 1 0) f ∧
      ∀ k, k ≠ 0 → k ≠ 1 →
        (clampRight (fun w => Real.sqrt (w.x * w.x + w.y * w.y))
          (fun a b => Real.sqrt ((a.x - b.x) * (a.x - b.x) + (a.y - b.y) * (a.y - b.y)))
          1 (threePointMesh ℝ) (bigSquare ℝ) [⟨60, 80⟩, ⟨1, 0⟩, ⟨0, 1⟩] 0)[k]? =
          ([⟨60, 80⟩, ⟨1, 0⟩, ⟨0, 1⟩] : List (Vector2D ℝ))[k]? :=
  ⟨_, rfl,
    (C7_first_qualifying_neighbour_same_factor (fun w => Real.sqrt (w.x * w.x + w.y * w.y))
      (fun a b => Real.sqrt ((a.x - b.x) * (a.x - b.x) + (a.y - b.y) * (a.y - b.y)))
      1 (threePointMesh ℝ) (bigSquare ℝ) [⟨60, 80⟩, ⟨1, 0⟩, ⟨0, 1⟩] 0 1 threePointMesh_first
      (by decide)).1 (by simp [threePointMesh, bigSquare]; norm_num) _ rfl⟩

/-- C8 on the three-point mesh: the first qualifying neighbour of point `0` is
point `1`. -/
theorem C8_only_first_qualifying_neighbour_witness :
    LimitNeighborVelocity
        (fun a b : Vector2D ℝ =>
          Real.sqrt ((a.x - b.x) * (a.x - b.x) + (a.y - b.y) * (a.y - b.y)))
        [⟨60, 80⟩, ⟨1, 0⟩, ⟨0, 1⟩] (threePointMesh ℝ) 0 (1 / 2) =
      ([⟨60, 80⟩, ⟨1, 0⟩, ⟨0, 1⟩] : List (Vector2D ℝ)).set 1
        (Vector2D.mulS (([⟨60, 80⟩, ⟨1, 0⟩, ⟨0, 1⟩] : List (Vector2D ℝ)).getD 1 0) (1 / 2)) :=
  ((C8_only_first_qualifying_neighbour _ [⟨60, 80⟩, ⟨1, 0⟩, ⟨0, 1⟩] (threePointMesh ℝ) 0
    (1 / 2)).2.1 1 threePointMesh_first).2.2.2.1

end Witnesses

section Rounding

variable {K : Type} [LinearOrderedField K]

theorem foldl_set_add_getElem? (g : Nat → Vector2D K) (l : List Nat) (hnd : l.Nodup) :
    ∀ (v : List (Vector2D K)) (c : Nat),
      (l.foldl (fun res i => res.set i (Vector2D.add (res.getD i 0) (g i))) v)[c]? =
        if c ∈ l then (v[c]?).map (fun w => Vector2D.add w (g c)) else v[c]? := by
  induction l with
  | nil => intro v c; simp only [List.foldl_nil, List.not_mem_nil, if_false]
  | cons i rest ih =>
    intro v c
    have hnd' := List.nodup_cons.mp hnd
    rw [List.foldl_cons, ih hnd'.2,
      getElem?_set_getD v i c 0 (fun w => Vector2D.add w (g i))]
    by_cases hci : c = i
    · subst hci
      simp only [hnd'.1, if_false, if_true, List.mem_cons, true_or]
    · have hic : ¬ i = c := fun h => hci h.symm
      simp only [hic, if_false, List.mem_cons, hci, false_or]

theorem foldl_set_add_length (g : Nat → Vector2D K) (l : List Nat) :
    ∀ v : List (Vector2D K),
      (l.foldl (fun res i => res.set i (Vector2D.add (res.getD i 0) (g i))) v).length =
        v.length := by
  induction l with
  | nil => intro v; rfl
  | cons i rest ih => intro v; rw [List.foldl_cons, ih, List.length_set]

theorem foldl_set_add_range_getD (g : Nat → Vector2D K) (v : List (Vector2D K)) (i : Nat)
    (hi : i < v.length) :
    ((List.range v.length).foldl
        (fun res i => res.set i (Vector2D.add (res.getD i 0) (g i))) v).getD i 0 =
      Vector2D.add (v.getD i 0) (g i) := by
  rw [List.getD_eq_getElem?_getD, foldl_set_add_getElem? g _ (List.nodup_range _),
    if_pos (List.mem_range.mpr hi), List.getD_eq_getElem?_getD, List.getElem?_eq_getElem hi]
  rfl

/-- A non-negative number whose square is `x² + y²` is the length of `(x, y)`. -/
theorem IsNorm.eq_of_sq {vabs : Vector2D K → K} (hn : IsNorm vabs) (w : Vector2D K) (a : K)
    (ha : 0 ≤ a) (h : a * a = w.x * w.x + w.y * w.y) : vabs w = a := by
  obtain ⟨h0, h2⟩ := hn w
  exact (mul_self_inj h0 ha).mp (by rw [h2, h])

/-- The vector `k * u / d` has length `|k|` when `d > 0` is the length of `u`. -/
theorem IsNorm.unit_scaled {vabs : Vector2D K → K} (hn : IsNorm vabs) (u : Vector2D K) (k : K)
    (hd : 0 < vabs u) :
    vabs (Vector2D.divS (Vector2D.smul k u) (vabs u)) = |k| := by
  apply hn.eq_of_sq _ _ (abs_nonneg k)
  obtain ⟨_, h2⟩ := hn u
  simp only [Vector2D.divS, Vector2D.smul]
  have hne : vabs u ≠ 0 := ne_of_gt hd
  rw [abs_mul_abs_self]
  field_simp
  rw [h2]
  ring

/-- C9: the base call returns one velocity per velocity of the underlying point
motion, and velocity `i` is the underlying one plus `calc_dw`, which, with
`d = |s - r|`, is `(0, 0)` when `d < 0.9*eta*R`, is `chi*c*(s - r)/d` when
`d > 1.1*eta*R` (a vector of length `|chi*c|` along `s - r`, for `d > 0`), and
is `chi*c*(s - r)/d * ((d - 0.9*eta*R)/(0.2*eta*R))` when
`0.9*eta*R ≤ d ≤ 1.1*eta*R`. -/
theorem C9_base_call_adds_rounding (rc : RoundCells K) (vabs : Vector2D K → K)
    (tess : Tessellation K) (cells : List (ComputationalCell K)) (time : K)
    (hn : IsNorm vabs) :
    (rc.call vabs tess cells time).length = (rc.pm_ tess cells time).length ∧
      (∀ i, i < (rc.pm_ tess cells time).length →
        (rc.call vabs tess cells time).getD i 0 =
          Vector2D.add ((rc.pm_ tess cells time).getD i 0) (rc.calc_dw vabs i tess cells)) ∧
      (∀ (i : Nat) (r s : Vector2D K) (d R c : K),
        r = tess.GetMeshPoint i → s = tess.GetCellCM i → d = vabs (Vector2D.sub s r) →
        R = tess.GetWidth i →
        c = rc.dp2c (cells.getD i default).density (cells.getD i default).pressure →
        (d < 0.9 * rc.eta_ * R → rc.calc_dw vabs i tess cells = ⟨0, 0⟩) ∧
        (d > 1.1 * rc.eta_ * R →
          rc.calc_dw vabs i tess cells =
              Vector2D.divS (Vector2D.smul (rc.chi_ * c) (Vector2D.sub s r)) d ∧
            (0 < d → vabs (rc.calc_dw vabs i tess cells) = |rc.chi_ * c|)) ∧
        (0.9 * rc.eta_ * R ≤ d → d ≤ 1.1 * rc.eta_ * R →
          rc.calc_dw vabs i tess cells =
            Vector2D.mulS (Vector2D.divS (Vector2D.smul (rc.chi_ * c) (Vector2D.sub s r)) d)
              ((d - 0.9 * rc.eta_ * R) / (0.2 * rc.eta_ * R)))) := by
  refine ⟨?_, ?_, ?_⟩
  · exact foldl_set_add_length _ _ _
  · intro i hi
    exact foldl_set_add_range_getD (fun i => rc.calc_dw vabs i tess cells) _ i hi
  · intro i r s d R c hr hs hd hR hc
    subst hr hs hR hc
    have hd0 : 0 ≤ d := by rw [hd]; exact (hn _).1
    refine ⟨?_, ?_, ?_⟩
    · intro hlow
      simp only [RoundCells.calc_dw, ← hd, if_pos hlow]
    · intro hhigh
      have hnotlow : ¬ d < 0.9 * rc.eta_ * tess.GetWidth i := by
        intro hlow
        by_cases hER : 0 ≤ rc.eta_ * tess.GetWidth i
        · nlinarith
        · push_neg at hER
          nlinarith
      have hval : rc.calc_dw vabs i tess cells =
          Vector2D.divS (Vector2D.smul
            (rc.chi_ * rc.dp2c (cells.getD i default).density (cells.getD i default).pressure)
            (Vector2D.sub (tess.GetCellCM i) (tess.GetMeshPoint i))) d := by
        simp only [RoundCells.calc_dw, ← hd, if_neg hnotlow, if_pos hhigh, Vector2D.mulS_one]
      refine ⟨hval, ?_⟩
      intro hdpos
      rw [hval, hd]
      exact hn.unit_scaled _ _ (by rw [← hd]; exact hdpos)
    · intro hlow hhigh
      simp only [RoundCells.calc_dw, ← hd, if_neg (not_lt.mpr hlow), if_neg (not_lt.mpr hhigh)]

/-- C9 on the one-point mesh with the Euclidean length. -/
theorem C9_base_call_adds_rounding_witness :
    ((sampleRoundCells ℝ).call (fun w => Real.sqrt (w.x * w.x + w.y * w.y)) (onePointMesh ℝ)
        [] 0).length = ((sampleRoundCells ℝ).pm_ (onePointMesh ℝ) [] 0).length ∧
      (∀ i, i < ((sampleRoundCells ℝ).pm_ (onePointMesh ℝ) [] 0).length →
        ((sampleRoundCells ℝ).call (fun w => Real.sqrt (w.x * w.x + w.y * w.y))
            (onePointMesh ℝ) [] 0).getD i 0 =
          Vector2D.add (((sampleRoundCells ℝ).pm_ (onePointMesh ℝ) [] 0).getD i 0)
            ((sampleRoundCells ℝ).calc_dw (fun w => Real.sqrt (w.x * w.x + w.y * w.y)) i
              (onePointMesh ℝ) [])) :=
  ⟨(C9_base_call_adds_rounding (sampleRoundCells ℝ) _ (onePointMesh ℝ) [] 0 euclid_isNorm).1,
    (C9_base_call_adds_rounding (sampleRoundCells ℝ) _ (onePointMesh ℝ) [] 0 euclid_isNorm).2.1⟩

theorem rampProfile_nonneg (etaR d : K) (h : 0 < etaR) : 0 ≤ rampProfile etaR d := by
  unfold rampProfile
  split
  · exact le_refl 0
  · split
    · exact zero_le_one
    · apply div_nonneg
      · linarith
      · linarith

/-- The length of `calc_dw` is `dwMagnitude` of the distance. -/
theorem calc_dw_magnitude (rc : RoundCells K) (vabs : Vector2D K → K) (tess : Tessellation K)
    (cells : List (ComputationalCell K)) (i : Nat) (hn : IsNorm vabs)
    (hER : 0 < rc.eta_ * tess.GetWidth i)
    (hd : 0 < vabs (Vector2D.sub (tess.GetCellCM i) (tess.GetMeshPoint i))) :
    vabs (rc.calc_dw vabs i tess cells) =
      dwMagnitude rc.chi_
        (rc.dp2c (cells.getD i default).density (cells.getD i default).pressure)
        (rc.eta_ * tess.GetWidth i)
        (vabs (Vector2D.sub (tess.GetCellCM i) (tess.GetMeshPoint i))) := by
  have hnn := rampProfile_nonneg (rc.eta_ * tess.GetWidth i)
    (vabs (Vector2D.sub (tess.GetCellCM i) (tess.GetMeshPoint i))) hER
  unfold dwMagnitude rampProfile at *
  simp only [RoundCells.calc_dw, ← mul_assoc] at *
  by_cases hlow : vabs (Vector2D.sub (tess.GetCellCM i) (tess.GetMeshPoint i)) <
      0.9 * rc.eta_ * tess.GetWidth i
  · rw [if_pos hlow, if_pos hlow, mul_zero]
    exact hn.eq_of_sq _ 0 (le_refl 0) (by simp)
  · rw [if_neg hlow, if_neg hlow]
    rw [if_neg hlow] at hnn
    rw [hn.vabs_mulS _ _ hnn, hn.unit_scaled _ _ hd]

end Rounding

section Continuity

variable {K : Type} [LinearOrderedField K]

theorem rampProfile_eq_clamp (etaR d : ℝ) (h : 0 < etaR) :
    rampProfile etaR d = max 0 (min 1 ((d - 0.9 * etaR) / (0.2 * etaR))) := by
  have hpos : (0 : ℝ) < 0.2 * etaR := by linarith
  unfold rampProfile
  by_cases hlow : d < 0.9 * etaR
  · rw [if_pos hlow]
    have hq : (d - 0.9 * etaR) / (0.2 * etaR) < 0 := div_neg_of_neg_of_pos (by linarith) hpos
    rw [min_eq_right (by linarith), max_eq_left hq.le]
  · rw [if_neg hlow]
    have hq0 : 0 ≤ (d - 0.9 * etaR) / (0.2 * etaR) := div_nonneg (by linarith) hpos.le
    by_cases hhigh : d > 1.1 * etaR
    · rw [if_pos hhigh]
      have hq1 : 1 ≤ (d - 0.9 * etaR) / (0.2 * etaR) := by
        rw [le_div_iff₀ hpos]; linarith
      rw [min_eq_left hq1, max_eq_right zero_le_one]
    · rw [if_neg hhigh]
      have hq1 : (d - 0.9 * etaR) / (0.2 * etaR) ≤ 1 := by
        rw [div_le_iff₀ hpos]; linarith
      rw [min_eq_right hq1, max_eq_right hq0]

theorem dwMagnitude_continuous (chi c etaR : ℝ) (h : 0 < etaR) :
    Continuous (fun d : ℝ => dwMagnitude chi c etaR d) := by
  have heq : (fun d : ℝ => dwMagnitude chi c etaR d) =
      fun d => |chi * c| * max 0 (min 1 ((d - 0.9 * etaR) / (0.2 * etaR))) := by
    funext d
    rw [dwMagnitude, rampProfile_eq_clamp etaR d h]
  rw [heq]
  exact continuous_const.mul (continuous_const.max (continuous_const.min
    ((continuous_id.sub continuous_const).div_const _)))

/-- C10: for fixed `chi`, `c` and `eta*R > 0`, the length of the vector returned
by `calc_dw` is the function `dwMagnitude` of the distance `d > 0`; that
function is continuous, is `0` for `d < 0.9*eta*R` and `|chi*c|` for
`d > 1.1*eta*R`, and at the two thresholds the ramp takes the values `0` and
`1` of the neighbouring branches, so there is no jump. -/
theorem C10_rounding_magnitude_continuous (rc : RoundCells ℝ) (vabs : Vector2D ℝ → ℝ)
    (hn : IsNorm vabs) (c etaR : ℝ) (hER : 0 < etaR) :
    (∀ (tess : Tessellation ℝ) (cells : List (ComputationalCell ℝ)) (i : Nat),
        rc.eta_ * tess.GetWidth i = etaR →
        rc.dp2c (cells.getD i default).density (cells.getD i default).pressure = c →
        0 < vabs (Vector2D.sub (tess.GetCellCM i) (tess.GetMeshPoint i)) →
        vabs (rc.calc_dw vabs i tess cells) =
          dwMagnitude rc.chi_ c etaR
            (vabs (Vector2D.sub (tess.GetCellCM i) (tess.GetMeshPoint i)))) ∧
      Continuous (fun d : ℝ => dwMagnitude rc.chi_ c etaR d) ∧
      (∀ d : ℝ, d < 0.9 * etaR → dwMagnitude rc.chi_ c etaR d = 0) ∧
      (∀ d : ℝ, d > 1.1 * etaR → dwMagnitude rc.chi_ c etaR d = |rc.chi_ * c|) ∧
      dwMagnitude rc.chi_ c etaR (0.9 * etaR) = 0 ∧
      dwMagnitude rc.chi_ c etaR (1.1 * etaR) = |rc.chi_ * c| ∧
      (0.9 * etaR - 0.9 * etaR) / (0.2 * etaR) = 0 ∧
      (1.1 * etaR - 0.9 * etaR) / (0.2 * etaR) = 1 := by
  have hpos : (0 : ℝ) < 0.2 * etaR := by linarith
  have hend1 : (0.9 * etaR - 0.9 * etaR) / (0.2 * etaR) = 0 := by
    rw [sub_self, zero_div]
  have hend2 : (1.1 * etaR - 0.9 * etaR) / (0.2 * etaR) = 1 := by
    rw [div_eq_one_iff_eq hpos.ne']; ring
  refine ⟨?_, dwMagnitude_continuous rc.chi_ c etaR hER, ?_, ?_, ?_, ?_, hend1, hend2⟩
  · intro tess cells i hE hc hd
    subst hE hc
    exact calc_dw_magnitude rc vabs tess cells i hn hER hd
  · intro d hd
    rw [dwMagnitude, rampProfile, if_pos hd, mul_zero]
  · intro d hd
    rw [dwMagnitude, rampProfile, if_neg (by linarith), if_pos hd, mul_one]
  · rw [dwMagnitude, rampProfile, if_neg (lt_irrefl _), if_neg (by linarith), hend1, mul_zero]
  · rw [dwMagnitude, rampProfile, if_neg (by linarith), if_neg (lt_irrefl _), hend2, mul_one]

/-- C10 for the sample `RoundCells` object with the Euclidean length, `c = 1`
and `eta*R = 1/2`. -/
theorem C10_rounding_magnitude_continuous_witness :
    Continuous (fun d : ℝ => dwMagnitude (sampleRoundCells ℝ).chi_ 1 (1 / 2) d) ∧
      (∀ d : ℝ, d < 0.9 * (1 / 2) → dwMagnitude (sampleRoundCells ℝ).chi_ 1 (1 / 2) d = 0) ∧
      (∀ d : ℝ, d > 1.1 * (1 / 2) →
        dwMagnitude (sampleRoundCells ℝ).chi_ 1 (1 / 2) d = |(sampleRoundCells ℝ).chi_ * 1|) :=
  ⟨(C10_rounding_magnitude_continuous (sampleRoundCells ℝ)
      (fun w => Real.sqrt (w.x * w.x + w.y * w.y)) euclid_isNorm 1 (1 / 2) (by norm_num)).2.1,
    (C10_rounding_magnitude_continuous (sampleRoundCells ℝ)
      (fun w => Real.sqrt (w.x * w.x + w.y * w.y)) euclid_isNorm 1 (1 / 2) (by norm_num)).2.2.1,
    (C10_rounding_magnitude_continuous (sampleRoundCells ℝ)
      (fun w => Real.sqrt (w.x * w.x + w.y * w.y)) euclid_isNorm 1 (1 / 2)
      (by norm_num)).2.2.2.1⟩

end Continuity

section ApplyFixLemmas

variable {K : Type} [LinearOrderedField K]

theorem vecResize_getD_default {α : Type} (v : List α) (n j : Nat) (d : α) :
    (vecResize v n d).getD j d = if j < n then v.getD j d else d := by
  unfold vecResize
  simp only [List.getD_eq_getElem?_getD, List.getElem?_append, List.length_take,
    List.getElem?_take, List.getElem?_replicate]
  by_cases hj : j < n
  · by_cases hl : j < v.length
    · have : j < min n v.length := lt_min hj hl
      simp [hj, this]
    · have h1 : ¬ j < min n v.length := fun h => hl (lt_of_lt_of_le h (min_le_right _ _))
      simp only [h1, if_false, hj, if_true]
      have h2 : v[j]? = none := List.getElem?_eq_none (Nat.le_of_not_lt hl)
      rw [h2]
      split <;> rfl
  · have h1 : ¬ j < min n v.length := fun h => hj (lt_of_lt_of_le h (min_le_left _ _))
    simp only [h1, if_false, hj]
    split <;> rfl

/-- The overload of `calc_dw` that takes the timestep is the other overload with
the sound speed replaced by `0.25 * R / dt`. -/
theorem calc_dw_dt_eq_calc_dw (rc : RoundCells K) (vabs : Vector2D K → K) (i : Nat)
    (tess : Tessellation K) (dt : K) (cells : List (ComputationalCell K)) :
    rc.calc_dw_dt vabs i tess dt =
      ({ rc with dp2c := fun _ _ => 0.25 * tess.GetWidth i / dt } : RoundCells K).calc_dw
        vabs i tess cells := by
  simp only [RoundCells.calc_dw_dt, RoundCells.calc_dw]

/-- C11: in cold mode `ApplyFix` first turns the provisional velocities, resized
to `GetPointNo` entries, into the list `res` whose entry `i` is the provisional
velocity plus `calc_dw(i, tess, dt)`, and only then clamps `res` (when the
boundary is not periodic); `calc_dw(i, tess, dt)` is the regularization term of
the base call, same thresholds, ramp and direction, with the sound speed
replaced by `0.25 * R / dt`. -/
theorem C11_cold_mode_adds_timestep_scaled_term (rc : RoundCells K) (vabs : Vector2D K → K)
    (vdist : Vector2D K → Vector2D K → K) (tess : Tessellation K)
    (cells : List (ComputationalCell K)) (time dt : K) (velocities : List (Vector2D K))
    (hcold : rc.cold_ = true) :
    ∃ res : List (Vector2D K),
      res.length = tess.GetPointNo ∧
      (∀ i, i < tess.GetPointNo →
        res.getD i 0 = Vector2D.add (velocities.getD i 0) (rc.calc_dw_dt vabs i tess dt)) ∧
      rc.ApplyFix vabs vdist tess cells time dt velocities =
        (if rc.outer_.GetBoundaryType ≠ BoundaryType.Periodic then
          CorrectPointsOverShoot vabs vdist res dt tess rc.outer_
        else res) ∧
      ∀ (i : Nat) (cells' : List (ComputationalCell K)),
        rc.calc_dw_dt vabs i tess dt =
          ({ rc with dp2c := fun _ _ => 0.25 * tess.GetWidth i / dt } : RoundCells K).calc_dw
            vabs i tess cells' := by
  refine ⟨(List.range (vecResize velocities tess.GetPointNo 0).length).foldl
    (fun res i => res.set i (Vector2D.add (res.getD i 0) (rc.calc_dw_dt vabs i tess dt)))
    (vecResize velocities tess.GetPointNo 0), ?_, ?_, ?_, ?_⟩
  · rw [foldl_set_add_length, vecResize_length]
  · intro i hi
    rw [foldl_set_add_range_getD (fun i => rc.calc_dw_dt vabs i tess dt) _ i
      (by rw [vecResize_length]; exact hi), vecResize_getD_default, if_pos hi]
  · simp only [RoundCells.ApplyFix, hcold, if_true]
  · intro i cells'
    exact calc_dw_dt_eq_calc_dw rc vabs i tess dt cells'

/-- C12: with a periodic outer boundary and cold mode off, `ApplyFix` returns the
provisional velocities resized to the point count of the tessellation, whatever
the velocities, the timestep and the positions of the points. -/
theorem C12_periodic_boundary_no_clamp (rc : RoundCells K) (vabs : Vector2D K → K)
    (vdist : Vector2D K → Vector2D K → K) (tess : Tessellation K)
    (cells : List (ComputationalCell K)) (time dt : K) (velocities : List (Vector2D K))
    (hper : rc.outer_.GetBoundaryType = BoundaryType.Periodic) (hcold : rc.cold_ = false) :
    rc.ApplyFix vabs vdist tess cells time dt velocities =
        vecResize velocities tess.GetPointNo 0 ∧
      (rc.ApplyFix vabs vdist tess cells time dt velocities).length = tess.GetPointNo ∧
      ∀ i, i < tess.GetPointNo →
        (rc.ApplyFix vabs vdist tess cells time dt velocities).getD i 0 =
          velocities.getD i 0 := by
  have h : rc.ApplyFix vabs vdist tess cells time dt velocities =
      vecResize velocities tess.GetPointNo 0 := by
    simp [RoundCells.ApplyFix, hper, hcold]
  refine ⟨h, ?_, ?_⟩
  · rw [h, vecResize_length]
  · intro i hi
    rw [h, vecResize_getD_default, if_pos hi]

end ApplyFixLemmas

section ApplyFixWitnesses

/-- C11 for the sample object in cold mode on the one-point mesh, with the
Euclidean length, `dt = 1` and the provisional velocity `(3, 4)`. -/
theorem C11_cold_mode_adds_timestep_scaled_term_witness :
    ∃ res : List (Vector2D ℝ),
      res.length = (onePointMesh ℝ).GetPointNo ∧
      (∀ i, i < (onePointMesh ℝ).GetPointNo →
        res.getD i 0 = Vector2D.add (([⟨3, 4⟩] : List (Vector2D ℝ)).getD i 0)
          ((coldRoundCells ℝ).calc_dw_dt (fun w => Real.sqrt (w.x * w.x + w.y * w.y)) i
            (onePointMesh ℝ) 1)) ∧
      (coldRoundCells ℝ).ApplyFix (fun w => Real.sqrt (w.x * w.x + w.y * w.y))
          (fun a b => Real.sqrt ((a.x - b.x) * (a.x - b.x) + (a.y - b.y) * (a.y - b.y)))
          (onePointMesh ℝ) [] 0 1 [⟨3, 4⟩] =
        (if (coldRoundCells ℝ).outer_.GetBoundaryType ≠ BoundaryType.Periodic then
          CorrectPointsOverShoot (fun w => Real.sqrt (w.x * w.x + w.y * w.y))
            (fun a b => Real.sqrt ((a.x - b.x) * (a.x - b.x) + (a.y - b.y) * (a.y - b.y)))
            res 1 (onePointMesh ℝ) (coldRoundCells ℝ).outer_
        else res) ∧
      ∀ (i : Nat) (cells' : List (ComputationalCell ℝ)),
        (coldRoundCells ℝ).calc_dw_dt (fun w => Real.sqrt (w.x * w.x + w.y * w.y)) i
            (onePointMesh ℝ) 1 =
          ({ coldRoundCells ℝ with
              dp2c := fun _ _ => 0.25 * (onePointMesh ℝ).GetWidth i / 1 } :
            RoundCells ℝ).calc_dw (fun w => Real.sqrt (w.x * w.x + w.y * w.y)) i
              (onePointMesh ℝ) cells' :=
  C11_cold_mode_adds_timestep_scaled_term (coldRoundCells ℝ) _ _ (onePointMesh ℝ) [] 0 1
    [⟨3, 4⟩] rfl

/-- C12 for the sample object with a periodic boundary: the velocity `(3, 4)` of
the point at the origin of the unit square is returned as it is. -/
theorem C12_periodic_boundary_no_clamp_witness :
    (periodicRoundCells ℝ).ApplyFix (fun w => Real.sqrt (w.x * w.x + w.y * w.y))
          (fun a b => Real.sqrt ((a.x - b.x) * (a.x - b.x) + (a.y - b.y) * (a.y - b.y)))
          (onePointMesh ℝ) [] 0 1 [⟨3, 4⟩] =
        vecResize [⟨3, 4⟩] (onePointMesh ℝ).GetPointNo 0 ∧
      ((periodicRoundCells ℝ).ApplyFix (fun w => Real.sqrt (w.x * w.x + w.y * w.y))
          (fun a b => Real.sqrt ((a.x - b.x) * (a.x - b.x) + (a.y - b.y) * (a.y - b.y)))
          (onePointMesh ℝ) [] 0 1 [⟨3, 4⟩]).length = (onePointMesh ℝ).GetPointNo ∧
      ∀ i, i < (onePointMesh ℝ).GetPointNo →
        ((periodicRoundCells ℝ).ApplyFix (fun w => Real.sqrt (w.x * w.x + w.y * w.y))
          (fun a b => Real.sqrt ((a.x - b.x) * (a.x - b.x) + (a.y - b.y) * (a.y - b.y)))
          (onePointMesh ℝ) [] 0 1 [⟨3, 4⟩]).getD i 0 =
          ([⟨3, 4⟩] : List (Vector2D ℝ)).getD i 0 :=
  C12_periodic_boundary_no_clamp (periodicRoundCells ℝ) _ _ (onePointMesh ℝ) [] 0 1
    [⟨3, 4⟩] rfl rfl

end ApplyFixWitnesses

namespace Tetrahedron

variable {K : Type} [LinearOrderedField K]

/-- The identity behind the circumcentre formula: for every vertex `p`,
`Dx*p.x + Dy*p.y + Dz*p.z - a*|p|²` has the same value. -/
theorem center_key (t : Tetrahedron K) (k : Fin 4) :
    t.detDx * ((t.vertices k).x - (t.vertices 0).x) +
        t.detDy * ((t.vertices k).y - (t.vertices 0).y) +
        t.detDz * ((t.vertices k).z - (t.vertices 0).z) =
      t.detA * ((t.vertices k).abs2 - (t.vertices 0).abs2) := by
  fin_cases k <;>
    simp only [detDx, detDy, detDz, detA, Mat44.determinant, Vector3D.abs2, Fin.zero_eta,
      Fin.mk_one, Fin.reduceFinMk] <;> ring

end Tetrahedron

namespace Tetrahedron

variable {K : Type} [LinearOrderedField K]

theorem center_equidistant_sq (t : Tetrahedron K) (ha : t.detA ≠ 0) (k : Fin 4) :
    (Vector3D.sub t.CalculateCenter (t.vertices k)).abs2 =
      (Vector3D.sub t.CalculateCenter (t.vertices 0)).abs2 := by
  have key := center_key t k
  have key' : (t.detDx * ((t.vertices k).x - (t.vertices 0).x) +
      t.detDy * ((t.vertices k).y - (t.vertices 0).y) +
      t.detDz * ((t.vertices k).z - (t.vertices 0).z)) / t.detA =
        (t.vertices k).abs2 - (t.vertices 0).abs2 := by
    rw [div_eq_iff ha, key]
    ring
  simp only [CalculateCenter, Vector3D.sub, Vector3D.abs2] at key' ⊢
  linear_combination (-1 : K) * key'

theorem isNorm3_eq_of_abs2_eq {vabs3 : Vector3D K → K} (hn : IsNorm3 vabs3)
    (u w : Vector3D K) (h : u.abs2 = w.abs2) : vabs3 u = vabs3 w := by
  obtain ⟨hu0, hu2⟩ := hn u
  obtain ⟨hw0, hw2⟩ := hn w
  exact (mul_self_inj hu0 hw0).mp (by rw [hu2, hw2, h])

/-- C13: when the determinant `a` of the rows `(x, y, z, 1)` is not zero, the
point `(Dx/(2a), Dy/(2a), Dz/(2a))` returned by `CalculateCenter` has the same
distance to each of the four vertices, so the radius, computed as the distance
from the centre to vertex `0`, is the distance from the centre to any vertex. -/
theorem C13_center_is_circumcentre (t : Tetrahedron K) (vabs3 : Vector3D K → K)
    (hn : IsNorm3 vabs3) (ha : t.detA ≠ 0) :
    t.CalculateCenter =
        ⟨t.detDx / (2 * t.detA), t.detDy / (2 * t.detA), t.detDz / (2 * t.detA)⟩ ∧
      (∀ j k : Fin 4,
        (Vector3D.sub t.CalculateCenter (t.vertices j)).abs2 =
          (Vector3D.sub t.CalculateCenter (t.vertices k)).abs2) ∧
      (∀ j k : Fin 4,
        vabs3 (Vector3D.sub t.CalculateCenter (t.vertices j)) =
          vabs3 (Vector3D.sub t.CalculateCenter (t.vertices k))) ∧
      ∀ k : Fin 4,
        t.CalculateRadius vabs3 = vabs3 (Vector3D.sub t.CalculateCenter (t.vertices k)) := by
  have hsq : ∀ j k : Fin 4,
      (Vector3D.sub t.CalculateCenter (t.vertices j)).abs2 =
        (Vector3D.sub t.CalculateCenter (t.vertices k)).abs2 := fun j k =>
    (center_equidistant_sq t ha j).trans (center_equidistant_sq t ha k).symm
  refine ⟨rfl, hsq, fun j k => isNorm3_eq_of_abs2_eq hn _ _ (hsq j k), ?_⟩
  intro k
  exact isNorm3_eq_of_abs2_eq hn _ _ (hsq 0 k)

end Tetrahedron

namespace Tetrahedron

variable {K : Type} [LinearOrderedField K]

theorem euclid3_isNorm3 :
    IsNorm3 (fun w : Vector3D ℝ => Real.sqrt (w.x * w.x + w.y * w.y + w.z * w.z)) := by
  intro w
  refine ⟨Real.sqrt_nonneg _, ?_⟩
  exact Real.mul_self_sqrt
    (add_nonneg (add_nonneg (mul_self_nonneg _) (mul_self_nonneg _)) (mul_self_nonneg _))

theorem unitCorner_detA : (unitCorner ℝ).detA = -1 := by
  simp [detA, unitCorner, Mat44.determinant]

/-- C13 for the unit corner, with the Euclidean length. -/
theorem C13_center_is_circumcentre_witness :
    (unitCorner ℝ).CalculateCenter =
        ⟨(unitCorner ℝ).detDx / (2 * (unitCorner ℝ).detA),
          (unitCorner ℝ).detDy / (2 * (unitCorner ℝ).detA),
          (unitCorner ℝ).detDz / (2 * (unitCorner ℝ).detA)⟩ ∧
      (∀ j k : Fin 4,
        (Vector3D.sub (unitCorner ℝ).CalculateCenter ((unitCorner ℝ).vertices j)).abs2 =
          (Vector3D.sub (unitCorner ℝ).CalculateCenter ((unitCorner ℝ).vertices k)).abs2) ∧
      (∀ j k : Fin 4,
        (fun w : Vector3D ℝ => Real.sqrt (w.x * w.x + w.y * w.y + w.z * w.z))
            (Vector3D.sub (unitCorner ℝ).CalculateCenter ((unitCorner ℝ).vertices j)) =
          (fun w : Vector3D ℝ => Real.sqrt (w.x * w.x + w.y * w.y + w.z * w.z))
            (Vector3D.sub (unitCorner ℝ).CalculateCenter ((unitCorner ℝ).vertices k))) ∧
      ∀ k : Fin 4,
        (unitCorner ℝ).CalculateRadius
            (fun w : Vector3D ℝ => Real.sqrt (w.x * w.x + w.y * w.y + w.z * w.z)) =
          (fun w : Vector3D ℝ => Real.sqrt (w.x * w.x + w.y * w.y + w.z * w.z))
            (Vector3D.sub (unitCorner ℝ).CalculateCenter ((unitCorner ℝ).vertices k)) :=
  C13_center_is_circumcentre (unitCorner ℝ) _ euclid3_isNorm3
    (by rw [unitCorner_detA]; norm_num)

theorem detA_eq_triple (t : Tetrahedron K) :
    t.detA = -Vector3D.dot (Vector3D.sub (t.vertices 1) (t.vertices 0))
      (Vector3D.cross (Vector3D.sub (t.vertices 2) (t.vertices 0))
        (Vector3D.sub (t.vertices 3) (t.vertices 0))) := by
  simp only [detA, Mat44.determinant, Vector3D.dot, Vector3D.cross, Vector3D.sub]
  ring

theorem detA_swap (v : Fin 4 → Vector3D K) (x y : Fin 4) (h : x ≠ y) :
    detA ⟨v ∘ Equiv.swap x y⟩ = -detA ⟨v⟩ := by
  fin_cases x <;> fin_cases y <;>
    first
    | exact absurd rfl h
    | (simp only [detA, Mat44.determinant, Function.comp]
       simp [Equiv.swap_apply_def]
       try ring)

end Tetrahedron

namespace Tetrahedron

variable {K : Type} [LinearOrderedField K]

theorem abs_detA_perm (σ : Equiv.Perm (Fin 4)) :
    ∀ v : Fin 4 → Vector3D K, |detA ⟨v ∘ σ⟩| = |detA ⟨v⟩| := by
  refine Equiv.Perm.swap_induction_on σ ?_ ?_
  · intro v
    rfl
  · intro f x y hxy ih v
    have hcomp : v ∘ ⇑(Equiv.swap x y * f) = (v ∘ ⇑(Equiv.swap x y)) ∘ ⇑f := by
      funext k
      simp only [Function.comp, Equiv.Perm.coe_mul]
    rw [hcomp, ih (v ∘ ⇑(Equiv.swap x y)), detA_swap v x y hxy, abs_neg]

/-- C14: `CalculateVolume` returns `|det| / 6` with `det` the determinant of the
rows `(x_k, y_k, z_k, 1)`; this is `|(v1 - v0) . ((v2 - v0) x (v3 - v0))| / 6`,
it is not negative, and it is the same for every reordering of the four
vertices. -/
theorem C14_volume_is_triple_product (t : Tetrahedron K) :
    t.CalculateVolume = |t.detA| / 6 ∧
      t.CalculateVolume =
        |Vector3D.dot (Vector3D.sub (t.vertices 1) (t.vertices 0))
          (Vector3D.cross (Vector3D.sub (t.vertices 2) (t.vertices 0))
            (Vector3D.sub (t.vertices 3) (t.vertices 0)))| / 6 ∧
      0 ≤ t.CalculateVolume ∧
      ∀ σ : Equiv.Perm (Fin 4),
        CalculateVolume ⟨t.vertices ∘ σ⟩ = t.CalculateVolume := by
  refine ⟨rfl, ?_, ?_, ?_⟩
  · rw [CalculateVolume, detA_eq_triple, abs_neg]
  · exact div_nonneg (abs_nonneg _) (by norm_num)
  · intro σ
    simp only [CalculateVolume]
    rw [abs_detA_perm σ t.vertices]

end Tetrahedron

namespace LagrangianExtensiveUpdater

variable {K : Type} [LinearOrderedField K]

theorem correctionFactor_congr_dV (tess : Tessellation K) (dt : K) (cd : CacheData K)
    (ws_ dV dV' : List K) (c j : Nat) (h : dV'.getD c 0 = dV.getD c 0) :
    correctionFactor tess dt cd ws_ dV' c j = correctionFactor tess dt cd ws_ dV c j := by
  simp only [correctionFactor, sweptRatio, h]

/-- Changing the edge velocity of edge `i` alone leaves the contribution of
every edge to `dV[c]` as it was, when `c` is not a neighbour of edge `i`, or
the two neighbours of edge `i` coincide, or both are ghost cells. -/
theorem sweptContribution_congr (tess : Tessellation K) (dt : K) (cd : CacheData K)
    (ev ev' : List K) (i c : Nat) (hev : ∀ j, j ≠ i → ev'.getD j 0 = ev.getD j 0)
    (h : (c ≠ (tess.GetEdge i).neighbors.1 ∧ c ≠ (tess.GetEdge i).neighbors.2) ∨
      (tess.GetEdge i).neighbors.1 = (tess.GetEdge i).neighbors.2 ∨
      (¬ (tess.GetEdge i).neighbors.1 < tess.GetPointNo ∧
        ¬ (tess.GetEdge i).neighbors.2 < tess.GetPointNo)) (j : Nat) :
    sweptContribution tess dt cd ev' c j = sweptContribution tess dt cd ev c j := by
  by_cases hji : j = i
  · subst hji
    simp only [sweptContribution]
    have hE : tess.getAllEdges.getD j default = tess.GetEdge j := rfl
    rw [hE]
    rcases h with ⟨h1, h2⟩ | h12 | ⟨h1, h2⟩
    · rw [if_neg (fun hh => h1 hh.1.symm), if_neg (fun hh => h2 hh.1.symm),
        if_neg (fun hh => h1 hh.1.symm), if_neg (fun hh => h2 hh.1.symm)]
    · rw [h12, sub_self, sub_self]
    · have n1 : ¬ ((tess.GetEdge j).neighbors.1 = c ∧ c < tess.GetPointNo) := by
        rintro ⟨heq, hlt⟩
        exact h1 (heq ▸ hlt)
      have n2 : ¬ ((tess.GetEdge j).neighbors.2 = c ∧ c < tess.GetPointNo) := by
        rintro ⟨heq, hlt⟩
        exact h2 (heq ▸ hlt)
      rw [if_neg n1, if_neg n2, if_neg n1, if_neg n2]
  · simp only [sweptContribution, sweptTerm, hev j hji]

theorem vecResize_congr_getD (ev ev' : List K) (n i : Nat)
    (hev : ∀ j, j ≠ i → ev'.getD j 0 = ev.getD j 0) :
    ∀ j, j ≠ i → (vecResize ev' n 0).getD j 0 = (vecResize ev n 0).getD j 0 := by
  intro j hj
  rw [vecResize_getD, vecResize_getD, hev j hj]

/-- The record of cell `c` returned by the updater does not change when the
edge velocity of edge `i` alone changes, under the condition of
`sweptContribution_congr`. -/
theorem apply_getElem?_congr_edge_vel (beu : List (Extensive K) → List (Extensive K))
    (fc : LagrangianFlux K) (tess : Tessellation K) (dt : K) (cd : CacheData K)
    (extensives : List (Extensive K)) (ev' : List K) (i c : Nat)
    (hev : ∀ j, j ≠ i → ev'.getD j 0 = fc.edge_vel_.getD j 0)
    (h : (c ≠ (tess.GetEdge i).neighbors.1 ∧ c ≠ (tess.GetEdge i).neighbors.2) ∨
      (tess.GetEdge i).neighbors.1 = (tess.GetEdge i).neighbors.2 ∨
      (¬ (tess.GetEdge i).neighbors.1 < tess.GetPointNo ∧
        ¬ (tess.GetEdge i).neighbors.2 < tess.GetPointNo)) :
    (apply beu ⟨fc.ws_, ev'⟩ tess dt cd extensives)[c]? =
      (apply beu fc tess dt cd extensives)[c]? := by
  unfold apply applyOver
  by_cases hc : c < tess.GetPointNo
  · rw [foldl_correctionStep_real _ _ _ _ _ c hc, foldl_correctionStep_real _ _ _ _ _ c hc]
    have hdV : (sweptVolumes tess dt cd ⟨fc.ws_, ev'⟩
        (List.range tess.getAllEdges.length)).getD c 0 =
        (sweptVolumes tess dt cd fc (List.range tess.getAllEdges.length)).getD c 0 := by
      rw [sweptVolumes_getD _ _ _ _ _ c hc, sweptVolumes_getD _ _ _ _ _ c hc]
      congr 1
      apply List.map_congr_left
      intro j _
      exact sweptContribution_congr tess dt cd _ _ i c
        (vecResize_congr_getD _ _ _ i hev) h j
    have hmap : (List.range tess.getAllEdges.length).map
        (correctionFactor tess dt cd (vecResize fc.ws_ tess.getAllEdges.length 0)
          (sweptVolumes tess dt cd ⟨fc.ws_, ev'⟩ (List.range tess.getAllEdges.length)) c) =
        (List.range tess.getAllEdges.length).map
          (correctionFactor tess dt cd (vecResize fc.ws_ tess.getAllEdges.length 0)
            (sweptVolumes tess dt cd fc (List.range tess.getAllEdges.length)) c) := by
      apply List.map_congr_left
      intro j _
      exact correctionFactor_congr_dV tess dt cd _ _ _ c j hdV
    show Option.map (Extensive.smul ((List.range tess.getAllEdges.length).map
        (correctionFactor tess dt cd (vecResize fc.ws_ tess.getAllEdges.length 0)
          (sweptVolumes tess dt cd ⟨fc.ws_, ev'⟩ (List.range tess.getAllEdges.length)) c)).prod)
        _ = _
    rw [hmap]
  · rw [foldl_correctionStep_ghost _ _ _ _ _ c hc, foldl_correctionStep_ghost _ _ _ _ _ c hc]

end LagrangianExtensiveUpdater

namespace LagrangianExtensiveUpdater

variable {K : Type} [LinearOrderedField K]

/-- C15 (counterexample): on the mesh with the self-edge `1` between cell `0` and
its image, with wave speed `1/2` on the interior interface `0`, unit areas,
unit volumes, `dt = 1` and the identity as baseline updater, the record of cell
`0` is multiplied by `1/2` when the edge velocity of the self-edge is `0` and
by `3/4` when it is `1`. -/
theorem C15_self_edge_velocity_changes_record :
    wallMesh.GetOriginalIndex (wallMesh.GetEdge 1).neighbors.1 =
        wallMesh.GetOriginalIndex (wallMesh.GetEdge 1).neighbors.2 ∧
      apply id ⟨[1 / 2, 0], [0, 0]⟩ wallMesh 1 wallCache [unitRecord, unitRecord] =
        [⟨1 / 2, ⟨0, 0⟩, 1 / 2, []⟩, ⟨3 / 2, ⟨0, 0⟩, 3 / 2, []⟩] ∧
      apply id ⟨[1 / 2, 0], [0, 1]⟩ wallMesh 1 wallCache [unitRecord, unitRecord] =
        [⟨3 / 4, ⟨0, 0⟩, 3 / 4, []⟩, ⟨3 / 2, ⟨0, 0⟩, 3 / 2, []⟩] ∧
      apply id ⟨[1 / 2, 0], [0, 1]⟩ wallMesh 1 wallCache [unitRecord, unitRecord] ≠
        apply id ⟨[1 / 2, 0], [0, 0]⟩ wallMesh 1 wallCache [unitRecord, unitRecord] := by
  have h0 : apply id ⟨[1 / 2, 0], [0, 0]⟩ wallMesh 1 wallCache [unitRecord, unitRecord] =
      [⟨1 / 2, ⟨0, 0⟩, 1 / 2, []⟩, ⟨3 / 2, ⟨0, 0⟩, 3 / 2, []⟩] := by
    simp [apply, applyOver, sweptVolumes, correctionStep, sweptVolumeStep, vecResize,
      wallMesh, wallCache, unitRecord, Tessellation.GetEdge,
      Extensive.smul, Extensive.sub, Extensive.add, Vector2D.smul, Vector2D.sub, Vector2D.add,
      List.range_succ]
    norm_num
  have h1 : apply id ⟨[1 / 2, 0], [0, 1]⟩ wallMesh 1 wallCache [unitRecord, unitRecord] =
      [⟨3 / 4, ⟨0, 0⟩, 3 / 4, []⟩, ⟨3 / 2, ⟨0, 0⟩, 3 / 2, []⟩] := by
    simp [apply, applyOver, sweptVolumes, correctionStep, sweptVolumeStep, vecResize,
      wallMesh, wallCache, unitRecord, Tessellation.GetEdge,
      Extensive.smul, Extensive.sub, Extensive.add, Vector2D.smul, Vector2D.sub, Vector2D.add,
      List.range_succ]
    norm_num
  refine ⟨by decide, h0, h1, ?_⟩
  rw [h0, h1]
  simp
  norm_num

/-- C15 (amended): for an interface `i` whose two neighbours have the same
original index, the second loop changes no record at iteration `i`; changing
the edge velocity stored for `i` leaves the record of every cell that is not a
neighbour of `i` as it was, and leaves all records as they were when the two
neighbours of `i` are the same cell or are both ghost cells. -/
theorem C15_self_edge_velocity_reaches_only_neighbours
    (beu : List (Extensive K) → List (Extensive K)) (fc : LagrangianFlux K)
    (tess : Tessellation K) (dt : K) (cd : CacheData K) (extensives : List (Extensive K))
    (i : Nat) (ev' : List K)
    (hself : tess.GetOriginalIndex (tess.GetEdge i).neighbors.1 =
      tess.GetOriginalIndex (tess.GetEdge i).neighbors.2)
    (hev : ∀ j, j ≠ i → ev'.getD j 0 = fc.edge_vel_.getD j 0) :
    (∀ (ws_ dV : List K) (ext : List (Extensive K)),
        correctionStep tess dt cd ws_ dV ext i = ext) ∧
      (∀ c, c ≠ (tess.GetEdge i).neighbors.1 → c ≠ (tess.GetEdge i).neighbors.2 →
        (apply beu ⟨fc.ws_, ev'⟩ tess dt cd extensives)[c]? =
          (apply beu fc tess dt cd extensives)[c]?) ∧
      (((tess.GetEdge i).neighbors.1 = (tess.GetEdge i).neighbors.2 ∨
          (¬ (tess.GetEdge i).neighbors.1 < tess.GetPointNo ∧
            ¬ (tess.GetEdge i).neighbors.2 < tess.GetPointNo)) →
        apply beu ⟨fc.ws_, ev'⟩ tess dt cd extensives = apply beu fc tess dt cd extensives) := by
  refine ⟨?_, ?_, ?_⟩
  · intro ws_ dV ext
    simp only [correctionStep, hself, if_true]
  · intro c h1 h2
    exact apply_getElem?_congr_edge_vel beu fc tess dt cd extensives ev' i c hev
      (Or.inl ⟨h1, h2⟩)
  · intro h
    apply List.ext_getElem?
    intro c
    exact apply_getElem?_congr_edge_vel beu fc tess dt cd extensives ev' i c hev (Or.inr h)

/-- C15 (amended) on the mesh with the self-edge `1`: the record of cell `1`,
which is not a neighbour of the self-edge, does not depend on its edge
velocity. -/
theorem C15_self_edge_velocity_reaches_only_neighbours_witness :
    (apply id ⟨[1 / 2, 0], [0, 1]⟩ wallMesh 1 wallCache [unitRecord, unitRecord])[1]? =
      (apply id ⟨[1 / 2, 0], [0, 0]⟩ wallMesh 1 wallCache [unitRecord, unitRecord])[1]? :=
  (C15_self_edge_velocity_reaches_only_neighbours id ⟨[1 / 2, 0], [0, 0]⟩ wallMesh 1 wallCache
    [unitRecord, unitRecord] 1 [0, 1] (by decide)
    (by
      intro j hj
      match j, hj with
      | 0, _ => rfl
      | 1, h => exact absurd rfl h
      | (k + 2), _ => rfl)).2.1 1 (by decide) (by decide)

theorem foldlM_correctionStepChecked_eq_some (tess : Tessellation K) (dt : K)
    (cd : CacheData K) (ws_ dV : List K) (idx : List Nat)
    (h : ∀ i ∈ idx, ¬ dividesByZero tess cd dV i) :
    ∀ ext : List (Extensive K),
      idx.foldlM (correctionStepChecked tess dt cd ws_ dV) ext =
        some (idx.foldl (correctionStep tess dt cd ws_ dV) ext) := by
  induction idx with
  | nil => intro ext; rfl
  | cons i rest ih =>
    intro ext
    have hi : ¬ dividesByZero tess cd dV i := h i (List.mem_cons_self i rest)
    rw [List.foldlM_cons, correctionStepChecked, if_neg hi, List.foldl_cons]
    exact ih (fun k hk => h k (List.mem_cons_of_mem i hk)) _

theorem applyChecked_eq_some_apply (beu : List (Extensive K) → List (Extensive K))
    (fc : LagrangianFlux K) (tess : Tessellation K) (dt : K) (cd : CacheData K)
    (extensives : List (Extensive K))
    (hden : ∀ i, i < tess.getAllEdges.length →
      ¬ dividesByZero tess cd
        (sweptVolumes tess dt cd fc (List.range tess.getAllEdges.length)) i) :
    applyChecked beu fc tess dt cd extensives = some (apply beu fc tess dt cd extensives) := by
  unfold applyChecked apply applyOver
  exact foldlM_correctionStepChecked_eq_some tess dt cd _ _ _
    (fun i hi => hden i (List.mem_range.mp hi)) _

/-- C16 (counterexample): on the two-cell mesh with unit area, unit volumes,
`dt = 1`, wave speed `0` and edge velocity `1`, the first loop leaves
`dV = [1, -1]`, so the correction of cell `1` divides by
`volumes[1] + dV[1] = 0`: the quotient of line 75 is `0/0`, and the updater
does not return the record of the baseline updater for cell `1`. -/
theorem C16_zero_denominator_not_baseline :
    (∀ i : Nat, (⟨[0], [1]⟩ : LagrangianFlux ℚ).ws_.getD i 0 = 0) ∧
      sweptVolumes twoCellMesh 1 twoCellCache (⟨[0], [1]⟩ : LagrangianFlux ℚ)
          (List.range twoCellMesh.getAllEdges.length) = [1, -1] ∧
      twoCellCache.volumes.getD 1 0 +
          (sweptVolumes twoCellMesh 1 twoCellCache (⟨[0], [1]⟩ : LagrangianFlux ℚ)
            (List.range twoCellMesh.getAllEdges.length)).getD 1 0 = 0 ∧
      dividesByZero twoCellMesh twoCellCache
        (sweptVolumes twoCellMesh 1 twoCellCache (⟨[0], [1]⟩ : LagrangianFlux ℚ)
          (List.range twoCellMesh.getAllEdges.length)) 0 ∧
      applyChecked id (⟨[0], [1]⟩ : LagrangianFlux ℚ) twoCellMesh 1 twoCellCache
          [unitRecord, unitRecord] = none ∧
      applyChecked id (⟨[0], [1]⟩ : LagrangianFlux ℚ) twoCellMesh 1 twoCellCache
          [unitRecord, unitRecord] ≠ some (id [unitRecord, unitRecord]) := by
  have hdV : sweptVolumes twoCellMesh 1 twoCellCache (⟨[0], [1]⟩ : LagrangianFlux ℚ)
      (List.range twoCellMesh.getAllEdges.length) = [1, -1] := by
    simp [sweptVolumes, sweptVolumeStep, vecResize, twoCellMesh, twoCellCache, List.range_succ]
  have hbad : dividesByZero twoCellMesh twoCellCache ([1, -1] : List ℚ) 0 := by
    simp [dividesByZero, twoCellMesh, twoCellCache, Tessellation.GetEdge]
  have hnone : applyChecked id (⟨[0], [1]⟩ : LagrangianFlux ℚ) twoCellMesh 1 twoCellCache
      [unitRecord, unitRecord] = none := by
    have hr : List.range twoCellMesh.getAllEdges.length = [0] := by decide
    rw [applyChecked, hdV, hr, List.foldlM_cons, correctionStepChecked, if_pos hbad]
    rfl
  refine ⟨?_, hdV, ?_, ?_, hnone, ?_⟩
  · intro i
    cases i with
    | zero => rfl
    | succ j => rfl
  · rw [hdV]
    simp [twoCellCache]
  · rw [hdV]
    exact hbad
  · rw [hnone]
    exact fun h => Option.noConfusion h

/-- C16 (amended): when every wave speed that the updater reads is zero and no
iteration of the second loop divides by zero (`volumes[c] + dV[c] ≠ 0` for the
real neighbours `c` of every interface that is not a self-edge), the records
the updater returns are the records of the baseline updater, whatever the edge
velocities, the areas and the timestep. -/
theorem C16_zero_wave_speed_noop_off_singularity
    (beu : List (Extensive K) → List (Extensive K)) (fc : LagrangianFlux K)
    (tess : Tessellation K) (dt : K) (cd : CacheData K) (extensives : List (Extensive K))
    (hws : ∀ i, i < tess.getAllEdges.length → fc.ws_.getD i 0 = 0)
    (hden : ∀ i, i < tess.getAllEdges.length →
      ¬ dividesByZero tess cd
        (sweptVolumes tess dt cd fc (List.range tess.getAllEdges.length)) i) :
    applyChecked beu fc tess dt cd extensives = some (beu extensives) ∧
      apply beu fc tess dt cd extensives = beu extensives := by
  have h := applyOver_eq_baseline_of_ws_zero beu fc tess dt cd extensives
    (List.range tess.getAllEdges.length) hws
  refine ⟨?_, h⟩
  rw [applyChecked_eq_some_apply beu fc tess dt cd extensives hden]
  exact congrArg some h

/-- C16 (amended) on the two-cell mesh with cell volumes `2`, wave speed `0` and
edge velocity `1`: the denominators are `3` and `1`. -/
theorem C16_zero_wave_speed_noop_off_singularity_witness :
    applyChecked id (⟨[0], [1]⟩ : LagrangianFlux ℚ) twoCellMesh 1 twoCellCacheWide
        [unitRecord, unitRecord] = some (id [unitRecord, unitRecord]) ∧
      apply id (⟨[0], [1]⟩ : LagrangianFlux ℚ) twoCellMesh 1 twoCellCacheWide
        [unitRecord, unitRecord] = id [unitRecord, unitRecord] :=
  C16_zero_wave_speed_noop_off_singularity id ⟨[0], [1]⟩ twoCellMesh 1 twoCellCacheWide
    [unitRecord, unitRecord] (by intro i _; cases i <;> rfl)
    (by
      intro i hi
      have hdV : sweptVolumes twoCellMesh 1 twoCellCacheWide (⟨[0], [1]⟩ : LagrangianFlux ℚ)
          (List.range twoCellMesh.getAllEdges.length) = [1, -1] := by
        simp [sweptVolumes, sweptVolumeStep, vecResize, twoCellMesh, twoCellCacheWide,
          List.range_succ]
      rw [hdV]
      cases i with
      | zero =>
        simp only [dividesByZero, twoCellMesh, twoCellCacheWide, Tessellation.GetEdge]
        norm_num
      | succ j => exact absurd hi (by simp [twoCellMesh]))

end LagrangianExtensiveUpdater

section ClampFactor

variable {K : Type} [LinearOrderedField K]

/-- The facts of C17 for one check, in terms of the component `u` towards the
side, the velocity `w` and the distance `D` to the side. -/
theorem clamp_factor_facts {vabs : Vector2D K → K} (hn : IsNorm vabs) (w : Vector2D K)
    (u D dt : K) (hdt : 0 < dt) (hD : 0 ≤ D) (hun : |u| ≤ vabs w) (hfire : D < u * dt * 2) :
    0 < vabs w ∧ 0 ≤ 0.4 * D * (1 / dt) / vabs w ∧ 0.4 * D * (1 / dt) / vabs w < 0.8 ∧
      vabs (Vector2D.mulS w (0.4 * D * (1 / dt) / vabs w)) < vabs w := by
  obtain ⟨hn0, hf0, hf8, _, _⟩ := clamp_arith u (vabs w) D dt hdt hD hun hfire
  refine ⟨hn0, hf0, hf8, ?_⟩
  rw [hn.vabs_mulS _ _ hf0]
  nlinarith

/-- C17: for a point inside the domain rectangle and `dt > 0`, whenever one of
the four checks fires on the velocity `w` of the point, `|w|` is positive, so
the division is not by zero, the factor `f` satisfies `0 ≤ f < 0.8`, and the
stored velocity `w * f` is shorter than `w`: a clamp neither reverses nor
increases a velocity. -/
theorem C17_clamp_factor_range (vabs : Vector2D K → K) (vdist : Vector2D K → Vector2D K → K)
    (dt : K) (tess : Tessellation K) (outer : OuterBoundary K) (hn : IsNorm vabs) (hdt : 0 < dt)
    (i : Nat) (hin : insideDomain outer (tess.GetMeshPoint i)) (v : List (Vector2D K)) :
    ((v.getD i 0).x * dt * 2 + (tess.GetMeshPoint i).x > outer.GetGridBoundary Direction.Right →
      ∀ f : K, f = 0.4 * (outer.GetGridBoundary Direction.Right - (tess.GetMeshPoint i).x) *
          (1 / dt) / vabs (v.getD i 0) →
        clampRight vabs vdist dt tess outer v i =
            LimitNeighborVelocity vdist (v.set i (Vector2D.mulS (v.getD i 0) f)) tess i f ∧
          0 < vabs (v.getD i 0) ∧ 0 ≤ f ∧ f < 0.8 ∧
          vabs (Vector2D.mulS (v.getD i 0) f) < vabs (v.getD i 0)) ∧
    ((v.getD i 0).x * dt * 2 + (tess.GetMeshPoint i).x < outer.GetGridBoundary Direction.Left →
      ∀ f : K, f = 0.4 * ((tess.GetMeshPoint i).x - outer.GetGridBoundary Direction.Left) *
          (1 / dt) / vabs (v.getD i 0) →
        clampLeft vabs vdist dt tess outer v i =
            LimitNeighborVelocity vdist (v.set i (Vector2D.mulS (v.getD i 0) f)) tess i f ∧
          0 < vabs (v.getD i 0) ∧ 0 ≤ f ∧ f < 0.8 ∧
          vabs (Vector2D.mulS (v.getD i 0) f) < vabs (v.getD i 0)) ∧
    ((v.getD i 0).y * dt * 2 + (tess.GetMeshPoint i).y > outer.GetGridBoundary Direction.Up →
      ∀ f : K, f = 0.4 * (outer.GetGridBoundary Direction.Up - (tess.GetMeshPoint i).y) *
          (1 / dt) / vabs (v.getD i 0) →
        clampUp vabs vdist dt tess outer v i =
            LimitNeighborVelocity vdist (v.set i (Vector2D.mulS (v.getD i 0) f)) tess i f ∧
          0 < vabs (v.getD i 0) ∧ 0 ≤ f ∧ f < 0.8 ∧
          vabs (Vector2D.mulS (v.getD i 0) f) < vabs (v.getD i 0)) ∧
    ((v.getD i 0).y * dt * 2 + (tess.GetMeshPoint i).y < outer.GetGridBoundary Direction.Down →
      ∀ f : K, f = 0.4 * ((tess.GetMeshPoint i).y - outer.GetGridBoundary Direction.Down) *
          (1 / dt) / vabs (v.getD i 0) →
        clampDown vabs vdist dt tess outer v i =
            LimitNeighborVelocity vdist (v.set i (Vector2D.mulS (v.getD i 0) f)) tess i f ∧
          0 < vabs (v.getD i 0) ∧ 0 ≤ f ∧ f < 0.8 ∧
          vabs (Vector2D.mulS (v.getD i 0) f) < vabs (v.getD i 0)) := by
  refine ⟨?_, ?_, ?_, ?_⟩
  · intro hc f hf
    subst hf
    exact ⟨by simp only [clampRight, if_pos hc],
      clamp_factor_facts hn _ (v.getD i 0).x _ dt hdt (by linarith [hin.2.1]) (hn.abs_x_le _)
        (by linarith)⟩
  · intro hc f hf
    subst hf
    exact ⟨by simp only [clampLeft, if_pos hc],
      clamp_factor_facts hn _ (-(v.getD i 0).x) _ dt hdt (by linarith [hin.1])
        (by rw [abs_neg]; exact hn.abs_x_le _) (by linarith)⟩
  · intro hc f hf
    subst hf
    exact ⟨by simp only [clampUp, if_pos hc],
      clamp_factor_facts hn _ (v.getD i 0).y _ dt hdt (by linarith [hin.2.2.2]) (hn.abs_y_le _)
        (by linarith)⟩
  · intro hc f hf
    subst hf
    exact ⟨by simp only [clampDown, if_pos hc],
      clamp_factor_facts hn _ (-(v.getD i 0).y) _ dt hdt (by linarith [hin.2.2.1])
        (by rw [abs_neg]; exact hn.abs_y_le _) (by linarith)⟩

/-- C17 on the one-point mesh in the unit square: with `dt = 1` the right check
fires on the velocity `(3, 4)`. -/
theorem C17_clamp_factor_range_witness :
    ∃ f : ℝ,
      f = 0.4 * ((unitSquare ℝ).GetGridBoundary Direction.Right -
          ((onePointMesh ℝ).GetMeshPoint 0).x) * (1 / 1) /
        (fun w : Vector2D ℝ => Real.sqrt (w.x * w.x + w.y * w.y))
          (([⟨3, 4⟩] : List (Vector2D ℝ)).getD 0 0) ∧
      clampRight (fun w => Real.sqrt (w.x * w.x + w.y * w.y))
          (fun a b => Real.sqrt ((a.x - b.x) * (a.x - b.x) + (a.y - b.y) * (a.y - b.y)))
          1 (onePointMesh ℝ) (unitSquare ℝ) [⟨3, 4⟩] 0 =
        LimitNeighborVelocity
          (fun a b => Real.sqrt ((a.x - b.x) * (a.x - b.x) + (a.y - b.y) * (a.y - b.y)))
          (([⟨3, 4⟩] : List (Vector2D ℝ)).set 0
            (Vector2D.mulS (([⟨3, 4⟩] : List (Vector2D ℝ)).getD 0 0) f))
          (onePointMesh ℝ) 0 f ∧
      0 < (fun w : Vector2D ℝ => Real.sqrt (w.x * w.x + w.y * w.y))
        (([⟨3, 4⟩] : List (Vector2D ℝ)).getD 0 0) ∧
      0 ≤ f ∧ f < 0.8 ∧
      (fun w : Vector2D ℝ => Real.sqrt (w.x * w.x + w.y * w.y))
          (Vector2D.mulS (([⟨3, 4⟩] : List (Vector2D ℝ)).getD 0 0) f) <
        (fun w : Vector2D ℝ => Real.sqrt (w.x * w.x + w.y * w.y))
          (([⟨3, 4⟩] : List (Vector2D ℝ)).getD 0 0) :=
  ⟨_, rfl,
    (C17_clamp_factor_range (fun w => Real.sqrt (w.x * w.x + w.y * w.y))
      (fun a b => Real.sqrt ((a.x - b.x) * (a.x - b.x) + (a.y - b.y) * (a.y - b.y)))
      1 (onePointMesh ℝ) (unitSquare ℝ) euclid_isNorm one_pos 0 (onePointMesh_inside 0)
      [⟨3, 4⟩]).1 (by simp [onePointMesh, unitSquare]; norm_num) _ rfl⟩

end ClampFactor

namespace LagrangianExtensiveUpdater

variable {K : Type} [LinearOrderedField K]

theorem sum_set_getD (l : List K) : ∀ (j : Nat) (x : K), j < l.length →
    (l.set j x).sum = l.sum - l.getD j 0 + x := by
  induction l with
  | nil => intro j x hj; exact absurd hj (Nat.not_lt_zero j)
  | cons a l ih =>
    intro j x hj
    cases j with
    | zero => simp only [List.set_cons_zero, List.sum_cons, List.getD_cons_zero]; ring
    | succ k =>
      have hk : k < l.length := Nat.lt_of_succ_lt_succ hj
      simp only [List.set_cons_succ, List.sum_cons, List.getD_cons_succ, ih k x hk]
      ring

theorem sweptVolumeStep_sum (tess : Tessellation K) (dt : K) (cd : CacheData K)
    (edge_vel dV : List K) (i : Nat) (hlen : dV.length = tess.GetPointNo)
    (h1 : (tess.getAllEdges.getD i default).neighbors.1 < tess.GetPointNo)
    (h2 : (tess.getAllEdges.getD i default).neighbors.2 < tess.GetPointNo) :
    (sweptVolumeStep tess dt cd edge_vel dV i).sum = dV.sum := by
  simp only [sweptVolumeStep, h1, h2, if_true]
  rw [sum_set_getD _ _ _ (by rw [List.length_set, hlen]; exact h2),
    sum_set_getD _ _ _ (by rw [hlen]; exact h1)]
  ring

theorem foldl_sweptVolumeStep_sum (tess : Tessellation K) (dt : K) (cd : CacheData K)
    (edge_vel : List K) (idx : List Nat)
    (hclosed : ∀ i ∈ idx, (tess.getAllEdges.getD i default).neighbors.1 < tess.GetPointNo ∧
      (tess.getAllEdges.getD i default).neighbors.2 < tess.GetPointNo) :
    ∀ dV : List K, dV.length = tess.GetPointNo →
      (idx.foldl (sweptVolumeStep tess dt cd edge_vel) dV).sum = dV.sum := by
  induction idx with
  | nil => intro dV _; rfl
  | cons i rest ih =>
    intro dV hlen
    have hi := hclosed i (List.mem_cons_self i rest)
    rw [List.foldl_cons, ih (fun k hk => hclosed k (List.mem_cons_of_mem i hk)) _
      (by rw [sweptVolumeStep_length, hlen]),
      sweptVolumeStep_sum tess dt cd edge_vel dV i hlen hi.1 hi.2]

/-- C18: when both neighbours of every interface are real cells, the swept
volumes `dV[c]` of the real cells add up to zero, for all areas, timesteps and
edge velocities; each iteration of the first loop leaves the sum of `dV` as it
was, because what the first neighbour gains the second one loses. -/
theorem C18_swept_volumes_sum_to_zero (tess : Tessellation K) (dt : K) (cd : CacheData K)
    (fc : LagrangianFlux K)
    (hclosed : ∀ e ∈ tess.getAllEdges,
      e.neighbors.1 < tess.GetPointNo ∧ e.neighbors.2 < tess.GetPointNo) :
    (sweptVolumes tess dt cd fc (List.range tess.getAllEdges.length)).sum = 0 ∧
      (sweptVolumes tess dt cd fc (List.range tess.getAllEdges.length)).length =
        tess.GetPointNo ∧
      ∀ (edge_vel dV : List K) (i : Nat), dV.length = tess.GetPointNo →
        i < tess.getAllEdges.length →
        (sweptVolumeStep tess dt cd edge_vel dV i).sum = dV.sum := by
  have hedge : ∀ i, i < tess.getAllEdges.length →
      (tess.getAllEdges.getD i default).neighbors.1 < tess.GetPointNo ∧
        (tess.getAllEdges.getD i default).neighbors.2 < tess.GetPointNo := by
    intro i hi
    have hmem : tess.getAllEdges.getD i default ∈ tess.getAllEdges := by
      rw [List.getD_eq_getElem _ _ hi]
      exact List.getElem_mem hi
    exact hclosed _ hmem
  refine ⟨?_, sweptVolumes_length tess dt cd fc _, ?_⟩
  · unfold sweptVolumes
    rw [foldl_sweptVolumeStep_sum tess dt cd _ _
      (fun i hi => hedge i (List.mem_range.mp hi)) _ (List.length_replicate _ _)]
    simp only [List.sum_replicate, smul_zero]
  · intro edge_vel dV i hlen hi
    exact sweptVolumeStep_sum tess dt cd edge_vel dV i hlen (hedge i hi).1 (hedge i hi).2

/-- C18 on the two-cell mesh with edge velocity `1`. -/
theorem C18_swept_volumes_sum_to_zero_witness :
    (sweptVolumes twoCellMesh 1 twoCellCache (⟨[0], [1]⟩ : LagrangianFlux ℚ)
        (List.range twoCellMesh.getAllEdges.length)).sum = 0 :=
  (C18_swept_volumes_sum_to_zero twoCellMesh 1 twoCellCache ⟨[0], [1]⟩ (by decide)).1

end LagrangianExtensiveUpdater

section RampBounds

variable {K : Type} [LinearOrderedField K]

theorem rampProfile_le_one (etaR d : K) (h : 0 < etaR) : rampProfile etaR d ≤ 1 := by
  unfold rampProfile
  split
  · exact zero_le_one
  · split
    · exact le_refl 1
    · rw [div_le_one (by linarith)]
      linarith

theorem rampProfile_mono (etaR : K) (h : 0 < etaR) (d d' : K) (hdd : d ≤ d') :
    rampProfile etaR d ≤ rampProfile etaR d' := by
  have hpos : (0 : K) < 0.2 * etaR := by linarith
  by_cases hlow : d < 0.9 * etaR
  · have h0 : rampProfile etaR d = 0 := by rw [rampProfile, if_pos hlow]
    rw [h0]
    exact rampProfile_nonneg etaR d' h
  · by_cases hhigh' : d' > 1.1 * etaR
    · have h1 : rampProfile etaR d' = 1 := by
        rw [rampProfile, if_neg (by linarith), if_pos hhigh']
      rw [h1]
      exact rampProfile_le_one etaR d h
    · have hlow' : ¬ d' < 0.9 * etaR := by linarith
      have hhigh : ¬ d > 1.1 * etaR := by linarith
      rw [rampProfile, rampProfile, if_neg hlow, if_neg hhigh, if_neg hlow', if_neg hhigh']
      exact div_le_div_of_nonneg_right (by linarith) hpos.le

theorem calc_dw_eq_ramp (rc : RoundCells K) (vabs : Vector2D K → K) (tess : Tessellation K)
    (cells : List (ComputationalCell K)) (i : Nat) :
    rc.calc_dw vabs i tess cells =
      if vabs (Vector2D.sub (tess.GetCellCM i) (tess.GetMeshPoint i)) <
          0.9 * rc.eta_ * tess.GetWidth i then ⟨0, 0⟩
      else
        Vector2D.mulS
          (Vector2D.divS
            (Vector2D.smul
              (rc.chi_ *
                rc.dp2c (cells.getD i default).density (cells.getD i default).pressure)
              (Vector2D.sub (tess.GetCellCM i) (tess.GetMeshPoint i)))
            (vabs (Vector2D.sub (tess.GetCellCM i) (tess.GetMeshPoint i))))
          (rampProfile (rc.eta_ * tess.GetWidth i)
            (vabs (Vector2D.sub (tess.GetCellCM i) (tess.GetMeshPoint i)))) := by
  simp only [RoundCells.calc_dw, rampProfile, ← mul_assoc]
  split
  · rfl
  · rfl

theorem calc_dw_magnitude_le (rc : RoundCells K) (vabs : Vector2D K → K)
    (tess : Tessellation K) (cells : List (ComputationalCell K)) (i : Nat) (hn : IsNorm vabs)
    (hER : 0 < rc.eta_ * tess.GetWidth i) :
    vabs (rc.calc_dw vabs i tess cells) ≤
      |rc.chi_ * rc.dp2c (cells.getD i default).density (cells.getD i default).pressure| := by
  by_cases hlow : vabs (Vector2D.sub (tess.GetCellCM i) (tess.GetMeshPoint i)) <
      0.9 * rc.eta_ * tess.GetWidth i
  · have hz : rc.calc_dw vabs i tess cells = ⟨0, 0⟩ := by
      simp only [RoundCells.calc_dw, if_pos hlow]
    rw [hz, hn.eq_of_sq ⟨0, 0⟩ 0 (le_refl 0) (by simp)]
    exact abs_nonneg _
  · have hd : 0 < vabs (Vector2D.sub (tess.GetCellCM i) (tess.GetMeshPoint i)) := by
      have : 0 < 0.9 * rc.eta_ * tess.GetWidth i := by nlinarith
      linarith [not_lt.mp hlow]
    rw [calc_dw_magnitude rc vabs tess cells i hn hER hd, dwMagnitude]
    calc |rc.chi_ * rc.dp2c (cells.getD i default).density (cells.getD i default).pressure| *
          rampProfile (rc.eta_ * tess.GetWidth i)
            (vabs (Vector2D.sub (tess.GetCellCM i) (tess.GetMeshPoint i)))
        ≤ |rc.chi_ * rc.dp2c (cells.getD i default).density (cells.getD i default).pressure| *
          1 := mul_le_mul_of_nonneg_left (rampProfile_le_one _ _ hER) (abs_nonneg _)
      _ = _ := mul_one _

/-- C19: for a cell with `eta*R > 0`, the multiplier that `calc_dw` applies to
`chi*c*(s - r)/d` is `rampProfile (eta*R) d`, which lies in `[0, 1]` and does
not decrease when `d` grows; hence the length of the regularization term is at
most `|chi*c|`, and at most `|chi * (0.25*R/dt)|` for the overload that takes
the timestep. -/
theorem C19_ramp_multiplier_bounded (rc : RoundCells K) (vabs : Vector2D K → K)
    (tess : Tessellation K) (cells : List (ComputationalCell K)) (i : Nat) (dt : K)
    (hn : IsNorm vabs) (hER : 0 < rc.eta_ * tess.GetWidth i) :
    (∀ d : K, 0 ≤ rampProfile (rc.eta_ * tess.GetWidth i) d ∧
        rampProfile (rc.eta_ * tess.GetWidth i) d ≤ 1) ∧
      (∀ d d' : K, d ≤ d' →
        rampProfile (rc.eta_ * tess.GetWidth i) d ≤
          rampProfile (rc.eta_ * tess.GetWidth i) d') ∧
      rc.calc_dw vabs i tess cells =
        (if vabs (Vector2D.sub (tess.GetCellCM i) (tess.GetMeshPoint i)) <
            0.9 * rc.eta_ * tess.GetWidth i then ⟨0, 0⟩
        else
          Vector2D.mulS
            (Vector2D.divS
              (Vector2D.smul
                (rc.chi_ *
                  rc.dp2c (cells.getD i default).density (cells.getD i default).pressure)
                (Vector2D.sub (tess.GetCellCM i) (tess.GetMeshPoint i)))
              (vabs (Vector2D.sub (tess.GetCellCM i) (tess.GetMeshPoint i))))
            (rampProfile (rc.eta_ * tess.GetWidth i)
              (vabs (Vector2D.sub (tess.GetCellCM i) (tess.GetMeshPoint i))))) ∧
      vabs (rc.calc_dw vabs i tess cells) ≤
        |rc.chi_ * rc.dp2c (cells.getD i default).density (cells.getD i default).pressure| ∧
      vabs (rc.calc_dw_dt vabs i tess dt) ≤ |rc.chi_ * (0.25 * tess.GetWidth i / dt)| := by
  refine ⟨fun d => ⟨rampProfile_nonneg _ d hER, rampProfile_le_one _ d hER⟩,
    fun d d' hdd => rampProfile_mono _ hER d d' hdd,
    calc_dw_eq_ramp rc vabs tess cells i,
    calc_dw_magnitude_le rc vabs tess cells i hn hER, ?_⟩
  rw [calc_dw_dt_eq_calc_dw rc vabs i tess dt cells]
  exact calc_dw_magnitude_le
    ({ rc with dp2c := fun _ _ => 0.25 * tess.GetWidth i / dt } : RoundCells K) vabs tess cells i
    hn hER

/-- C19 for the sample object on the one-point mesh, with the Euclidean length
and `dt = 1`. -/
theorem C19_ramp_multiplier_bounded_witness :
    (∀ d : ℝ, 0 ≤ rampProfile ((sampleRoundCells ℝ).eta_ * (onePointMesh ℝ).GetWidth 0) d ∧
        rampProfile ((sampleRoundCells ℝ).eta_ * (onePointMesh ℝ).GetWidth 0) d ≤ 1) ∧
      (∀ d d' : ℝ, d ≤ d' →
        rampProfile ((sampleRoundCells ℝ).eta_ * (onePointMesh ℝ).GetWidth 0) d ≤
          rampProfile ((sampleRoundCells ℝ).eta_ * (onePointMesh ℝ).GetWidth 0) d') ∧
      (fun w : Vector2D ℝ => Real.sqrt (w.x * w.x + w.y * w.y))
          ((sampleRoundCells ℝ).calc_dw (fun w => Real.sqrt (w.x * w.x + w.y * w.y)) 0
            (onePointMesh ℝ) []) ≤
        |(sampleRoundCells ℝ).chi_ *
          (sampleRoundCells ℝ).dp2c (([] : List (ComputationalCell ℝ)).getD 0 default).density
            (([] : List (ComputationalCell ℝ)).getD 0 default).pressure| ∧
      (fun w : Vector2D ℝ => Real.sqrt (w.x * w.x + w.y * w.y))
          ((sampleRoundCells ℝ).calc_dw_dt (fun w => Real.sqrt (w.x * w.x + w.y * w.y)) 0
            (onePointMesh ℝ) 1) ≤
        |(sampleRoundCells ℝ).chi_ * (0.25 * (onePointMesh ℝ).GetWidth 0 / 1)| :=
  ⟨(C19_ramp_multiplier_bounded (sampleRoundCells ℝ) _ (onePointMesh ℝ) [] 0 1 euclid_isNorm
      (by simp [sampleRoundCells, onePointMesh])).1,
    (C19_ramp_multiplier_bounded (sampleRoundCells ℝ) _ (onePointMesh ℝ) [] 0 1 euclid_isNorm
      (by simp [sampleRoundCells, onePointMesh])).2.1,
    (C19_ramp_multiplier_bounded (sampleRoundCells ℝ) _ (onePointMesh ℝ) [] 0 1 euclid_isNorm
      (by simp [sampleRoundCells, onePointMesh])).2.2.2.1,
    (C19_ramp_multiplier_bounded (sampleRoundCells ℝ) _ (onePointMesh ℝ) [] 0 1 euclid_isNorm
      (by simp [sampleRoundCells, onePointMesh])).2.2.2.2⟩

end RampBounds

end HujiRich
